import Mathlib

/-! # ollama-go: host normalisation, transport, streams and error classification

A shallow embedding of `ollama/host.go`, `ollama/client.go`, `ollama/stream.go`,
`ollama/errors.go` and of the requests and the type `Image` of `ollama/types.go`.

Go strings are byte sequences.  A string is modelled as a `List Char` in which every
character stands for one byte (its code point, below 256); ASCII text is therefore
written as usual.  The functions of the Go standard library that the package calls
(`strings`, `net/url`, `encoding/json`, `errors`, `bufio`, `encoding/base64`,
`crypto/sha256`, `os`) are modelled next to the code that uses them, following the Go 1.22
sources.  What the surroundings decide (the environment, the network and the way it
hands over the bytes of a body, the file system) is a parameter of the definitions.
-/

namespace Ollama

/-- A Go string: a sequence of bytes. -/
abbrev Str := List Char

/-! ## Package `strings` -/

namespace Strings

/-- Go `strings.Cut(s, sep)`: the text before and after the first occurrence of `sep`,
or `none` when `sep` does not occur (`found = false`). -/
def cut (sep : Str) : Str → Option (Str × Str)
  | [] => if sep = [] then some ([], []) else none
  | c :: cs =>
    if sep.isPrefixOf (c :: cs) then some ([], (c :: cs).drop sep.length)
    else match cut sep cs with
      | some (a, b) => some (c :: a, b)
      | none => none

/-- Go `strings.Contains(s, sub)`. -/
def contains (s sub : Str) : Bool := (cut sub s).isSome

/-- Split at the last occurrence of the byte `c`: `(s[:i], s[i+1:])` for
`i = strings.LastIndexByte(s, c)`, or `none` when `i = -1`. -/
def cutLast (c : Char) : Str → Option (Str × Str)
  | [] => none
  | x :: xs =>
    match cutLast c xs with
    | some (a, b) => some (x :: a, b)
    | none => if x = c then some ([], xs) else none

/-- The ASCII white space of Go `strings.TrimSpace`: tab, line feed, vertical tab,
form feed, carriage return and space. -/
def isAsciiSpace (c : Char) : Bool :=
  c.toNat = 9 || c.toNat = 10 || c.toNat = 11 || c.toNat = 12 || c.toNat = 13 || c.toNat = 32

/-- The byte sequence with the given byte values. -/
def bytes (ns : List Nat) : Str := ns.map Char.ofNat

/-- The UTF-8 encodings of the non-ASCII runes for which Go `unicode.IsSpace` holds:
U+0085, U+00A0, U+1680, U+2000 to U+200A, U+2028, U+2029, U+202F, U+205F, U+3000. -/
def unicodeSpaces : List Str :=
  [bytes [0xC2, 0x85], bytes [0xC2, 0xA0], bytes [0xE1, 0x9A, 0x80],
   bytes [0xE2, 0x80, 0x80], bytes [0xE2, 0x80, 0x81], bytes [0xE2, 0x80, 0x82],
   bytes [0xE2, 0x80, 0x83], bytes [0xE2, 0x80, 0x84], bytes [0xE2, 0x80, 0x85],
   bytes [0xE2, 0x80, 0x86], bytes [0xE2, 0x80, 0x87], bytes [0xE2, 0x80, 0x88],
   bytes [0xE2, 0x80, 0x89], bytes [0xE2, 0x80, 0x8A], bytes [0xE2, 0x80, 0xA8],
   bytes [0xE2, 0x80, 0xA9], bytes [0xE2, 0x80, 0xAF], bytes [0xE2, 0x81, 0x9F],
   bytes [0xE3, 0x80, 0x80]]

/-- Remove one leading white-space rune, if there is one. -/
def stripSpace (s : Str) : Option Str :=
  match s with
  | [] => none
  | c :: cs =>
    if isAsciiSpace c then some cs
    else match unicodeSpaces.find? (fun w => w.isPrefixOf s) with
      | some w => some (s.drop w.length)
      | none => none

/-- Remove one trailing white-space rune from a string given in reverse. -/
def stripSpaceRev (r : Str) : Option Str :=
  match r with
  | [] => none
  | c :: cs =>
    if isAsciiSpace c then some cs
    else match unicodeSpaces.find? (fun w => w.reverse.isPrefixOf r) with
      | some w => some (r.drop w.length)
      | none => none

/-- Apply a one-rune stripper until it no longer applies (at most `fuel` times). -/
def stripAll (strip : Str → Option Str) : Nat → Str → Str
  | 0, s => s
  | fuel + 1, s =>
    match strip s with
    | some r => stripAll strip fuel r
    | none => s

/-- Go `strings.TrimLeftFunc(s, unicode.IsSpace)`. -/
def trimLeftSpace (s : Str) : Str := stripAll stripSpace s.length s

/-- Go `strings.TrimRightFunc(s, unicode.IsSpace)`. -/
def trimRightSpace (s : Str) : Str := (stripAll stripSpaceRev s.length s.reverse).reverse

/-- Go `strings.TrimSpace`: all leading and trailing white space removed. -/
def trimSpace (s : Str) : Str := trimRightSpace (trimLeftSpace s)

/-- Remove every leading occurrence of the byte `c`. -/
def trimLeftByte (c : Char) : Str → Str
  | [] => []
  | x :: xs => if x = c then trimLeftByte c xs else x :: xs

/-- Go `strings.Trim(s, cutset)` for a cutset of the single byte `c`. -/
def trimByte (c : Char) (s : Str) : Str :=
  (trimLeftByte c (trimLeftByte c s).reverse).reverse

/-- Go `strings.ToLower`, as far as ASCII text can tell: an ASCII capital becomes its
small letter, and so do the two non-ASCII runes whose lower case is ASCII, U+0130 (to `i`)
and U+212A (to `k`).  Every other non-ASCII byte is kept: the lower case of such a rune
is again non-ASCII.  `skip` counts the bytes of a rune already replaced. -/
def toLowerFrom : Str → Nat → Str
  | [], _ => []
  | c :: cs, skip =>
    match skip with
    | k + 1 => toLowerFrom cs k
    | 0 =>
      if (bytes [0xC4, 0xB0]).isPrefixOf (c :: cs) then 'i' :: toLowerFrom cs 1
      else if (bytes [0xE2, 0x84, 0xAA]).isPrefixOf (c :: cs) then 'k' :: toLowerFrom cs 2
      else (if 65 ≤ c.toNat ∧ c.toNat ≤ 90 then Char.ofNat (c.toNat + 32) else c) ::
        toLowerFrom cs 0

/-- Go `strings.ToLower` (see `toLowerFrom`). -/
def toLower (s : Str) : Str := toLowerFrom s 0

/-- The ASCII capitals of a string made small, every other byte kept. -/
def lowerASCII (s : Str) : Str :=
  s.map (fun c => if 65 ≤ c.toNat ∧ c.toNat ≤ 90 then Char.ofNat (c.toNat + 32) else c)

end Strings

/-! ## Package `net/url` -/

namespace Url

/-- The apostrophe byte. -/
def apostrophe : Char := Char.ofNat 39

/-- The escaping modes of `net/url`. -/
inductive Encoding where
  | encodePath
  | encodePathSegment
  | encodeHost
  | encodeZone
  | encodeUserPassword
  | encodeQueryComponent
  | encodeFragment
  deriving DecidableEq, Repr

open Encoding

/-- An ASCII letter. -/
def isLetter (c : Char) : Bool :=
  (97 ≤ c.toNat && c.toNat ≤ 122) || (65 ≤ c.toNat && c.toNat ≤ 90)

/-- An ASCII digit. -/
def isDigit (c : Char) : Bool := 48 ≤ c.toNat && c.toNat ≤ 57

/-- Go `ishex`. -/
def ishex (c : Char) : Bool :=
  isDigit c || (97 ≤ c.toNat && c.toNat ≤ 102) || (65 ≤ c.toNat && c.toNat ≤ 70)

/-- Go `unhex`. -/
def unhex (c : Char) : Nat :=
  if isDigit c then c.toNat - 48
  else if 97 ≤ c.toNat ∧ c.toNat ≤ 102 then c.toNat - 97 + 10
  else if 65 ≤ c.toNat ∧ c.toNat ≤ 70 then c.toNat - 65 + 10
  else 0

/-- The characters that a host may hold unescaped besides letters and digits
(the first `switch` of `shouldEscape`). -/
def hostSubDelims : Str := apostrophe :: "!$&()*+,;=:[]<>\"".toList

/-- Go `shouldEscape(c, mode)`. -/
def shouldEscape (c : Char) (mode : Encoding) : Bool :=
  if isLetter c || isDigit c then false
  else if (mode = encodeHost ∨ mode = encodeZone) ∧ c ∈ hostSubDelims then false
  else if c ∈ "-_.~".toList then false
  else if c ∈ "$&+,/:;=?@".toList ∧ mode = encodePath then c = '?'
  else if c ∈ "$&+,/:;=?@".toList ∧ mode = encodePathSegment then
    c = '/' ∨ c = ';' ∨ c = ',' ∨ c = '?'
  else if c ∈ "$&+,/:;=?@".toList ∧ mode = encodeUserPassword then
    c = '@' ∨ c = '/' ∨ c = '?' ∨ c = ':'
  else if c ∈ "$&+,/:;=?@".toList ∧ mode = encodeQueryComponent then true
  else if c ∈ "$&+,/:;=?@".toList ∧ mode = encodeFragment then false
  else if mode = encodeFragment ∧ c ∈ "!()*".toList then false
  else true

/-- The first loop of Go `unescape`: every `%` starts a well-formed escape that the
mode allows and, for a host or zone, no byte needs escaping. -/
def unescapeOk (mode : Encoding) : Str → Bool
  | [] => true
  | c :: rest =>
    if c = '%' then
      match rest with
      | a :: b :: rest2 =>
        if !(ishex a && ishex b) then false
        else if mode = encodeHost ∧ unhex a < 8 ∧ ¬ (a = '2' ∧ b = '5') then false
        else if mode = encodeZone ∧ ¬ (a = '2' ∧ b = '5') ∧ unhex a * 16 + unhex b ≠ 32 ∧
            shouldEscape (Char.ofNat (unhex a * 16 + unhex b)) encodeHost then false
        else unescapeOk mode rest2
      | _ => false
    else if (mode = encodeHost ∨ mode = encodeZone) ∧ c.toNat < 128 ∧
        shouldEscape c encodeHost then false
    else unescapeOk mode rest

/-- The second loop of Go `unescape`: every escape replaced by the byte it names. -/
def unescapeBytes (mode : Encoding) : Str → Str
  | [] => []
  | c :: rest =>
    if c = '%' then
      match rest with
      | a :: b :: rest2 => Char.ofNat (unhex a * 16 + unhex b) :: unescapeBytes mode rest2
      | _ => []
    else if c = '+' ∧ mode = encodeQueryComponent then ' ' :: unescapeBytes mode rest
    else c :: unescapeBytes mode rest

/-- Go `unescape(s, mode)`; `none` stands for an `EscapeError` or `InvalidHostError`. -/
def unescape (s : Str) (mode : Encoding) : Option Str :=
  if unescapeOk mode s then some (unescapeBytes mode s) else none

/-- The upper-case hexadecimal digit of a value below 16 (Go `upperhex`). -/
def upperhex (n : Nat) : Char :=
  if n < 10 then Char.ofNat (48 + n) else Char.ofNat (55 + n)

/-- Go `escape(s, mode)` for a mode other than `encodeQueryComponent`. -/
def escape (s : Str) (mode : Encoding) : Str :=
  s.flatMap (fun c =>
    if shouldEscape c mode then ['%', upperhex (c.toNat / 16 % 16), upperhex (c.toNat % 16)]
    else [c])

/-- Go `validEncoded(s, mode)`. -/
def validEncoded (s : Str) (mode : Encoding) : Bool :=
  s.all (fun c =>
    if c ∈ apostrophe :: "!$&()*+,;=:@".toList then true
    else if c = '[' ∨ c = ']' then true
    else if c = '%' then true
    else !shouldEscape c mode)

/-- Go `validOptionalPort(port)`: empty, or a colon followed by digits only. -/
def validOptionalPort (port : Str) : Bool :=
  match port with
  | [] => true
  | c :: ds => c = ':' && ds.all isDigit

/-- Go `validUserinfo(s)`. -/
def validUserinfo (s : Str) : Bool :=
  s.all (fun r => isLetter r || isDigit r ||
    decide (r ∈ apostrophe :: "-._:~!$&()*+,;=%@".toList))

/-- The fields of Go `url.URL` that this package reads. -/
structure URL where
  Scheme : Str := []
  Opaque : Str := []
  Host : Str := []
  Path : Str := []
  RawPath : Str := []
  deriving DecidableEq, Repr

/-- Go `stringContainsCTLByte`. -/
def stringContainsCTLByte (s : Str) : Bool :=
  s.any (fun b => b.toNat < 32 || b.toNat = 127)

/-- The loop of Go `getScheme`, at index `i` with `rest = rawURL[i:]`. -/
def getSchemeFrom (rawURL : Str) : Nat → Str → Option (Str × Str)
  | _, [] => some ([], rawURL)
  | i, c :: cs =>
    if isLetter c then getSchemeFrom rawURL (i + 1) cs
    else if isDigit c ∨ c = '+' ∨ c = '-' ∨ c = '.' then
      if i = 0 then some ([], rawURL) else getSchemeFrom rawURL (i + 1) cs
    else if c = ':' then
      if i = 0 then none else some (rawURL.take i, cs)
    else some ([], rawURL)

/-- Go `getScheme(rawURL)`: the scheme and what follows its colon; `none` stands for
the error "missing protocol scheme". -/
def getScheme (rawURL : Str) : Option (Str × Str) := getSchemeFrom rawURL 0 rawURL

/-- Go `parseHost(host)` of `net/url`: the host with its escapes resolved; `none` stands
for any of its errors. -/
def parseHost (host : Str) : Option Str :=
  if ['['].isPrefixOf host then
    match Strings.cutLast ']' host with
    | none => none
    | some (before, colonPort) =>
      if !validOptionalPort colonPort then none
      else match Strings.cut "%25".toList before with
        | some (h1, _) =>
          match unescape h1 encodeHost with
          | none => none
          | some host1 =>
            match unescape ((before.drop h1.length)) encodeZone with
            | none => none
            | some host2 =>
              match unescape (']' :: colonPort) encodeHost with
              | none => none
              | some host3 => some (host1 ++ host2 ++ host3)
        | none => unescape host encodeHost
  else
    match Strings.cutLast ':' host with
    | some (_, port) =>
      if !validOptionalPort (':' :: port) then none else unescape host encodeHost
    | none => unescape host encodeHost

/-- Go `parseAuthority(authority)`, reduced to the host it returns; `none` stands for any
of its errors. -/
def parseAuthority (authority : Str) : Option Str :=
  match Strings.cutLast '@' authority with
  | none => parseHost authority
  | some (userinfo, hostport) =>
    match parseHost hostport with
    | none => none
    | some host =>
      if !validUserinfo userinfo then none
      else if !(':' ∈ userinfo) then
        match unescape userinfo encodeUserPassword with
        | none => none
        | some _ => some host
      else
        match Strings.cut [':'] userinfo with
        | none => none
        | some (username, password) =>
          match unescape username encodeUserPassword with
          | none => none
          | some _ =>
            match unescape password encodeUserPassword with
            | none => none
            | some _ => some host

/-- Go `(*URL).setPath(p)`. -/
def setPath (u : URL) (p : Str) : Option URL :=
  match unescape p encodePath with
  | none => none
  | some path =>
    if p = escape path encodePath then some { u with Path := path, RawPath := [] }
    else some { u with Path := path, RawPath := p }

/-- Go `parse(rawURL, viaRequest)` with `viaRequest = false`. -/
def parse (rawURL : Str) : Option URL :=
  if stringContainsCTLByte rawURL then none
  else if rawURL = ['*'] then some { Path := ['*'] }
  else
    match getScheme rawURL with
    | none => none
    | some (scheme, rest0) =>
      let url : URL := { Scheme := Strings.toLower scheme }
      -- both branches of the query split leave in `rest` what precedes the first `?`
      let rest := match Strings.cut ['?'] rest0 with
        | some (before, _) => before
        | none => rest0
      if ['/'].isPrefixOf rest = false ∧ url.Scheme ≠ [] then some { url with Opaque := rest }
      else if ['/'].isPrefixOf rest = false ∧
          (':' ∈ (match Strings.cut ['/'] rest with
            | some (segment, _) => segment
            | none => rest)) then none
      else if (url.Scheme ≠ [] ∨ ['/', '/', '/'].isPrefixOf rest = false) ∧
          ['/', '/'].isPrefixOf rest then
        let auth := rest.drop 2
        let (authority, rest2) := match Strings.cut ['/'] auth with
          | some (a, b) => (a, '/' :: b)
          | none => (auth, [])
        match parseAuthority authority with
        | none => none
        | some host => setPath { url with Host := host } rest2
      else setPath url rest

/-- Go `url.Parse(rawURL)`; `none` stands for a returned error. -/
def Parse (rawURL : Str) : Option URL :=
  match Strings.cut ['#'] rawURL with
  | none => parse rawURL
  | some (u, frag) =>
    match parse u with
    | none => none
    | some url =>
      if frag = [] then some url
      else match unescape frag encodeFragment with
        | none => none
        | some _ => some url

/-- Go `splitHostPort(hostPort)`. -/
def splitHostPort (hostPort : Str) : Str × Str :=
  let (host, port) := match Strings.cutLast ':' hostPort with
    | some (h, p) => if validOptionalPort (':' :: p) then (h, p) else (hostPort, [])
    | none => (hostPort, [])
  if ['['].isPrefixOf host ∧ [']'].isSuffixOf host then
    ((host.drop 1).take (host.length - 2), port)
  else (host, port)

/-- Go `(*URL).Hostname()`. -/
def URL.Hostname (u : URL) : Str := (splitHostPort u.Host).1

/-- Go `(*URL).Port()`. -/
def URL.Port (u : URL) : Str := (splitHostPort u.Host).2

/-- Go `(*URL).EscapedPath()`. -/
def URL.EscapedPath (u : URL) : Str :=
  if u.RawPath ≠ [] ∧ validEncoded u.RawPath encodePath ∧
      unescape u.RawPath encodePath = some u.Path then u.RawPath
  else if u.Path = ['*'] then ['*']
  else escape u.Path encodePath

end Url

/-! ## `ollama/host.go` -/

/-- The function `parseHost` of `ollama/host.go`: the canonical base URL
`scheme://host:port[/path]` of a loosely written host string. -/
def parseHost (input : Str) : Str :=
  let host := Strings.trimSpace input
  if host = [] then []
  else
    -- split scheme
    let (scheme, rest) := match Strings.cut "://".toList host with
      | some (s, after) => (s, after)
      | none => ("http".toList, host)
    match Url.Parse (scheme ++ "://".toList ++ rest) with
    | none => scheme ++ "://127.0.0.1:11434".toList
    | some u =>
      let h := u.Hostname
      let p := u.Port
      let path := Strings.trimByte '/' u.EscapedPath
      -- default port
      let defPort := "11434".toList
      let p :=
        if scheme = "http".toList then (if p = [] then "80".toList else p)
        else if scheme = "https".toList then (if p = [] then "443".toList else p)
        else p
      let (scheme, p) := match Strings.cut "://".toList host with
        | none => ("http".toList, if u.Port = [] then defPort else u.Port)
        | some _ =>
          (scheme,
            if u.Port = [] ∧ (scheme ≠ "http".toList ∧ scheme ≠ "https".toList) then defPort
            else p)
      let h :=
        if Strings.contains h [':'] ∧ ['['].isPrefixOf h = false then '[' :: h ++ [']'] else h
      let base := scheme ++ "://".toList ++ h ++ [':'] ++ (if p = [] then defPort else p)
      if path ≠ [] then base ++ ['/'] ++ path else base

/-! ## Package `encoding/json` -/

namespace Json

/-- A decoded JSON document.  A number is kept as the text of its literal; an object
keeps its members in the order of the text, duplicates included. -/
inductive Value where
  | null
  | bool (b : Bool)
  | number (literal : Str)
  | string (s : Str)
  | array (elems : List Value)
  | object (members : List (Str × Value))
  deriving Repr

/-- The double quote byte. -/
def quote : Char := Char.ofNat 34

/-- The backslash byte. -/
def backslash : Char := Char.ofNat 92

/-- JSON white space (Go `isSpace` of the scanner). -/
def isSpace (c : Char) : Bool :=
  c.toNat = 32 || c.toNat = 9 || c.toNat = 13 || c.toNat = 10

/-- Drop leading JSON white space. -/
def skipSpace : Str → Str
  | [] => []
  | c :: cs => if isSpace c then skipSpace cs else c :: cs

/-- Go `utf8.EncodeRune`: the UTF-8 bytes of a code point (surrogates and values out of
range become U+FFFD). -/
def encodeRune (r : Nat) : Str :=
  if r < 0x80 then [Char.ofNat r]
  else if r < 0x800 then [Char.ofNat (0xC0 + r / 64), Char.ofNat (0x80 + r % 64)]
  else if (0xD800 ≤ r ∧ r ≤ 0xDFFF) ∨ 0x10FFFF < r then Strings.bytes [0xEF, 0xBF, 0xBD]
  else if r < 0x10000 then
    [Char.ofNat (0xE0 + r / 4096), Char.ofNat (0x80 + r / 64 % 64), Char.ofNat (0x80 + r % 64)]
  else
    [Char.ofNat (0xF0 + r / 262144), Char.ofNat (0x80 + r / 4096 % 64),
     Char.ofNat (0x80 + r / 64 % 64), Char.ofNat (0x80 + r % 64)]

/-- The pieces of the text between the quotes of a string literal. -/
inductive Piece where
  | raw (b : Char)
  | unit (n : Nat)
  deriving Repr, DecidableEq

/-- The value of four hexadecimal digits (Go `getu4` after the two bytes of the escape). -/
def hex4 (a b c d : Char) : Option Nat :=
  if Url.ishex a && Url.ishex b && Url.ishex c && Url.ishex d then
    some (((Url.unhex a * 16 + Url.unhex b) * 16 + Url.unhex c) * 16 + Url.unhex d)
  else none

/-- The byte named by a one-letter escape. -/
def simpleEscape (e : Char) : Option Char :=
  if e = quote then some quote
  else if e = backslash then some backslash
  else if e = '/' then some '/'
  else if e = 'b' then some (Char.ofNat 8)
  else if e = 'f' then some (Char.ofNat 12)
  else if e = 'n' then some (Char.ofNat 10)
  else if e = 'r' then some (Char.ofNat 13)
  else if e = 't' then some (Char.ofNat 9)
  else none

/-- Scan a string literal from just after its opening quote: its pieces and the text
after the closing quote; `none` when the literal is malformed (a control byte, a bad
escape, or no closing quote). -/
def scanString : Str → Option (List Piece × Str)
  | [] => none
  | c :: cs =>
    if c = quote then some ([], cs)
    else if c = backslash then
      match cs with
      | [] => none
      | e :: cs1 =>
        if e = 'u' then
          match cs1 with
          | a :: b :: c2 :: d :: cs2 =>
            match hex4 a b c2 d with
            | none => none
            | some n =>
              match scanString cs2 with
              | none => none
              | some (ps, rest) => some (Piece.unit n :: ps, rest)
          | _ => none
        else
          match simpleEscape e with
          | none => none
          | some b =>
            match scanString cs1 with
            | none => none
            | some (ps, rest) => some (Piece.unit b.toNat :: ps, rest)
    else if c.toNat < 32 then none
    else
      match scanString cs with
      | none => none
      | some (ps, rest) => some (Piece.raw c :: ps, rest)

/-- A UTF-8 continuation byte within the given bounds. -/
def contByte (lo hi : Nat) (p : Piece) : Bool :=
  match p with
  | Piece.raw b => lo ≤ b.toNat && b.toNat ≤ hi
  | Piece.unit _ => false

/-- The number of pieces that Go `utf8.DecodeRune` accepts as one well-formed non-ASCII
rune at the head of a run of raw bytes, or `0` when the head is not well formed. -/
def runeLength (b0 : Nat) (rest : List Piece) : Nat :=
  let second : Nat × Nat :=
    if b0 = 0xE0 then (0xA0, 0xBF) else if b0 = 0xED then (0x80, 0x9F)
    else if b0 = 0xF0 then (0x90, 0xBF) else if b0 = 0xF4 then (0x80, 0x8F) else (0x80, 0xBF)
  let need : Nat :=
    if 0xC2 ≤ b0 ∧ b0 ≤ 0xDF then 1 else if 0xE0 ≤ b0 ∧ b0 ≤ 0xEF then 2
    else if 0xF0 ≤ b0 ∧ b0 ≤ 0xF4 then 3 else 0
  match need, rest with
  | 1, p1 :: _ => if contByte second.1 second.2 p1 then 2 else 0
  | 2, p1 :: p2 :: _ => if contByte second.1 second.2 p1 && contByte 0x80 0xBF p2 then 3 else 0
  | 3, p1 :: p2 :: p3 :: _ =>
    if contByte second.1 second.2 p1 && contByte 0x80 0xBF p2 && contByte 0x80 0xBF p3 then 4
    else 0
  | _, _ => 0

/-- The bytes of a raw piece. -/
def Piece.byte (p : Piece) : Str :=
  match p with
  | Piece.raw b => [b]
  | Piece.unit _ => []

/-- The rune of the surrogate pair formed by the escape `n` and the piece that follows
it, when they form one. -/
def surrogatePair (n : Nat) (ps : List Piece) : Option Nat :=
  match ps with
  | Piece.unit m :: _ =>
    if (0xD800 ≤ n ∧ n ≤ 0xDBFF) ∧ (0xDC00 ≤ m ∧ m ≤ 0xDFFF) then
      some (0x10000 + (n - 0xD800) * 1024 + (m - 0xDC00))
    else none
  | _ => none

/-- Go `unquote`, on the pieces of a literal: escapes resolved, a surrogate pair of
escapes combined, and every lone surrogate and every byte that is not part of well-formed
UTF-8 replaced by U+FFFD.  `skip` counts the pieces already accounted for: the
continuation bytes of an accepted rune, still to be copied, or the second escape of a
surrogate pair. -/
def unquotePieces : List Piece → Nat → Str
  | [], _ => []
  | p :: ps, skip =>
    match skip with
    | k + 1 => p.byte ++ unquotePieces ps k
    | 0 =>
      match p with
      | Piece.raw b =>
        if b.toNat < 128 then b :: unquotePieces ps 0
        else if runeLength b.toNat ps = 0 then
          Strings.bytes [0xEF, 0xBF, 0xBD] ++ unquotePieces ps 0
        else b :: unquotePieces ps (runeLength b.toNat ps - 1)
      | Piece.unit n =>
        match surrogatePair n ps with
        | some r => encodeRune r ++ unquotePieces ps 1
        | none => encodeRune n ++ unquotePieces ps 0

/-- The integer part of a number literal at the head of a text, and the text after it: a
single `0` (the scanner of Go ends the integer part after a leading zero, its state
`state0`), or the digits from a first digit other than `0` on (`state1`). -/
def intPart (s : Str) : Str × Str :=
  match s with
  | c :: cs =>
    if c = '0' then (['0'], cs) else (s.takeWhile Url.isDigit, s.dropWhile Url.isDigit)
  | [] => ([], [])

/-- Scan a number literal: the literal and the text after it. -/
def scanNumber (s : Str) : Option (Str × Str) :=
  let (sign, s1) := match s with
    | c :: cs => if c = '-' then (['-'], cs) else ([], s)
    | [] => ([], s)
  let intDigits := (intPart s1).1
  let s2 := (intPart s1).2
  if intDigits = [] then none
  else
    let fracOk : Option (Str × Str) := match s2 with
      | c :: cs =>
        if c = '.' then
          if cs.takeWhile Url.isDigit = [] then none
          else some ('.' :: cs.takeWhile Url.isDigit, cs.dropWhile Url.isDigit)
        else some ([], s2)
      | [] => some ([], s2)
    match fracOk with
    | none => none
    | some (frac, s3) =>
      match s3 with
      | c :: cs =>
        if c = 'e' ∨ c = 'E' then
          let (esign, s4) := match cs with
            | d :: ds => if d = '+' ∨ d = '-' then ([d], ds) else ([], cs)
            | [] => ([], cs)
          if s4.takeWhile Url.isDigit = [] then none
          else some (sign ++ intDigits ++ frac ++ [c] ++ esign ++ s4.takeWhile Url.isDigit,
            s4.dropWhile Url.isDigit)
        else some (sign ++ intDigits ++ frac, s3)
      | [] => some (sign ++ intDigits ++ frac, s3)

/-- The nesting depth beyond which Go reports "exceeded max depth". -/
def maxNestingDepth : Nat := 10000

mutual

/-- Parse one value at the head of the text (after white space): the value and the text
after it.  `depth` is the number of arrays and objects around it. -/
def parseValue : Nat → Nat → Str → Option (Value × Str)
  | 0, _, _ => none
  | fuel + 1, depth, s =>
    match skipSpace s with
    | [] => none
    | c :: cs =>
      if c = '{' then
        if depth + 1 > maxNestingDepth then none
        else match skipSpace cs with
          | [] => none
          | d :: ds =>
            if d = '}' then some (Value.object [], ds)
            else match parseMembers fuel (depth + 1) (d :: ds) with
              | none => none
              | some (ms, rest) => some (Value.object ms, rest)
      else if c = '[' then
        if depth + 1 > maxNestingDepth then none
        else match skipSpace cs with
          | [] => none
          | d :: ds =>
            if d = ']' then some (Value.array [], ds)
            else match parseElements fuel (depth + 1) (d :: ds) with
              | none => none
              | some (vs, rest) => some (Value.array vs, rest)
      else if c = quote then
        match scanString cs with
        | none => none
        | some (ps, rest) => some (Value.string (unquotePieces ps 0), rest)
      else if c = '-' ∨ Url.isDigit c then
        match scanNumber (c :: cs) with
        | none => none
        | some (lit, rest) => some (Value.number lit, rest)
      else if "true".toList.isPrefixOf (c :: cs) then some (Value.bool true, (c :: cs).drop 4)
      else if "false".toList.isPrefixOf (c :: cs) then some (Value.bool false, (c :: cs).drop 5)
      else if "null".toList.isPrefixOf (c :: cs) then some (Value.null, (c :: cs).drop 4)
      else none

/-- Parse the elements of an array up to and including its closing bracket. -/
def parseElements : Nat → Nat → Str → Option (List Value × Str)
  | 0, _, _ => none
  | fuel + 1, depth, s =>
    match parseValue fuel depth s with
    | none => none
    | some (v, rest) =>
      match skipSpace rest with
      | [] => none
      | c :: cs =>
        if c = ']' then some ([v], cs)
        else if c = ',' then
          match parseElements fuel depth cs with
          | none => none
          | some (vs, rest2) => some (v :: vs, rest2)
        else none

/-- Parse the members of an object up to and including its closing brace. -/
def parseMembers : Nat → Nat → Str → Option (List (Str × Value) × Str)
  | 0, _, _ => none
  | fuel + 1, depth, s =>
    match skipSpace s with
    | [] => none
    | q :: cs =>
      if q ≠ quote then none
      else match scanString cs with
        | none => none
        | some (ps, rest) =>
          match skipSpace rest with
          | [] => none
          | c :: cs1 =>
            if c ≠ ':' then none
            else match parseValue fuel depth cs1 with
              | none => none
              | some (v, rest1) =>
                match skipSpace rest1 with
                | [] => none
                | e :: cs2 =>
                  if e = '}' then some ([(unquotePieces ps 0, v)], cs2)
                  else if e = ',' then
                    match parseMembers fuel depth cs2 with
                    | none => none
                    | some (ms, rest2) => some ((unquotePieces ps 0, v) :: ms, rest2)
                  else none

end

/-- The document that Go `json.Unmarshal` decodes from `data`: one JSON value with
nothing but white space around it; `none` stands for a `SyntaxError`.  Of two successive
calls of the parser at least one consumes a byte, so twice the length of the text is
fuel enough (`parse_fuel_enough`). -/
def parse (data : Str) : Option Value :=
  match parseValue (2 * data.length + 2) 0 data with
  | none => none
  | some (v, rest) => if skipSpace rest = [] then some v else none

end Json

/-! ## Package `errors` and the errors of the transport -/

/-- The Linux value of `syscall.ECONNREFUSED`. -/
def ECONNREFUSED : Nat := 111

/-- The Linux value of `syscall.ENETUNREACH`. -/
def ENETUNREACH : Nat := 101

/-- The Linux value of `syscall.EHOSTUNREACH`. -/
def EHOSTUNREACH : Nat := 113

/-- An error value as the HTTP client returns it: a chain of wrapped errors. -/
inductive GoError where
  /-- A `syscall.Errno`. -/
  | errno (e : Nat)
  /-- A `*url.Error`, wrapping `err`. -/
  | urlError (op url : Str) (err : GoError)
  /-- Any other error whose `Unwrap` returns `err` and whose `Error` returns `text`. -/
  | wrap (text : Str) (err : GoError)
  /-- An error that wraps nothing and whose `Error` returns `text`. -/
  | leaf (text : Str)
  deriving DecidableEq, Repr

/-- What the platform supplies for the text of an error: the message table of
`syscall.Errno` and `strconv.Quote` (the verb `%q`). -/
structure Sys where
  strerror : Nat → Str
  quoted : Str → Str

/-- The method `Error` of an error value. -/
def GoError.Error (sys : Sys) : GoError → Str
  | GoError.errno e => sys.strerror e
  | GoError.urlError op url err => op ++ [' '] ++ sys.quoted url ++ ": ".toList ++ err.Error sys
  | GoError.wrap text _ => text
  | GoError.leaf text => text

/-- Go `errors.Is(err, target)` for a target of type `syscall.Errno`: some error of the
chain equals the target. -/
def errorsIs : GoError → Nat → Bool
  | GoError.errno e, target => e = target
  | GoError.urlError _ _ err, target => errorsIs err target
  | GoError.wrap _ err, target => errorsIs err target
  | GoError.leaf _, _ => false

/-- Go `errors.As(err, &ue)` for `ue` of type `*url.Error`: the error wrapped by the
first `*url.Error` of the chain (its field `Err`). -/
def errorsAsURLError : GoError → Option GoError
  | GoError.errno _ => none
  | GoError.urlError _ _ err => some err
  | GoError.wrap _ err => errorsAsURLError err
  | GoError.leaf _ => none

/-! ## `ollama/errors.go` -/

/-- The type `RequestError`. -/
structure RequestError where
  Message : Str
  deriving DecidableEq, Repr

/-- The type `ResponseError`. -/
structure ResponseError where
  Message : Str
  StatusCode : Int
  deriving DecidableEq, Repr

/-- The type `ConnectionError`. -/
structure ConnectionError where
  Message : Str
  deriving DecidableEq, Repr

/-- The constant `connectionErrorMessage`. -/
def connectionErrorMessage : Str :=
  ("Failed to connect to Ollama. Please check that Ollama is downloaded, running and " ++
    "accessible. https://ollama.com/download").toList

/-- An error as the package returns it: one of its three kinds, or any other error
value, passed through. -/
inductive Error where
  | request (e : RequestError)
  | response (e : ResponseError)
  | connection (e : ConnectionError)
  | other (e : GoError)
  deriving DecidableEq, Repr

/-- Whether an object key names the field tagged `json:"error"`: `encoding/json` matches
the key exactly or, failing that, without regard to case. -/
def namesErrorField (key : Str) : Bool := Strings.lowerASCII key = "error".toList

/-- Decoding of the members of an object into `struct { Error string }`, in the order of
the text: the value of the field after each member, and whether an `UnmarshalTypeError`
was recorded.  A string sets the field, `null` leaves it, any other value records the
error and decoding goes on. -/
def decodeErrorMembers : List (Str × Json.Value) → Str × Bool → Str × Bool
  | [], acc => acc
  | (key, v) :: ms, (field, failed) =>
    if namesErrorField key then
      match v with
      | Json.Value.string s => decodeErrorMembers ms (s, failed)
      | Json.Value.null => decodeErrorMembers ms (field, failed)
      | _ => decodeErrorMembers ms (field, true)
    else decodeErrorMembers ms (field, failed)

/-- Go `json.Unmarshal(body, &tmp)` for `tmp` of type `struct { Error string }`, as in
`newResponseError`: the field `tmp.Error` when the returned error is `nil`, and `none`
when it is not (a syntax error, or a value of the wrong type). -/
def unmarshalErrorStruct (body : Str) : Option Str :=
  match Json.parse body with
  | none => none
  | some Json.Value.null => some []
  | some (Json.Value.object members) =>
    if (decodeErrorMembers members ([], false)).2 then none
    else some (decodeErrorMembers members ([], false)).1
  | some _ => none

/-- The function `newResponseError`: the `error` member of a JSON body, else the raw
body. -/
def newResponseError (status : Int) (body : Str) : ResponseError :=
  match unmarshalErrorStruct body with
  | some tmpError =>
    if tmpError ≠ [] then { Message := tmpError, StatusCode := status }
    else { Message := body, StatusCode := status }
  | none => { Message := body, StatusCode := status }

/-! ## `ollama/client.go` -/

/-- Go `http.Header`: the values of each key.  The keys of the list are distinct; its
order stands for the order in which a `range` visits the map. -/
abbrev Header := List (Str × List Str)

/-- The bytes of a header field name (Go `validHeaderFieldByte`). -/
def validHeaderFieldByte (c : Char) : Bool :=
  Url.isLetter c || Url.isDigit c ||
    decide (c ∈ Url.apostrophe :: Char.ofNat 96 :: "!#$%&*+-.^_|~".toList)

/-- The letters of a valid field name put in canonical case: a capital first and after
each hyphen, small letters elsewhere. -/
def canonicalCase : Bool → Str → Str
  | _, [] => []
  | upper, c :: cs =>
    let c1 : Char :=
      if upper ∧ 97 ≤ c.toNat ∧ c.toNat ≤ 122 then Char.ofNat (c.toNat - 32)
      else if ¬ upper ∧ 65 ≤ c.toNat ∧ c.toNat ≤ 90 then Char.ofNat (c.toNat + 32)
      else c
    c1 :: canonicalCase (c1 = '-') cs

/-- Go `textproto.CanonicalMIMEHeaderKey`: a name with a byte that no field name may
hold is returned as it is. -/
def canonicalMIMEHeaderKey (s : Str) : Str :=
  if s.all validHeaderFieldByte then canonicalCase true s else s

/-- The values stored under exactly the key `k`. -/
def Header.values (h : Header) (k : Str) : List Str :=
  match h with
  | [] => []
  | (k1, vs) :: rest => if k1 = k then vs else Header.values rest k

/-- Store `vs` under exactly the key `k`. -/
def Header.store (h : Header) (k : Str) (vs : List Str) : Header :=
  match h with
  | [] => [(k, vs)]
  | (k1, vs1) :: rest => if k1 = k then (k, vs) :: rest else (k1, vs1) :: Header.store rest k vs

/-- Go `Header.Add(key, value)`. -/
def Header.Add (h : Header) (key value : Str) : Header :=
  h.store (canonicalMIMEHeaderKey key) (h.values (canonicalMIMEHeaderKey key) ++ [value])

/-- Go `Header.Set(key, value)`. -/
def Header.Set (h : Header) (key value : Str) : Header :=
  h.store (canonicalMIMEHeaderKey key) [value]

/-- Go `Header.Get(key)`: the first value of the key, or the empty string. -/
def Header.Get (h : Header) (key : Str) : Str :=
  match h.values (canonicalMIMEHeaderKey key) with
  | [] => []
  | v :: _ => v

/-- The body of a response: the bytes a reader gets from it, the error that ends the
reading when it is not the end of the stream, how many times it has been closed, and the
error that its method `Close` returns, if any. -/
structure Body where
  data : Str
  failure : Option GoError := none
  closed : Nat := 0
  closeFailure : Option GoError := none
  deriving DecidableEq, Repr

/-- The method `Close` of the body (Go `io.Closer`): the error it returns, and the body
after the call. -/
def Body.Close (b : Body) : Option GoError × Body :=
  (b.closeFailure, { b with closed := b.closed + 1 })

/-- Go `http.Response`, as far as the package reads it. -/
structure Response where
  StatusCode : Int
  Body : Body
  deriving DecidableEq, Repr

/-- Go `http.Request`, as far as the package sets it. -/
structure Request where
  Method : Str
  URL : Str
  Body : Option Str
  Header : Header
  deriving DecidableEq, Repr

/-- An HTTP client (Go `*http.Client`): what its method `Do` returns for a request. -/
abbrev HTTPClient := Request → Except GoError Response

/-- What the process gets from its surroundings: the environment variables, the
constants of package `runtime`, the texts of `Sys`, the HTTP client `&http.Client{}`
that goes to the network, and the error, if any, with which
`http.NewRequestWithContext` rejects a method and URL. -/
structure Env where
  getenv : Str → Str
  GOARCH : Str
  GOOS : Str
  Version : Str
  sys : Sys
  network : HTTPClient
  newRequestError : Str → Str → Option GoError

/-- The constant `defaultBase`. -/
def defaultBase : Str := "http://127.0.0.1:11434".toList

/-- The type `Client`. -/
structure Client where
  hc : HTTPClient
  base : Str
  header : Header

/-- The type `ClientOption`. -/
abbrev ClientOption := Client → Client

/-- The option `WithHTTPClient`; `none` stands for a `nil` client. -/
def WithHTTPClient (hc : Option HTTPClient) : ClientOption :=
  fun c => match hc with
    | some h => { c with hc := h }
    | none => c

/-- The option `WithHeader`. -/
def WithHeader (k v : Str) : ClientOption :=
  fun c => { c with header := c.header.Set k v }

/-- The function `NewClient`. -/
def NewClient (env : Env) (host : Str) (opts : List ClientOption) : Client :=
  let base := host
  let base := if base = [] then env.getenv "OLLAMA_HOST".toList else base
  let base := if base ≠ [] then parseHost base else defaultBase
  let c : Client :=
    { hc := env.network
      base := base
      header :=
        [("Content-Type".toList, ["application/json".toList]),
         ("Accept".toList, ["application/json".toList]),
         ("User-Agent".toList,
           ["ollama-go/0.0.0 (".toList ++ env.GOARCH ++ [' '] ++ env.GOOS ++ ") Go/".toList ++
             env.Version])] }
  opts.foldl (fun c o => o c) c

/-- The function `isConnectErr`. -/
def isConnectErr (sys : Sys) (err : GoError) : Bool :=
  -- Common syscall errors indicating connectivity issues
  if errorsIs err ECONNREFUSED || errorsIs err ENETUNREACH || errorsIs err EHOSTUNREACH then
    true
  else
    -- url.Error wrapping net errors
    let viaURLError : Bool :=
      match errorsAsURLError err with
      | some ueErr =>
        if errorsIs ueErr ECONNREFUSED || errorsIs ueErr ENETUNREACH ||
            errorsIs ueErr EHOSTUNREACH then true
        -- last resort substring check
        else Strings.contains (Strings.toLower (ueErr.Error sys)) "connection refused".toList
      | none => false
    if viaURLError then true
    -- last resort substring on raw error
    else Strings.contains (Strings.toLower (err.Error sys)) "connection refused".toList

/-- Go `io.ReadAll` on a body: the bytes read, whatever ended the reading. -/
def Body.readAll (b : Body) : Str := b.data

/-- The headers of the request that `do` builds: every default value added, then every
per-call value. -/
def requestHeader (defaults perCall : Header) : Header :=
  let add (acc : Header) (entry : Str × List Str) : Header :=
    entry.2.foldl (fun h v => h.Add entry.1 v) acc
  perCall.foldl add (defaults.foldl add [])

/-- The request that `do` builds and hands to the HTTP client. -/
def Client.request (c : Client) (method path : Str) (body : Option Str) (headers : Header) :
    Request :=
  { Method := method, URL := c.base ++ path, Body := body,
    Header := requestHeader c.header headers }

/-- The method `(*Client).do`: one HTTP exchange, with the failure of the transport and
the status of the response classified. -/
def Client.do (env : Env) (c : Client) (method path : Str) (body : Option Str)
    (headers : Header) : Except Error Response :=
  match env.newRequestError method (c.base ++ path) with
  | some err => Except.error (Error.other err)
  | none =>
    match c.hc (c.request method path body headers) with
    | Except.error err =>
      if isConnectErr env.sys err then
        Except.error (Error.connection { Message := connectionErrorMessage })
      else Except.error (Error.other err)
    | Except.ok resp =>
      if resp.StatusCode ≥ 400 then
        Except.error (Error.response (newResponseError resp.StatusCode resp.Body.readAll))
      else Except.ok resp

/-! ## Vocabulary of the statements about `parseHost` -/

/-- The scheme that `parseHost` works with: the text before the first `://` of the
trimmed input, and `http` when there is no `://`. -/
def schemeOf (host : Str) : Str :=
  match Strings.cut "://".toList host with
  | some (s, _) => s
  | none => "http".toList

/-- The remainder that `parseHost` works with: the text after the first `://` of the
trimmed input, and the whole of it when there is no `://`. -/
def remainderOf (host : Str) : Str :=
  match Strings.cut "://".toList host with
  | some (_, after) => after
  | none => host

/-- The host of a base URL: a host name that holds a colon (an IPv6 literal) is put in
square brackets unless it starts with one. -/
def hostText (h : Str) : Str :=
  if Strings.contains h [':'] ∧ ['['].isPrefixOf h = false then '[' :: h ++ [']'] else h

/-- The path of a base URL: the escaped path without its leading and trailing slashes,
after a single slash, and nothing when nothing remains. -/
def pathText (escapedPath : Str) : Str :=
  if Strings.trimByte '/' escapedPath = [] then [] else '/' :: Strings.trimByte '/' escapedPath

/-! ## Written forms of a host string -/

/-- The ASCII letters. -/
def letters : Str := "abcdefghijklmnopqrstuvwxyzABCDEFGHIJKLMNOPQRSTUVWXYZ".toList

/-- The ASCII digits. -/
def digits : Str := "0123456789".toList

/-- The bytes of a host name: letters, digits, dot and hyphen. -/
def nameBytes : Str := letters ++ digits ++ ".-".toList

/-- The bytes of an IPv6 literal: hexadecimal digits, colon and dot. -/
def ipv6Bytes : Str := "0123456789abcdefABCDEF:.".toList

/-- The bytes of a path that needs no escaping: letters, digits, `-._~` and the slash. -/
def pathBytes : Str := letters ++ digits ++ "-._~/".toList

/-- How a host string states its scheme. -/
inductive SchemeForm where
  | absent
  | http
  | https
  deriving DecidableEq, Repr

/-- What a host string starts with. -/
def SchemeForm.lead : SchemeForm → Str
  | SchemeForm.absent => []
  | SchemeForm.http => "http://".toList
  | SchemeForm.https => "https://".toList

/-- The scheme of the base URL. -/
def SchemeForm.scheme : SchemeForm → Str
  | SchemeForm.absent => "http".toList
  | SchemeForm.http => "http".toList
  | SchemeForm.https => "https".toList

/-- The port of the base URL when the host string names none. -/
def SchemeForm.defaultPort : SchemeForm → Str
  | SchemeForm.absent => "11434".toList
  | SchemeForm.http => "80".toList
  | SchemeForm.https => "443".toList

/-- How a host string states its host: a name, or an IPv6 literal in square brackets. -/
inductive HostForm where
  | name (h : Str)
  | ipv6 (addr : Str)
  deriving DecidableEq, Repr

/-- The host as written. -/
def HostForm.text : HostForm → Str
  | HostForm.name h => h
  | HostForm.ipv6 addr => '[' :: addr ++ [']']

/-- A name is not empty and made of `nameBytes`; a literal holds a colon and is made of
`ipv6Bytes`. -/
def HostForm.wellFormed : HostForm → Bool
  | HostForm.name h => h ≠ [] && h.all (fun c => c ∈ nameBytes)
  | HostForm.ipv6 addr => decide (':' ∈ addr) && addr.all (fun c => c ∈ ipv6Bytes)

/-- A host string `[scheme://]host[:port][/path]`, by its parts; `path` is the text after
the slash that follows the host and port. -/
structure HostString where
  scheme : SchemeForm
  host : HostForm
  port : Option Str
  path : Option Str
  deriving DecidableEq, Repr

/-- The port as written, colon included. -/
def HostString.portText (x : HostString) : Str :=
  match x.port with
  | none => []
  | some d => ':' :: d

/-- The path as written, leading slash included. -/
def HostString.pathSuffix (x : HostString) : Str :=
  match x.path with
  | none => []
  | some p => '/' :: p

/-- The host is well formed, a port is a non-empty run of digits, and a path is made of
`pathBytes`. -/
def HostString.wellFormed (x : HostString) : Bool :=
  x.host.wellFormed &&
    (match x.port with
      | none => true
      | some d => d ≠ [] && d.all (fun c => c ∈ digits)) &&
    (match x.path with
      | none => true
      | some p => p.all (fun c => c ∈ pathBytes))

/-- The host string as written. -/
def HostString.text (x : HostString) : Str :=
  x.scheme.lead ++ x.host.text ++ x.portText ++ x.pathSuffix

/-- The port of the base URL: the port as written, else the default of the scheme. -/
def HostString.resolvedPort (x : HostString) : Str :=
  match x.port with
  | none => x.scheme.defaultPort
  | some d => d

/-- The base URL `scheme://host:port` of a host string, without its path. -/
def HostString.base (x : HostString) : Str :=
  x.scheme.scheme ++ "://".toList ++ x.host.text ++ [':'] ++ x.resolvedPort

/-- The canonical base URL of a host string. -/
def HostString.canonical (x : HostString) : Str :=
  x.base ++ pathText x.pathSuffix

/-- The host and port of a host string, as written. -/
def HostString.authority (x : HostString) : Str := x.host.text ++ x.portText

/-- The host name of a host string: the name, or the literal without its brackets. -/
def HostForm.hostname : HostForm → Str
  | HostForm.name h => h
  | HostForm.ipv6 addr => addr

/-- A visible ASCII byte. -/
def visible (c : Char) : Bool := 33 ≤ c.toNat && c.toNat ≤ 126

/-- A byte that may stand in the authority of a plain URL. -/
def authorityByte (c : Char) : Bool :=
  visible c && !Url.shouldEscape c Url.Encoding.encodeHost && decide (c ∉ "%/?#@".toList)

/-- A byte that may stand in the path of a plain URL. -/
def pathByte (c : Char) : Bool :=
  visible c && !Url.shouldEscape c Url.Encoding.encodePath && decide (c ∉ "%?#:".toList)

/-- The parts of the canonical base URL of a host string: the scheme and the port made
explicit, the path without its leading and trailing slashes. -/
def HostString.normal (x : HostString) : HostString :=
  { scheme := match x.scheme with
      | SchemeForm.absent => SchemeForm.http
      | s => s
    host := x.host
    port := some x.resolvedPort
    path := if Strings.trimByte '/' x.pathSuffix = [] then none
      else some (Strings.trimByte '/' x.pathSuffix) }

/-- The values of the members of an object that name the field `error`, in the order of
the text. -/
def errorValues (ms : List (Str × Json.Value)) : List Json.Value :=
  (ms.filter (fun m => namesErrorField m.1)).map (fun m => m.2)

/-- A value that a string field accepts: a string or `null`. -/
def isStringOrNull : Json.Value → Bool
  | Json.Value.string _ => true
  | Json.Value.null => true
  | _ => false

/-- The last string among the values, and `field` when there is none. -/
def lastString (field : Str) : List Json.Value → Str
  | [] => field
  | Json.Value.string s :: vs => lastString s vs
  | _ :: vs => lastString field vs

/-- The message that the body of an error response states: the last string of its
`error` members when the body is a JSON object, every `error` member is a string or
`null`, and that string is not empty. -/
def statedMessage (body : Str) : Option Str :=
  match Json.parse body with
  | some (Json.Value.object ms) =>
    if (errorValues ms).all isStringOrNull ∧ lastString [] (errorValues ms) ≠ [] then
      some (lastString [] (errorValues ms))
    else none
  | _ => none

/-- Some error of the chain is one of `ECONNREFUSED`, `ENETUNREACH`, `EHOSTUNREACH`. -/
def hasConnectErrno (e : GoError) : Bool :=
  errorsIs e ECONNREFUSED || errorsIs e ENETUNREACH || errorsIs e EHOSTUNREACH

/-- The text of the error says "connection refused", in any case of the letters. -/
def saysRefused (sys : Sys) (e : GoError) : Bool :=
  Strings.contains (Strings.toLower (e.Error sys)) "connection refused".toList

/-- The error signals a failed connection: by its cause, or else by its text or the text
of what its `*url.Error` wraps. -/
def signalsConnect (sys : Sys) (e : GoError) : Bool :=
  hasConnectErrno e ||
    (match errorsAsURLError e with
      | some ueErr => saysRefused sys ueErr
      | none => false) ||
    saysRefused sys e

/-- An environment in which `OLLAMA_HOST` is not set and no server can be reached. -/
def unsetEnv : Env :=
  { getenv := fun _ => []
    GOARCH := "amd64".toList
    GOOS := "linux".toList
    Version := "go1.22".toList
    sys :=
      { strerror := fun e =>
          if e = ECONNREFUSED then "connection refused".toList
          else if e = ENETUNREACH then "network is unreachable".toList
          else if e = EHOSTUNREACH then "no route to host".toList
          else "errno".toList
        quoted := fun s => Json.quote :: s ++ [Json.quote] }
    network := fun _ =>
      Except.error (GoError.urlError "Post".toList [] (GoError.errno ECONNREFUSED))
    newRequestError := fun _ _ => none }

/-- A client whose HTTP client answers every request with the given status and body. -/
def stubClient (status : Int) (body : Str) : Client :=
  NewClient unsetEnv []
    [WithHTTPClient (some (fun _ => Except.ok { StatusCode := status, Body := { data := body } }))]

/-- A client whose HTTP client fails every request with the given error. -/
def failingClient (err : GoError) : Client :=
  NewClient unsetEnv [] [WithHTTPClient (some (fun _ => Except.error err))]

/-! ## Package `encoding/json`: `Marshal` -/

namespace Json

/-- A Go value that this development does not take apart (the value of a field of type
`any`, a `Message`, a `Tool`, an `Image`): it is given by what `json.Marshal` returns for
it, the text or the error. -/
abbrev Encoded := Except GoError Str

/-- Go `htmlSafeSet`: the ASCII bytes that `Marshal` copies into a string literal as they
are. -/
def htmlSafe (c : Char) : Bool :=
  decide (32 ≤ c.toNat) && decide (c.toNat < 128) && c != quote && c != backslash &&
    c != '<' && c != '>' && c != '&'

/-- Go `hex`: the digits of an escape. -/
def hexDigit (n : Nat) : Char := "0123456789abcdef".toList.getD n '0'

/-- What `Marshal` writes for an ASCII byte that it does not copy. -/
def escapeByte (c : Char) : Str :=
  if c = quote ∨ c = backslash then [backslash, c]
  else if c.toNat = 8 then [backslash, 'b']
  else if c.toNat = 12 then [backslash, 'f']
  else if c.toNat = 10 then [backslash, 'n']
  else if c.toNat = 13 then [backslash, 'r']
  else if c.toNat = 9 then [backslash, 't']
  else [backslash, 'u', '0', '0', hexDigit (c.toNat / 16), hexDigit (c.toNat % 16)]

/-- Go `appendString` with `escapeHTML` set, between the quotes: `<`, `>`, `&`, the quote,
the backslash and the control bytes escaped, a byte that is not part of well-formed UTF-8
written as the escape of U+FFFD, and U+2028 and U+2029 written as escapes.  `skip` counts
the continuation bytes of the rune just accepted, which are copied when `copy` is set and
dropped when it is not. -/
def appendString : Str → Nat → Bool → Str
  | [], _, _ => []
  | c :: cs, skip, copy =>
    match skip with
    | k + 1 => (if copy then [c] else []) ++ appendString cs k copy
    | 0 =>
      if c.toNat < 128 then
        (if htmlSafe c then [c] else escapeByte c) ++ appendString cs 0 true
      else if runeLength c.toNat (cs.map Piece.raw) = 0 then
        backslash :: "ufffd".toList ++ appendString cs 0 true
      else if c.toNat = 0xE2 ∧ (Strings.bytes [0x80, 0xA8]).isPrefixOf cs then
        backslash :: "u2028".toList ++ appendString cs 2 false
      else if c.toNat = 0xE2 ∧ (Strings.bytes [0x80, 0xA9]).isPrefixOf cs then
        backslash :: "u2029".toList ++ appendString cs 2 false
      else c :: appendString cs (runeLength c.toNat (cs.map Piece.raw) - 1) true

/-- The string literal that `Marshal` writes for a Go string. -/
def encodeString (s : Str) : Str := quote :: appendString s 0 true ++ [quote]

/-- `Marshal` of a string. -/
def ofString (s : Str) : Encoded := Except.ok (encodeString s)

/-- `Marshal` of a boolean. -/
def ofBool (b : Bool) : Encoded := Except.ok (if b then "true".toList else "false".toList)

/-- `Marshal` of an integer. -/
def ofInt (n : Int) : Encoded :=
  Except.ok ((if n < 0 then ['-'] else []) ++ Nat.toDigits 10 n.natAbs)

/-- The texts of the parts of an array or object, or the error of the first part that
has one. -/
def collect : List Encoded → Except GoError (List Str)
  | [] => Except.ok []
  | Except.error err :: _ => Except.error err
  | Except.ok text :: rest =>
    match collect rest with
    | Except.error err => Except.error err
    | Except.ok texts => Except.ok (text :: texts)

/-- The texts joined by commas. -/
def joinComma : List Str → Str
  | [] => []
  | [text] => text
  | text :: rest => text ++ [','] ++ joinComma rest

/-- `Marshal` of a slice that is not `nil`. -/
def ofArray (elems : List Encoded) : Encoded :=
  match collect elems with
  | Except.error err => Except.error err
  | Except.ok texts => Except.ok (['['] ++ joinComma texts ++ [']'])

/-- `Marshal` of a struct: the fields that are written, in the order of the declaration,
each with the name of its tag. -/
def ofMembers (members : List (Str × Encoded)) : Encoded :=
  match collect (members.map (fun m => m.2)) with
  | Except.error err => Except.error err
  | Except.ok texts =>
    Except.ok (['{'] ++
      joinComma ((members.map (fun m => m.1)).zipWith (fun name text =>
        encodeString name ++ [':'] ++ text) texts) ++ ['}'])

/-- The order of Go strings: byte by byte. -/
def less : Str → Str → Bool
  | _, [] => false
  | [], _ :: _ => true
  | a :: as, b :: bs => decide (a.toNat < b.toNat) || (a = b && less as bs)

/-- Insertion of an entry into entries sorted by key. -/
def insertByKey (e : Str × Str) : List (Str × Str) → List (Str × Str)
  | [] => [e]
  | f :: rest => if less f.1 e.1 then f :: insertByKey e rest else e :: f :: rest

/-- `Marshal` of a `map[string]string` that is not empty: the entries sorted by key. -/
def ofStringMap (entries : List (Str × Str)) : Encoded :=
  ofMembers ((entries.foldr insertByKey []).map (fun e => (e.1, ofString e.2)))

/-- A field that is always written. -/
def always (name : String) (value : Encoded) : List (Str × Encoded) := [(name.toList, value)]

/-- A field tagged `omitempty` of pointer or interface type: left out when it is `nil`. -/
def omitNil {α : Type} (name : String) (value : Option α) (encode : α → Encoded) :
    List (Str × Encoded) :=
  match value with
  | none => []
  | some v => [(name.toList, encode v)]

/-- A field tagged `omitempty` of slice or map type: left out when it has no element. -/
def omitEmpty {α : Type} (name : String) (value : List α) (encode : List α → Encoded) :
    List (Str × Encoded) :=
  match value with
  | [] => []
  | _ :: _ => [(name.toList, encode value)]

end Json

/-! ## `ollama/types.go`: the requests -/

/-- The type `BaseStreamableRequest`.  A field of type `any` is `none` when it is `nil`. -/
structure BaseStreamableRequest where
  Model : Str
  Stream : Option Bool := none
  Options : Option Json.Encoded := none
  Format : Option Json.Encoded := none
  KeepAlive : Option Json.Encoded := none

/-- The type `GenerateRequest`, which embeds `BaseStreamableRequest`. -/
structure GenerateRequest extends BaseStreamableRequest where
  Prompt : Option Str := none
  Suffix : Option Str := none
  System : Option Str := none
  Template : Option Str := none
  Context : List Int := []
  Raw : Option Bool := none
  Images : List Json.Encoded := []
  Think : Option Json.Encoded := none

/-- The type `ChatRequest`, which embeds `BaseStreamableRequest`. -/
structure ChatRequest extends BaseStreamableRequest where
  Messages : List Json.Encoded := []
  Tools : List Json.Encoded := []
  Think : Option Json.Encoded := none

/-- The type `EmbedRequest`. -/
structure EmbedRequest where
  Model : Str
  Input : Option Json.Encoded := none
  Truncate : Option Bool := none
  Options : Option Json.Encoded := none
  KeepAlive : Option Json.Encoded := none

/-- The type `EmbeddingsRequest`. -/
structure EmbeddingsRequest where
  Model : Str
  Prompt : Option Str := none
  Options : Option Json.Encoded := none
  KeepAlive : Option Json.Encoded := none

/-- The type `PullRequest`. -/
structure PullRequest where
  Model : Str
  Stream : Option Bool := none
  Insecure : Option Bool := none
  deriving DecidableEq, Repr

/-- The type `PushRequest`. -/
structure PushRequest where
  Model : Str
  Stream : Option Bool := none
  Insecure : Option Bool := none
  deriving DecidableEq, Repr

/-- The type `CreateRequest`.  The entries of a map have distinct keys. -/
structure CreateRequest where
  Model : Str
  Stream : Option Bool := none
  Quantize : Option Str := none
  From : Option Str := none
  Files : List (Str × Str) := []
  Adapters : List (Str × Str) := []
  Template : Option Str := none
  License : Option Json.Encoded := none
  System : Option Str := none
  Parameters : Option Json.Encoded := none
  Messages : List Json.Encoded := []

/-- The type `DeleteRequest`. -/
structure DeleteRequest where
  Model : Str
  deriving DecidableEq, Repr

/-- The type `CopyRequest`. -/
structure CopyRequest where
  Source : Str
  Destination : Str
  deriving DecidableEq, Repr

/-- The type `StatusResponse`. -/
structure StatusResponse where
  Status : Option Str
  deriving DecidableEq, Repr

/-- The members that `json.Marshal` writes for the fields of `BaseStreamableRequest`. -/
def BaseStreamableRequest.members (r : BaseStreamableRequest) : List (Str × Json.Encoded) :=
  Json.always "model" (Json.ofString r.Model) ++
  Json.omitNil "stream" r.Stream Json.ofBool ++
  Json.omitNil "options" r.Options id ++
  Json.omitNil "format" r.Format id ++
  Json.omitNil "keep_alive" r.KeepAlive id

/-- Go `json.Marshal` of a `GenerateRequest`. -/
def GenerateRequest.marshal (r : GenerateRequest) : Json.Encoded :=
  Json.ofMembers (r.toBaseStreamableRequest.members ++
    Json.omitNil "prompt" r.Prompt Json.ofString ++
    Json.omitNil "suffix" r.Suffix Json.ofString ++
    Json.omitNil "system" r.System Json.ofString ++
    Json.omitNil "template" r.Template Json.ofString ++
    Json.omitEmpty "context" r.Context (fun xs => Json.ofArray (xs.map Json.ofInt)) ++
    Json.omitNil "raw" r.Raw Json.ofBool ++
    Json.omitEmpty "images" r.Images Json.ofArray ++
    Json.omitNil "think" r.Think id)

/-- Go `json.Marshal` of a `ChatRequest`. -/
def ChatRequest.marshal (r : ChatRequest) : Json.Encoded :=
  Json.ofMembers (r.toBaseStreamableRequest.members ++
    Json.omitEmpty "messages" r.Messages Json.ofArray ++
    Json.omitEmpty "tools" r.Tools Json.ofArray ++
    Json.omitNil "think" r.Think id)

/-- Go `json.Marshal` of an `EmbedRequest`; a `nil` input is written `null`. -/
def EmbedRequest.marshal (r : EmbedRequest) : Json.Encoded :=
  Json.ofMembers (
    Json.always "model" (Json.ofString r.Model) ++
    Json.always "input" (match r.Input with
      | none => Except.ok "null".toList
      | some v => v) ++
    Json.omitNil "truncate" r.Truncate Json.ofBool ++
    Json.omitNil "options" r.Options id ++
    Json.omitNil "keep_alive" r.KeepAlive id)

/-- Go `json.Marshal` of an `EmbeddingsRequest`. -/
def EmbeddingsRequest.marshal (r : EmbeddingsRequest) : Json.Encoded :=
  Json.ofMembers (
    Json.always "model" (Json.ofString r.Model) ++
    Json.omitNil "prompt" r.Prompt Json.ofString ++
    Json.omitNil "options" r.Options id ++
    Json.omitNil "keep_alive" r.KeepAlive id)

/-- Go `json.Marshal` of a `PullRequest`. -/
def PullRequest.marshal (r : PullRequest) : Json.Encoded :=
  Json.ofMembers (
    Json.always "model" (Json.ofString r.Model) ++
    Json.omitNil "stream" r.Stream Json.ofBool ++
    Json.omitNil "insecure" r.Insecure Json.ofBool)

/-- Go `json.Marshal` of a `PushRequest`. -/
def PushRequest.marshal (r : PushRequest) : Json.Encoded :=
  Json.ofMembers (
    Json.always "model" (Json.ofString r.Model) ++
    Json.omitNil "stream" r.Stream Json.ofBool ++
    Json.omitNil "insecure" r.Insecure Json.ofBool)

/-- Go `json.Marshal` of a `CreateRequest`. -/
def CreateRequest.marshal (r : CreateRequest) : Json.Encoded :=
  Json.ofMembers (
    Json.always "model" (Json.ofString r.Model) ++
    Json.omitNil "stream" r.Stream Json.ofBool ++
    Json.omitNil "quantize" r.Quantize Json.ofString ++
    Json.omitNil "from" r.From Json.ofString ++
    Json.omitEmpty "files" r.Files Json.ofStringMap ++
    Json.omitEmpty "adapters" r.Adapters Json.ofStringMap ++
    Json.omitNil "template" r.Template Json.ofString ++
    Json.omitNil "license" r.License id ++
    Json.omitNil "system" r.System Json.ofString ++
    Json.omitNil "parameters" r.Parameters id ++
    Json.omitEmpty "messages" r.Messages Json.ofArray)

/-- Go `json.Marshal` of a `DeleteRequest`. -/
def DeleteRequest.marshal (r : DeleteRequest) : Json.Encoded :=
  Json.ofMembers (Json.always "model" (Json.ofString r.Model))

/-- Go `json.Marshal` of a `CopyRequest`. -/
def CopyRequest.marshal (r : CopyRequest) : Json.Encoded :=
  Json.ofMembers (
    Json.always "source" (Json.ofString r.Source) ++
    Json.always "destination" (Json.ofString r.Destination))

/-! ## Package `encoding/json`: `Unmarshal` and `Decoder.Decode` into a type -/

namespace Json

/-- A Go type `T` as the target of decoding: the `*SyntaxError` that `encoding/json`
reports for a text that is no JSON value, the decoding of a valid document into `T`
(which fails with an `*UnmarshalTypeError` when the document has not the shape of `T`),
and the error with which `Decoder.Decode` ends when the body does not begin with a
complete JSON value (a `*SyntaxError`, `io.EOF`, `io.ErrUnexpectedEOF` or the failure of
the body). -/
structure Target (T : Type) where
  syntaxError : Str → GoError
  shape : Value → Except GoError T
  noValue : Body → GoError

/-- Go `json.Unmarshal(data, &out)` for `out` of type `T`. -/
def Target.Unmarshal {T : Type} (t : Target T) (data : Str) : Except GoError T :=
  match parse data with
  | none => Except.error (t.syntaxError data)
  | some v => t.shape v

/-- Go `json.NewDecoder(body).Decode(&out)` for `out` of type `T`: the first JSON value
of the body is decoded and what follows it is left unread.  An array or object ends with
its closing bracket.  Any other value ends with the byte after it, whatever that byte is
(the scanner reports a byte that is no white space only on the following call), or with
the end of the body; when the reading of the body ends in a failure instead, that failure
is returned. -/
def Target.Decode {T : Type} (t : Target T) (b : Body) : Except GoError T :=
  match parseValue (2 * b.data.length + 2) 0 b.data with
  | none => Except.error (t.noValue b)
  | some (Value.object ms, _) => t.shape (Value.object ms)
  | some (Value.array vs, _) => t.shape (Value.array vs)
  | some (v, []) =>
    match b.failure with
    | none => t.shape v
    | some err => Except.error err
  | some (v, _ :: _) => t.shape v

/-- The digits of a number literal read as a natural number. -/
def digitsValue (ds : Str) : Nat := ds.foldl (fun n d => n * 10 + (d.toNat - 48)) 0

/-- The exponent that `strconv` reads from the digits after `e`: it stops adding digits
once the exponent has reached 10000. -/
def exponentValue (ds : Str) : Nat :=
  ds.foldl (fun e d => if e < 10000 then e * 10 + (d.toNat - 48) else e) 0

/-- Whether `strconv.ParseFloat(literal, 64)` returns no error for a number literal of
JSON: the literal does not round to an infinity, that is, its magnitude is below
`2^1024 - 2^970`, half way between the largest `float64` and `2^1024`.  The magnitude is
the digits of the literal, read as a number, times a power of ten; it is not worked out
when the power alone decides (a magnitude below one, or of `10^309` at least). -/
def fitsFloat64 (literal : Str) : Bool :=
  let unsigned := literal.dropWhile (fun c => c = '-')
  let intDigits := unsigned.takeWhile Url.isDigit
  let afterInt := unsigned.dropWhile Url.isDigit
  let fracDigits := (afterInt.dropWhile (fun c => c = '.')).takeWhile Url.isDigit
  let afterFrac := (afterInt.dropWhile (fun c => c = '.')).dropWhile Url.isDigit
  let expText := afterFrac.dropWhile (fun c => c = 'e' ∨ c = 'E')
  let exponent := exponentValue (expText.dropWhile (fun c => c = '+' ∨ c = '-'))
  let digits := intDigits ++ fracDigits
  let mantissa := digitsValue digits
  let bound := (2 ^ 54 - 1) <<< 970
  if mantissa = 0 then true
  else if ['-'].isPrefixOf expText then
    -- mantissa / 10 ^ (exponent + fracDigits.length)
    if digits.length ≤ exponent + fracDigits.length then true
    else decide (mantissa < bound * 10 ^ (exponent + fracDigits.length))
  else if fracDigits.length ≤ exponent then
    -- mantissa * 10 ^ (exponent - fracDigits.length)
    if 309 ≤ exponent - fracDigits.length then false
    else decide (mantissa * 10 ^ (exponent - fracDigits.length) < bound)
  else
    -- mantissa / 10 ^ (fracDigits.length - exponent)
    if digits.length ≤ fracDigits.length - exponent then true
    else decide (mantissa < bound * 10 ^ (fracDigits.length - exponent))

mutual

/-- Whether every number of the document fits a `float64`. -/
def Value.numbersFit : Value → Bool
  | Value.number literal => fitsFloat64 literal
  | Value.array elems => elementsFit elems
  | Value.object members => membersFit members
  | _ => true

/-- Whether every number of the elements fits a `float64`. -/
def elementsFit : List Value → Bool
  | [] => true
  | v :: vs => v.numbersFit && elementsFit vs

/-- Whether every number of the members fits a `float64`. -/
def membersFit : List (Str × Value) → Bool
  | [] => true
  | (_, v) :: ms => v.numbersFit && membersFit ms

end

/-- Go `json.Unmarshal(data, &probe)` for `probe` of type `map[string]any`: the members
that are stored into the map, in the order of the text, when the returned error is `nil`;
`none` when it is not (a syntax error, a document that is neither an object nor `null`,
or a number that does not fit the `float64` it is stored as). -/
def unmarshalMap (data : Str) : Option (List (Str × Value)) :=
  match parse data with
  | some (Value.object members) => if membersFit members then some members else none
  | some Value.null => some []
  | _ => none

/-- The value that a map built from the members holds for the key: the one stored last. -/
def mapIndex (members : List (Str × Value)) (key : Str) : Option Value :=
  match members with
  | [] => none
  | (k, v) :: rest =>
    match mapIndex rest key with
    | some w => some w
    | none => if k = key then some v else none

end Json

/-! ## Package `bufio`: `Reader.ReadBytes` over the body of a response -/

/-- How a read ends that does not end at the delimiter: `io.EOF`, or another error. -/
inductive ReadEnd where
  | eof
  | failure (err : GoError)
  deriving DecidableEq, Repr

/-- The error of a `Read` on a body of package `net/http` that has been closed. -/
def errReadOnClosedBody : GoError := GoError.leaf "http: read on closed response body".toList

/-- Go `io.ErrNoProgress`. -/
def errNoProgress : GoError :=
  GoError.leaf "multiple Read calls return no data or error".toList

/-- How the bytes of a body reach the reader, which the network decides: the number of
unread bytes that the next `Read` hands over (one at least, and no more than asked for),
and whether the `Read` that hands over the last bytes reports the end with them or leaves
it to the next `Read`. -/
structure Delivery where
  size : Str → Nat
  withEnd : Bool

/-- How the reading of the body ends. -/
def Body.terminal (b : Body) : ReadEnd :=
  match b.failure with
  | none => ReadEnd.eof
  | some err => ReadEnd.failure err

/-- One `Read` of the body into a slice of `room` bytes: the bytes handed over, the error
returned with them, and the body after it. -/
def Body.Read (d : Delivery) (room : Nat) (b : Body) : Str × Option ReadEnd × Body :=
  if b.closed ≠ 0 then ([], some (ReadEnd.failure errReadOnClosedBody), b)
  else
    match b.data with
    | [] => ([], some b.terminal, b)
    | c :: cs =>
      let n := max 1 (min (d.size (c :: cs)) room)
      ((c :: cs).take n,
        if d.withEnd ∧ (c :: cs).drop n = [] then some b.terminal else none,
        { b with data := (c :: cs).drop n })

/-- The size of the buffer of `bufio.NewReader`. -/
def defaultBufSize : Nat := 4096

/-- Go `bufio.Reader`: the bytes read from the body and not yet returned, and the error
of the last `Read`, not yet reported. -/
structure Reader where
  buffered : Str := []
  err : Option ReadEnd := none
  deriving DecidableEq, Repr

/-- Go `Reader.ReadBytes('\n')`: the bytes up to and including the first line feed, or, when
the reading ends before one, the bytes up to there and how it ended.  `full` holds the
buffers that filled up without a line feed.  Each turn of the loop returns, empties a
full buffer or reads from the body; `fuel` bounds the turns. -/
def Reader.ReadBytes : Nat → Delivery → Str → Reader → Body →
    (Str × Option ReadEnd) × Reader × Body
  | 0, _, full, r, b => ((full ++ r.buffered, some (ReadEnd.failure errNoProgress)), r, b)
  | fuel + 1, d, full, r, b =>
    match Strings.cut ['\n'] r.buffered with
    | some (line, rest) => ((full ++ line ++ ['\n'], none), { r with buffered := rest }, b)
    | none =>
      match r.err with
      | some e => ((full ++ r.buffered, some e), { buffered := [], err := none }, b)
      | none =>
        if defaultBufSize ≤ r.buffered.length then
          Reader.ReadBytes fuel d (full ++ r.buffered) { r with buffered := [] } b
        else
          Reader.ReadBytes fuel d full
            { buffered := r.buffered ++ (b.Read d (defaultBufSize - r.buffered.length)).1,
              err := (b.Read d (defaultBufSize - r.buffered.length)).2.1 }
            (b.Read d (defaultBufSize - r.buffered.length)).2.2

/-! ## `ollama/stream.go` -/

/-- The function `bytesTrimSpace`: spaces, tabs, line feeds and carriage returns removed
at both ends. -/
def bytesTrimSpace (b : Str) : Str :=
  let blank (c : Char) : Bool := c = ' ' || c = '\t' || c = '\n' || c = '\r'
  ((b.dropWhile blank).reverse.dropWhile blank).reverse

/-- What `Recv` returns: a value, `io.EOF`, or another error. -/
inductive RecvResult (T : Type) where
  | value (v : T)
  | EOF
  | failed (err : Error)

/-- The type `Stream`.  The body that `rd` reads and that `closer` closes is the body of
`resp`, which holds the bytes still unread; `deliver` is the way in which it hands them
over.  `rd` is `none` when it is `nil`, and `closer` tells whether the field is set. -/
structure Stream (T : Type) where
  resp : Response
  rd : Option Reader
  closer : Bool
  decode : Str → Except GoError T
  deliver : Delivery

/-- The function `newStream`. -/
def newStream {T : Type} (t : Json.Target T) (d : Delivery) (resp : Response) : Stream T :=
  { resp := resp
    rd := some {}
    closer := true
    decode := t.Unmarshal
    deliver := d }

/-- The `error` member that `Recv` finds in a line: the line decodes into a
`map[string]any` whose key `error` holds a string that is not empty. -/
def inBandError (line : Str) : Option Str :=
  match Json.unmarshalMap line with
  | none => none
  | some probe =>
    match Json.mapIndex probe "error".toList with
    | some (Json.Value.string e) => if e ≠ [] then some e else none
    | _ => none

/-- The method `Recv`: what it returns, and the stream after the call. -/
def Stream.Recv {T : Type} (s : Stream T) : RecvResult T × Stream T :=
  match s.rd with
  | none => (RecvResult.EOF, s)
  | some rd =>
    let read := rd.ReadBytes (2 * s.resp.Body.data.length + 3) s.deliver [] s.resp.Body
    let s1 : Stream T := { s with rd := some read.2.1, resp := { s.resp with Body := read.2.2 } }
    let line := read.1.1
    match line, read.1.2 with
    | [], some ReadEnd.eof => (RecvResult.EOF, s1)
    | [], some (ReadEnd.failure err) => (RecvResult.failed (Error.other err), s1)
    | _, _ =>
      match s.decode (bytesTrimSpace line) with
      | Except.error err => (RecvResult.failed (Error.other err), s1)
      | Except.ok out =>
        -- If the JSON has an "error" field, mirror Python behavior and return ResponseError
        match inBandError (bytesTrimSpace line) with
        | some e =>
          (RecvResult.failed (Error.response { Message := e, StatusCode := s.resp.StatusCode }),
            s1)
        | none => (RecvResult.value out, s1)

/-- The method `Close`: the error it returns, and the stream after the call.  A stream
without a closer returns nil; any other stream calls the `Close` of the body of the
response and returns what that call returns. -/
def Stream.Close {T : Type} (s : Stream T) : Option GoError × Stream T :=
  if s.closer = false then (none, s)
  else ((s.resp.Body.Close).1, { s with resp := { s.resp with Body := (s.resp.Body.Close).2 } })

/-! ## `ollama/client.go`: the operations -/

/-- What an operation of the client gives: the value or error that it returns, and the
requests that it has handed to the HTTP client, in order. -/
structure Outcome (α : Type) where
  result : Except Error α
  calls : List Request

/-- The method `do` with its call of the HTTP client: no request is handed over when
`http.NewRequestWithContext` fails, one otherwise. -/
def Client.exchange (env : Env) (c : Client) (method path : Str) (body : Option Str)
    (headers : Header) : Outcome Response :=
  { result := c.do env method path body headers
    calls :=
      match env.newRequestError method (c.base ++ path) with
      | some _ => []
      | none => [c.request method path body headers] }

/-- The function `ensureModel`. -/
def ensureModel (m : Str) : Option RequestError :=
  if m = [] then some { Message := "model is required".toList } else none

/-- The function `jsonBody`, on what `json.Marshal` returns for its argument: the error
is dropped. -/
def jsonBody (v : Json.Encoded) : Str :=
  match v with
  | Except.ok b => b
  | Except.error _ => []

/-- The function `requestJSON`.  `input` is `none` for a `nil` request, and else what
`json.Marshal` returns for the request; `t` stands for the type `Res`. -/
def requestJSON {Res : Type} (env : Env) (c : Client) (t : Json.Target Res)
    (method path : Str) (input : Option Json.Encoded) : Outcome Res :=
  match input with
  | some (Except.error err) => { result := Except.error (Error.other err), calls := [] }
  | _ =>
    let body : Option Str :=
      match input with
      | some (Except.ok b) => some b
      | _ => none
    let sent := c.exchange env method path body []
    match sent.result with
    | Except.error err => { result := Except.error err, calls := sent.calls }
    | Except.ok resp =>
      match t.Decode resp.Body with
      | Except.error err => { result := Except.error (Error.other err), calls := sent.calls }
      | Except.ok out => { result := Except.ok out, calls := sent.calls }

/-- The method `Generate`. -/
def Client.Generate {Res : Type} (env : Env) (c : Client) (t : Json.Target Res)
    (req : GenerateRequest) : Outcome Res :=
  match ensureModel req.Model with
  | some err => { result := Except.error (Error.request err), calls := [] }
  | none => requestJSON env c t "POST".toList "/api/generate".toList (some req.marshal)

/-- The method `GenerateStream`. -/
def Client.GenerateStream {T : Type} (env : Env) (c : Client) (t : Json.Target T)
    (d : Delivery) (req : GenerateRequest) : Outcome (Stream T) :=
  match ensureModel req.Model with
  | some err => { result := Except.error (Error.request err), calls := [] }
  | none =>
    match ({ req with Stream := some true } : GenerateRequest).marshal with
    | Except.error err => { result := Except.error (Error.other err), calls := [] }
    | Except.ok b =>
      let sent := c.exchange env "POST".toList "/api/generate".toList (some b) []
      match sent.result with
      | Except.error err => { result := Except.error err, calls := sent.calls }
      | Except.ok resp => { result := Except.ok (newStream t d resp), calls := sent.calls }

/-- The method `Chat`. -/
def Client.Chat {Res : Type} (env : Env) (c : Client) (t : Json.Target Res)
    (req : ChatRequest) : Outcome Res :=
  match ensureModel req.Model with
  | some err => { result := Except.error (Error.request err), calls := [] }
  | none => requestJSON env c t "POST".toList "/api/chat".toList (some req.marshal)

/-- The method `ChatStream`. -/
def Client.ChatStream {T : Type} (env : Env) (c : Client) (t : Json.Target T)
    (d : Delivery) (req : ChatRequest) : Outcome (Stream T) :=
  match ensureModel req.Model with
  | some err => { result := Except.error (Error.request err), calls := [] }
  | none =>
    match ({ req with Stream := some true } : ChatRequest).marshal with
    | Except.error err => { result := Except.error (Error.other err), calls := [] }
    | Except.ok b =>
      let sent := c.exchange env "POST".toList "/api/chat".toList (some b) []
      match sent.result with
      | Except.error err => { result := Except.error err, calls := sent.calls }
      | Except.ok resp => { result := Except.ok (newStream t d resp), calls := sent.calls }

/-- The method `Embed`. -/
def Client.Embed {Res : Type} (env : Env) (c : Client) (t : Json.Target Res)
    (req : EmbedRequest) : Outcome Res :=
  match ensureModel req.Model with
  | some err => { result := Except.error (Error.request err), calls := [] }
  | none => requestJSON env c t "POST".toList "/api/embed".toList (some req.marshal)

/-- The method `Embeddings`. -/
def Client.Embeddings {Res : Type} (env : Env) (c : Client) (t : Json.Target Res)
    (req : EmbeddingsRequest) : Outcome Res :=
  match ensureModel req.Model with
  | some err => { result := Except.error (Error.request err), calls := [] }
  | none => requestJSON env c t "POST".toList "/api/embeddings".toList (some req.marshal)

/-- The method `Pull`. -/
def Client.Pull {Res : Type} (env : Env) (c : Client) (t : Json.Target Res)
    (req : PullRequest) : Outcome Res :=
  match ensureModel req.Model with
  | some err => { result := Except.error (Error.request err), calls := [] }
  | none => requestJSON env c t "POST".toList "/api/pull".toList (some req.marshal)

/-- The method `PullStream`. -/
def Client.PullStream {T : Type} (env : Env) (c : Client) (t : Json.Target T)
    (d : Delivery) (req : PullRequest) : Outcome (Stream T) :=
  match ensureModel req.Model with
  | some err => { result := Except.error (Error.request err), calls := [] }
  | none =>
    match ({ req with Stream := some true } : PullRequest).marshal with
    | Except.error err => { result := Except.error (Error.other err), calls := [] }
    | Except.ok b =>
      let sent := c.exchange env "POST".toList "/api/pull".toList (some b) []
      match sent.result with
      | Except.error err => { result := Except.error err, calls := sent.calls }
      | Except.ok resp => { result := Except.ok (newStream t d resp), calls := sent.calls }

/-- The method `Push`. -/
def Client.Push {Res : Type} (env : Env) (c : Client) (t : Json.Target Res)
    (req : PushRequest) : Outcome Res :=
  match ensureModel req.Model with
  | some err => { result := Except.error (Error.request err), calls := [] }
  | none => requestJSON env c t "POST".toList "/api/push".toList (some req.marshal)

/-- The method `PushStream`. -/
def Client.PushStream {T : Type} (env : Env) (c : Client) (t : Json.Target T)
    (d : Delivery) (req : PushRequest) : Outcome (Stream T) :=
  match ensureModel req.Model with
  | some err => { result := Except.error (Error.request err), calls := [] }
  | none =>
    match ({ req with Stream := some true } : PushRequest).marshal with
    | Except.error err => { result := Except.error (Error.other err), calls := [] }
    | Except.ok b =>
      let sent := c.exchange env "POST".toList "/api/push".toList (some b) []
      match sent.result with
      | Except.error err => { result := Except.error err, calls := sent.calls }
      | Except.ok resp => { result := Except.ok (newStream t d resp), calls := sent.calls }

/-- The method `Create`. -/
def Client.Create {Res : Type} (env : Env) (c : Client) (t : Json.Target Res)
    (req : CreateRequest) : Outcome Res :=
  match ensureModel req.Model with
  | some err => { result := Except.error (Error.request err), calls := [] }
  | none => requestJSON env c t "POST".toList "/api/create".toList (some req.marshal)

/-- The method `CreateStream`. -/
def Client.CreateStream {T : Type} (env : Env) (c : Client) (t : Json.Target T)
    (d : Delivery) (req : CreateRequest) : Outcome (Stream T) :=
  match ensureModel req.Model with
  | some err => { result := Except.error (Error.request err), calls := [] }
  | none =>
    match ({ req with Stream := some true } : CreateRequest).marshal with
    | Except.error err => { result := Except.error (Error.other err), calls := [] }
    | Except.ok b =>
      let sent := c.exchange env "POST".toList "/api/create".toList (some b) []
      match sent.result with
      | Except.error err => { result := Except.error err, calls := sent.calls }
      | Except.ok resp => { result := Except.ok (newStream t d resp), calls := sent.calls }

/-- The method `Delete`. -/
def Client.Delete (env : Env) (c : Client) (model : Str) : Outcome StatusResponse :=
  let sent := c.exchange env "DELETE".toList "/api/delete".toList
    (some (jsonBody (DeleteRequest.marshal { Model := model }))) []
  match sent.result with
  | Except.error _ =>
    -- newResponseError already returned error; but we need status mapping like Python
    { result := Except.ok { Status := some "error".toList }, calls := sent.calls }
  | Except.ok resp =>
    let st : Str := if resp.StatusCode = 200 then "success".toList else "error".toList
    { result := Except.ok { Status := some st }, calls := sent.calls }

/-- The method `Copy`. -/
def Client.Copy (env : Env) (c : Client) (source destination : Str) : Outcome StatusResponse :=
  let sent := c.exchange env "POST".toList "/api/copy".toList
    (some (jsonBody (CopyRequest.marshal { Source := source, Destination := destination }))) []
  match sent.result with
  | Except.error _ =>
    { result := Except.ok { Status := some "error".toList }, calls := sent.calls }
  | Except.ok resp =>
    let st : Str := if resp.StatusCode = 200 then "success".toList else "error".toList
    { result := Except.ok { Status := some st }, calls := sent.calls }

/-! ## `ollama/types.go`: `ProgressResponse` as the target of decoding -/

/-- The type `ProgressResponse`. -/
structure ProgressResponse where
  Status : Option Str := none
  Completed : Option Int := none
  Total : Option Int := none
  Digest : Option Str := none
  deriving DecidableEq, Repr

namespace Json

/-- Go `foldName`, as far as it decides whether a key names a field with an ASCII name:
small letters become capitals, and so do the two letters beyond ASCII that fold to one,
U+017F (long s) and U+212A (the Kelvin sign). -/
def foldName : Str → Nat → Str
  | [], _ => []
  | c :: cs, skip =>
    match skip with
    | k + 1 => foldName cs k
    | 0 =>
      if 97 ≤ c.toNat ∧ c.toNat ≤ 122 then Char.ofNat (c.toNat - 32) :: foldName cs 0
      else if c.toNat = 0xC5 ∧ (Strings.bytes [0xBF]).isPrefixOf cs then 'S' :: foldName cs 1
      else if c.toNat = 0xE2 ∧ (Strings.bytes [0x84, 0xAA]).isPrefixOf cs then
        'K' :: foldName cs 2
      else c :: foldName cs 0

/-- The field that a key of an object names: the field of that name, or else the first
field whose name is the same when case is disregarded. -/
def fieldNamed (fields : List String) (key : Str) : Option String :=
  match fields.find? (fun f => f.toList = key) with
  | some f => some f
  | none => fields.find? (fun f => foldName f.toList 0 = foldName key 0)

/-- The `int64` that a number literal stands for (Go `strconv.ParseInt(literal, 10, 64)`):
the literal has neither fraction nor exponent and lies within the range. -/
def int64Of (literal : Str) : Option Int :=
  let digits := literal.dropWhile (fun c => c = '-')
  let value : Int :=
    if ['-'].isPrefixOf literal then - (digitsValue digits : Int) else (digitsValue digits : Int)
  if digits.all Url.isDigit ∧ - (2 : Int) ^ 63 ≤ value ∧ value < (2 : Int) ^ 63 then some value
  else none

/-- An `*UnmarshalTypeError`: the value of the text does not fit the Go type. -/
def typeError (value goType : String) : GoError :=
  GoError.leaf ("json: cannot unmarshal " ++ value ++ " into Go " ++ goType).toList

/-- What a member stores into the field of type `*string` that it names: a string sets
the field and `null` clears it; any other value is an `*UnmarshalTypeError`. -/
def storeString (v : Value) : Except GoError (Option Str) :=
  match v with
  | Value.string s => Except.ok (some s)
  | Value.null => Except.ok none
  | _ => Except.error (typeError "value" "value of type string")

/-- What a member stores into the field of type `*int64` that it names. -/
def storeInt64 (v : Value) : Except GoError (Option Int) :=
  match v with
  | Value.number literal =>
    match int64Of literal with
    | some n => Except.ok (some n)
    | none => Except.error (typeError "number" "value of type int64")
  | Value.null => Except.ok none
  | _ => Except.error (typeError "value" "value of type int64")

end Json

/-- Decoding of the members of an object into a `ProgressResponse`, in the order of the
text: the struct after each member, and the first `*UnmarshalTypeError`, after which
decoding goes on.  A member that names no field is skipped, whatever its value. -/
def ProgressResponse.decodeMembers :
    List (Str × Json.Value) → ProgressResponse × Option GoError → ProgressResponse × Option GoError
  | [], acc => acc
  | (key, v) :: ms, (out, saved) =>
    let keep (e : GoError) : Option GoError := match saved with
      | some first => some first
      | none => some e
    match Json.fieldNamed ["status", "completed", "total", "digest"] key with
    | none => ProgressResponse.decodeMembers ms (out, saved)
    | some f =>
      if f = "status" then
        match Json.storeString v with
        | Except.ok x => ProgressResponse.decodeMembers ms ({ out with Status := x }, saved)
        | Except.error e => ProgressResponse.decodeMembers ms (out, keep e)
      else if f = "completed" then
        match Json.storeInt64 v with
        | Except.ok x => ProgressResponse.decodeMembers ms ({ out with Completed := x }, saved)
        | Except.error e => ProgressResponse.decodeMembers ms (out, keep e)
      else if f = "total" then
        match Json.storeInt64 v with
        | Except.ok x => ProgressResponse.decodeMembers ms ({ out with Total := x }, saved)
        | Except.error e => ProgressResponse.decodeMembers ms (out, keep e)
      else
        match Json.storeString v with
        | Except.ok x => ProgressResponse.decodeMembers ms ({ out with Digest := x }, saved)
        | Except.error e => ProgressResponse.decodeMembers ms (out, keep e)

/-- The type `ProgressResponse` as the target of decoding.  The errors of the library for
a text without a JSON value are taken as given. -/
def ProgressResponse.target (syntaxError : Str → GoError) (noValue : Body → GoError) :
    Json.Target ProgressResponse :=
  { syntaxError := syntaxError
    noValue := noValue
    shape := fun v =>
      match v with
      | Json.Value.null => Except.ok {}
      | Json.Value.object members =>
        match ProgressResponse.decodeMembers members ({}, none) with
        | (out, none) => Except.ok out
        | (_, some e) => Except.error e
      | _ => Except.error (Json.typeError "value" "value of type ollama.ProgressResponse") }

/-! ## Vocabulary of the statements about requests and streams -/

/-- The values that a set of headers holds for the canonical key `k`: the values of every
entry whose key has `k` as its canonical form, in the order of the entries. -/
def Header.carried (h : Header) (k : Str) : List Str :=
  match h with
  | [] => []
  | (k1, vs) :: rest =>
    if canonicalMIMEHeaderKey k1 = k then vs ++ Header.carried rest k else Header.carried rest k

/-- What an operation gives that has refused a request without a model: no value, the
`RequestError` "model is required", and no request handed to the HTTP client. -/
def modelRequired {α : Type} : Outcome α :=
  { result := Except.error (Error.request { Message := "model is required".toList })
    calls := [] }

/-- What `Recv` makes of the bytes of a line: the error of the decoding, the
`ResponseError` of an `error` member, or the decoded value. -/
def lineResult {T : Type} (decode : Str → Except GoError T) (status : Int) (line : Str) :
    RecvResult T :=
  match decode (bytesTrimSpace line) with
  | Except.error err => RecvResult.failed (Error.other err)
  | Except.ok out =>
    match inBandError (bytesTrimSpace line) with
    | some e => RecvResult.failed (Error.response { Message := e, StatusCode := status })
    | none => RecvResult.value out

/-- The results of `n` successive calls of `Recv`, and the stream after them. -/
def Stream.receive {T : Type} : Nat → Stream T → List (RecvResult T) × Stream T
  | 0, s => ([], s)
  | n + 1, s => ((s.Recv).1 :: (Stream.receive n (s.Recv).2).1, (Stream.receive n (s.Recv).2).2)

/-- The stream after `n` successive calls of `Close`. -/
def Stream.closeTimes {T : Type} : Nat → Stream T → Stream T
  | 0, s => s
  | n + 1, s => Stream.closeTimes n (s.Close).2

/-- A body made of the given lines, each ended by a line feed. -/
def linesBody (lines : List Str) : Str :=
  match lines with
  | [] => []
  | l :: rest => l ++ ['\n'] ++ linesBody rest

/-- A network that hands over all the unread bytes at once. -/
def atOnce : Delivery := { size := fun unread => unread.length, withEnd := false }

/-- A network that hands over one byte at a time. -/
def byteWise : Delivery := { size := fun _ => 1, withEnd := true }

/-- The type `ProgressResponse` as a target, with errors of the library whose text is
left out. -/
def progress : Json.Target ProgressResponse :=
  ProgressResponse.target (fun _ => GoError.leaf []) (fun _ => GoError.leaf [])

/-- The response with the given status whose body holds the given bytes. -/
def responseOf (status : Int) (data : Str) : Response :=
  { StatusCode := status, Body := { data := data } }

/-- The bytes that `ReadBytes` returns from the bytes still to come (those buffered and
those unread), with the way the reading ends when no line feed is left, and the bytes
that remain after it. -/
def nextLine (content : Str) (terminal : ReadEnd) : (Str × Option ReadEnd) × Str :=
  match Strings.cut ['\n'] content with
  | some (line, rest) => ((line ++ ['\n'], none), rest)
  | none => ((content, some terminal), [])

/-- What `Recv` returns for the bytes still to come, and the bytes that remain. -/
def answer {T : Type} (decode : Str → Except GoError T) (status : Int) (terminal : ReadEnd)
    (content : Str) : RecvResult T × Str :=
  match (nextLine content terminal).1.1, (nextLine content terminal).1.2 with
  | [], some ReadEnd.eof => (RecvResult.EOF, (nextLine content terminal).2)
  | [], some (ReadEnd.failure err) =>
    (RecvResult.failed (Error.other err), (nextLine content terminal).2)
  | line, _ => (lineResult decode status line, (nextLine content terminal).2)

/-- What `n` successive calls of `Recv` return for the bytes still to come. -/
def answers {T : Type} (decode : Str → Except GoError T) (status : Int) (terminal : ReadEnd) :
    Nat → Str → List (RecvResult T)
  | 0, _ => []
  | n + 1, content =>
    (answer decode status terminal content).1 ::
      answers decode status terminal n (answer decode status terminal content).2

/-- The bytes of the body still to come: those in the buffer of the reader, then those
unread. -/
def Stream.pending {T : Type} (s : Stream T) : Str :=
  (match s.rd with
    | some rd => rd.buffered
    | none => []) ++ s.resp.Body.data

/-- The state of a stream that is open: it has a reader, its body has not been closed,
and an error that the reader holds back is the end of a body without unread bytes. -/
def Stream.ready {T : Type} (s : Stream T) : Prop :=
  s.resp.Body.closed = 0 ∧
    ∃ rd, s.rd = some rd ∧
      (rd.err = none ∨ (rd.err = some s.resp.Body.terminal ∧ s.resp.Body.data = []))

/-- The text of a serialised request whose field `stream` is `true`: it begins with the
model and `"stream":true`. -/
def streamsTrue (model text : Str) : Prop :=
  ∃ tail, text = "\x7b\"model\":".toList ++ Json.encodeString model ++
    ",\"stream\":true".toList ++ tail

/-! ## Package `crypto/sha256` -/

namespace Sha256

/-- The first sixty-four prime numbers. -/
def primes : List Nat :=
  [2, 3, 5, 7, 11, 13, 17, 19, 23, 29, 31, 37, 41, 43, 47, 53, 59, 61, 67, 71, 73, 79, 83, 89,
   97, 101, 103, 107, 109, 113, 127, 131, 137, 139, 149, 151, 157, 163, 167, 173, 179, 181,
   191, 193, 197, 199, 211, 223, 227, 229, 233, 239, 241, 251, 257, 263, 269, 271, 277, 281,
   283, 293, 307, 311]

/-- The whole part of the `k`-th root of `x`, for `x` below `2 ^ (36 * k)`: its bits are
settled from the highest down. -/
def root (k x : Nat) : Nat :=
  (List.range 36).foldl
    (fun r i => if (r + 2 ^ (35 - i)) ^ k ≤ x then r + 2 ^ (35 - i) else r) 0

/-- The first thirty-two bits of the fractional part of the `k`-th root of `p`. -/
def fraction (k p : Nat) : Nat := root k (p * 2 ^ (32 * k)) % 2 ^ 32

/-- The round constants of SHA-256 (FIPS 180-4, 4.2.2): the first thirty-two bits of the
fractional parts of the cube roots of the first sixty-four prime numbers. -/
def K : List Nat := primes.map (fraction 3)

/-- The eight working variables, or the eight words of a hash value. -/
structure State where
  a : Nat
  b : Nat
  c : Nat
  d : Nat
  e : Nat
  f : Nat
  g : Nat
  h : Nat
  deriving DecidableEq, Repr

/-- The initial hash value (FIPS 180-4, 5.3.3): the first thirty-two bits of the
fractional parts of the square roots of the first eight prime numbers. -/
def initial : State :=
  { a := fraction 2 2, b := fraction 2 3, c := fraction 2 5, d := fraction 2 7,
    e := fraction 2 11, f := fraction 2 13, g := fraction 2 17, h := fraction 2 19 }

/-- The size of a word. -/
def word : Nat := 4294967296

/-- Rotation of a word to the right. -/
def rotr (n x : Nat) : Nat := (x >>> n) ||| ((x <<< (32 - n)) % word)

/-- The functions of SHA-256 (FIPS 180-4, 4.1.2). -/
def ch (x y z : Nat) : Nat := (x &&& y) ^^^ ((word - 1 - x) &&& z)

def maj (x y z : Nat) : Nat := (x &&& y) ^^^ (x &&& z) ^^^ (y &&& z)

def bigSigma0 (x : Nat) : Nat := rotr 2 x ^^^ rotr 13 x ^^^ rotr 22 x

def bigSigma1 (x : Nat) : Nat := rotr 6 x ^^^ rotr 11 x ^^^ rotr 25 x

def smallSigma0 (x : Nat) : Nat := rotr 7 x ^^^ rotr 18 x ^^^ (x >>> 3)

def smallSigma1 (x : Nat) : Nat := rotr 17 x ^^^ rotr 19 x ^^^ (x >>> 10)

/-- The message with its padding: the bit `1`, zero bits up to 56 bytes modulo 64, and
the length of the message in bits as eight bytes. -/
def pad (message : List Nat) : List Nat :=
  message ++ [0x80] ++ List.replicate ((119 - message.length % 64) % 64) 0 ++
    (List.range 8).map (fun i => ((message.length * 8) >>> (8 * (7 - i))) % 256)

/-- The big-endian words of a run of bytes. -/
def words : List Nat → List Nat
  | b0 :: b1 :: b2 :: b3 :: rest => (((b0 * 256 + b1) * 256 + b2) * 256 + b3) :: words rest
  | _ => []

/-- One round: the working variables after it, for the constant `k` and the word `w` of
the message schedule. -/
def round (s : State) (k w : Nat) : State :=
  let t1 := (s.h + bigSigma1 s.e + ch s.e s.f s.g + k + w) % word
  let t2 := (bigSigma0 s.a + maj s.a s.b s.c) % word
  { a := (t1 + t2) % word, b := s.a, c := s.b, d := s.c,
    e := (s.d + t1) % word, f := s.e, g := s.f, h := s.g }

/-- The next sixteen words of the message schedule in a row: the first is dropped and
the word that follows the last is added. -/
def slide (w : List Nat) : List Nat :=
  w.drop 1 ++
    [(smallSigma1 (w.getD 14 0) + w.getD 9 0 + smallSigma0 (w.getD 1 0) + w.getD 0 0) % word]

/-- The sixty-four rounds over a block of sixteen words. -/
def rounds (s : State) (block : List Nat) : State :=
  (K.foldl (fun (acc : State × List Nat) k => (round acc.1 k (acc.2.getD 0 0), slide acc.2))
    (s, block)).1

/-- The hash value after a block. -/
def compress (s : State) (block : List Nat) : State :=
  let r := rounds s block
  { a := (s.a + r.a) % word, b := (s.b + r.b) % word, c := (s.c + r.c) % word,
    d := (s.d + r.d) % word, e := (s.e + r.e) % word, f := (s.f + r.f) % word,
    g := (s.g + r.g) % word, h := (s.h + r.h) % word }

/-- The hash value after the blocks of sixteen words that the words make up. -/
def absorb : Nat → State → List Nat → State
  | 0, s, _ => s
  | n + 1, s, ws => absorb n (compress s (ws.take 16)) (ws.drop 16)

/-- The four bytes of a word. -/
def wordBytes (w : Nat) : List Nat := [w / 16777216 % 256, w / 65536 % 256, w / 256 % 256, w % 256]

/-- Go `sha256.Sum256`: the thirty-two bytes of the digest of a message. -/
def sum (message : Str) : List Nat :=
  let ws := words (pad (message.map Char.toNat))
  let s := absorb (ws.length / 16) initial ws
  wordBytes s.a ++ wordBytes s.b ++ wordBytes s.c ++ wordBytes s.d ++
    wordBytes s.e ++ wordBytes s.f ++ wordBytes s.g ++ wordBytes s.h

end Sha256

/-- The verb `%x` of package `fmt` on a slice of bytes: two small hexadecimal digits for
each byte. -/
def hexBytes : List Nat → Str
  | [] => []
  | b :: bs => Json.hexDigit (b / 16 % 16) :: Json.hexDigit (b % 16) :: hexBytes bs

/-! ## Package `encoding/base64` -/

namespace Base64

/-- The alphabet of `base64.StdEncoding`. -/
def alphabet : Str :=
  "ABCDEFGHIJKLMNOPQRSTUVWXYZabcdefghijklmnopqrstuvwxyz0123456789+/".toList

/-- The character of a value of six bits. -/
def digit (n : Nat) : Char := alphabet.getD n 'A'

/-- Go `base64.StdEncoding.EncodeToString`: four characters for each three bytes, the
last group filled up with `=`. -/
def encode : Str → Str
  | a :: b :: c :: rest =>
    digit (a.toNat / 4) :: digit (a.toNat % 4 * 16 + b.toNat / 16) ::
      digit (b.toNat % 16 * 4 + c.toNat / 64) :: digit (c.toNat % 64) :: encode rest
  | [a, b] =>
    [digit (a.toNat / 4), digit (a.toNat % 4 * 16 + b.toNat / 16), digit (b.toNat % 16 * 4), '=']
  | [a] => [digit (a.toNat / 4), digit (a.toNat % 4 * 16), '=', '=']
  | [] => []

/-- A line feed or carriage return, which the decoder passes over. -/
def newline (c : Char) : Bool := c = '\n' || c = '\r'

/-- Whether the decoder accepts the text from here on, `j` characters of the current
group of four having been read (Go `decodeQuantum`): a group is four characters of the
alphabet, or, at the end of the text, two of them and `==` or three of them and `=`;
line feeds and carriage returns are passed over wherever they stand. -/
def validFrom : Str → Nat → Bool
  | [], j => j = 0
  | c :: cs, j =>
    if c ∈ alphabet then validFrom cs ((j + 1) % 4)
    else if newline c then validFrom cs j
    else if c = '=' then
      if j = 2 then
        match cs.dropWhile newline with
        | [] => false
        | d :: rest => d = '=' && (rest.dropWhile newline).isEmpty
      else if j = 3 then (cs.dropWhile newline).isEmpty
      else false
    else false

/-- Whether `base64.StdEncoding.DecodeString` returns no error for the text. -/
def valid (s : Str) : Bool := validFrom s 0

end Base64

/-! ## Package `os`, as far as the package uses it -/

/-- Go `os.FileInfo`: what `IsDir()` reports, which is all the package reads, and what
`Mode().IsRegular()` reports (false for a directory, and for a device, a pipe or a
socket). -/
structure FileInfo where
  isDir : Bool
  isRegular : Bool := !isDir
  deriving DecidableEq, Repr

/-- A file that `os.Open` has opened: the bytes that a reader gets from it, the error
with which reading it fails, if it does, and the error with which `Seek(0, 0)` fails, if
it does. -/
structure File where
  data : Str
  readFailure : Option GoError := none
  seekFailure : Option GoError := none
  deriving DecidableEq, Repr

/-- The file system: what `os.Open`, `os.Stat` and `os.ReadFile` return for a path. -/
structure FS where
  Open : Str → Except GoError File
  Stat : Str → Except GoError FileInfo
  ReadFile : Str → Except GoError Str

/-! ## `ollama/types.go`: `Image` -/

/-- The value that an `Image` holds: a `[]byte`, a `string`, or a value of another
type. -/
inductive ImageValue where
  | bytes (b : Str)
  | text (s : Str)
  | other
  deriving DecidableEq, Repr

/-- The type `Image`. -/
structure Image where
  Value : ImageValue
  deriving DecidableEq, Repr

/-- Whether the lower case of a string ends like the name of an image file. -/
def imageSuffix (lower : Str) : Bool :=
  ".png".toList.isSuffixOf lower || ".jpg".toList.isSuffixOf lower ||
    ".jpeg".toList.isSuffixOf lower || ".webp".toList.isSuffixOf lower

/-- The method `Image.MarshalJSON`. -/
def Image.MarshalJSON (fs : FS) (i : Image) : Json.Encoded :=
  match i.Value with
  | ImageValue.bytes v => Json.ofString (Base64.encode v)
  | ImageValue.text v =>
    -- Try file path first (any extension) if it exists
    let file : Option Json.Encoded :=
      match fs.Stat v with
      | Except.ok fi =>
        if fi.isDir = false then
          match fs.ReadFile v with
          | Except.error err => some (Except.error err)
          | Except.ok b => some (Json.ofString (Base64.encode b))
        else none
      | Except.error _ => none
    match file with
    | some result => result
    | none =>
      -- If extension looks image-like but file not found -> raise same as Python
      if imageSuffix (Strings.toLower v) then
        Except.error (GoError.leaf ("File ".toList ++ v ++ " does not exist".toList))
      -- Else try to decode as base64 to validate; if ok, pass through
      else if Base64.valid v then Json.ofString v
      else
        Except.error (GoError.leaf
          "Invalid image data, expected base64 string or path to image file".toList)
  | ImageValue.other => Except.error (GoError.leaf "Invalid image data type".toList)

/-! ## `ollama/client.go`: the operations without a request of their own -/

/-- The type `ShowRequest`. -/
structure ShowRequest where
  Model : Str
  deriving DecidableEq, Repr

/-- Go `json.Marshal` of a `ShowRequest`. -/
def ShowRequest.marshal (r : ShowRequest) : Json.Encoded :=
  Json.ofMembers (Json.always "model" (Json.ofString r.Model))

/-- The method `CreateBlob`. -/
def Client.CreateBlob (fs : FS) (env : Env) (c : Client) (path : Str) : Outcome Str :=
  match fs.Open path with
  | Except.error err => { result := Except.error (Error.other err), calls := [] }
  | Except.ok f =>
    match f.readFailure with
    | some err => { result := Except.error (Error.other err), calls := [] }
    | none =>
      let digest := "sha256:".toList ++ hexBytes (Sha256.sum f.data)
      -- upload
      match f.seekFailure with
      | some err => { result := Except.error (Error.other err), calls := [] }
      | none =>
        let sent := c.exchange env "POST".toList ("/api/blobs/".toList ++ digest) (some f.data) []
        match sent.result with
        | Except.error err => { result := Except.error err, calls := sent.calls }
        | Except.ok _ => { result := Except.ok digest, calls := sent.calls }

/-- The method `List`. -/
def Client.List {Res : Type} (env : Env) (c : Client) (t : Json.Target Res) : Outcome Res :=
  requestJSON env c t "GET".toList "/api/tags".toList none

/-- The method `Show`. -/
def Client.Show {Res : Type} (env : Env) (c : Client) (t : Json.Target Res) (model : Str) :
    Outcome Res :=
  requestJSON env c t "POST".toList "/api/show".toList
    (some (ShowRequest.marshal { Model := model }))

/-- The method `PS`. -/
def Client.PS {Res : Type} (env : Env) (c : Client) (t : Json.Target Res) : Outcome Res :=
  requestJSON env c t "GET".toList "/api/ps".toList none

/-! ## Vocabulary of the statements about failures and files -/

/-- The error of a cancelled context (Go `context.Canceled`). -/
def errCanceled : GoError := GoError.leaf "context canceled".toList

/-- The server cannot be reached: `http.NewRequestWithContext` accepts every request, and
for every request the HTTP client fails with an error that `isConnectErr` recognises. -/
def serverDown (env : Env) (c : Client) : Prop :=
  (∀ method url, env.newRequestError method url = none) ∧
    ∀ req, ∃ err, c.hc req = Except.error err ∧ isConnectErr env.sys err = true

/-- The `ConnectionError` with the fixed message, as the result of an operation. -/
def connectionError {α : Type} : Except Error α :=
  Except.error (Error.connection { Message := connectionErrorMessage })

/-- The serialisation succeeds. -/
def serialises (m : Json.Encoded) : Prop := ∃ b, m = Except.ok b

/-- A file system with one regular file at `path`. -/
def fileAt (path data : Str) : FS :=
  { Open := fun p =>
      if p = path then Except.ok { data := data }
      else Except.error (GoError.leaf "no such file or directory".toList)
    Stat := fun p =>
      if p = path then Except.ok { isDir := false, isRegular := true }
      else Except.error (GoError.leaf "no such file or directory".toList)
    ReadFile := fun p =>
      if p = path then Except.ok data
      else Except.error (GoError.leaf "no such file or directory".toList) }

/-- A file system with one device at `path`, such as `/dev/null`: a file that exists and
can be read, and is neither a directory nor a regular file. -/
def deviceAt (path data : Str) : FS :=
  { Open := fun p =>
      if p = path then Except.ok { data := data }
      else Except.error (GoError.leaf "no such file or directory".toList)
    Stat := fun p =>
      if p = path then Except.ok { isDir := false, isRegular := false }
      else Except.error (GoError.leaf "no such file or directory".toList)
    ReadFile := fun p =>
      if p = path then Except.ok data
      else Except.error (GoError.leaf "no such file or directory".toList) }

end Ollama

/-! # Theorems -/

namespace Ollama

open Strings Url Url.Encoding

/-! ## Lemmas on the library functions -/

theorem cut_none_of_head_not_mem (c : Char) (sep s : Str) (h : c ∉ s) :
    cut (c :: sep) s = none := by
  induction s with
  | nil => simp [cut]
  | cons x xs ih =>
    have hx : x ≠ c := fun e => h (by simp [e])
    have hxs : c ∉ xs := fun e => h (by simp [e])
    have hne : (c == x) = false := by simpa using (Ne.symm hx)
    simp [cut, List.isPrefixOf, hne, ih hxs]

theorem cut_singleton_append (c : Char) (a b : Str) (h : c ∉ a) :
    cut [c] (a ++ c :: b) = some (a, b) := by
  induction a with
  | nil => simp [cut, List.isPrefixOf]
  | cons x xs ih =>
    have hx : x ≠ c := fun e => h (by simp [e])
    have hxs : c ∉ xs := fun e => h (by simp [e])
    have hne : (c == x) = false := by simpa using (Ne.symm hx)
    simp [cut, List.isPrefixOf, hne, ih hxs]

theorem cutLast_none_of_not_mem (c : Char) (s : Str) (h : c ∉ s) : cutLast c s = none := by
  induction s with
  | nil => simp [cutLast]
  | cons x xs ih =>
    have hx : x ≠ c := fun e => h (by simp [e])
    have hxs : c ∉ xs := fun e => h (by simp [e])
    simp [cutLast, ih hxs, hx]

theorem cutLast_append (c : Char) (a b : Str) (h : c ∉ b) :
    cutLast c (a ++ c :: b) = some (a, b) := by
  induction a with
  | nil => simp [cutLast, cutLast_none_of_not_mem c b h]
  | cons x xs ih => simp [cutLast, ih]

theorem stripAll_of_none (strip : Str → Option Str) (n : Nat) (s : Str) (h : strip s = none) :
    stripAll strip n s = s := by
  cases n with
  | zero => rfl
  | succ n => simp [stripAll, h]

theorem isPrefixOf_cons_of_ne (b c : Char) (w cs : Str) (h : b ≠ c) :
    (b :: w).isPrefixOf (c :: cs) = false := by
  have : (b == c) = false := by simpa using h
  simp [List.isPrefixOf, this]

theorem unicodeSpaces_heads :
    unicodeSpaces.all (fun w => match w with
      | b :: _ => decide (194 ≤ b.toNat)
      | [] => false) = true := by decide

theorem unicodeSpaces_lasts :
    unicodeSpaces.all (fun w => match w.reverse with
      | b :: _ => decide (128 ≤ b.toNat)
      | [] => false) = true := by decide

theorem stripSpace_none (c : Char) (cs : Str) (h1 : isAsciiSpace c = false)
    (h2 : c.toNat < 128) : stripSpace (c :: cs) = none := by
  have hfind : unicodeSpaces.find? (fun w => w.isPrefixOf (c :: cs)) = none := by
    rw [List.find?_eq_none]
    intro w hw
    have := List.all_eq_true.mp unicodeSpaces_heads w hw
    cases w with
    | nil => simp at this
    | cons b w' =>
      simp only [decide_eq_true_eq] at this
      have hne : b ≠ c := by
        intro e
        rw [e] at this
        omega
      simp [isPrefixOf_cons_of_ne b c w' cs hne]
  simp [stripSpace, h1, hfind]

theorem stripSpaceRev_none (c : Char) (cs : Str) (h1 : isAsciiSpace c = false)
    (h2 : c.toNat < 128) : stripSpaceRev (c :: cs) = none := by
  have hfind : unicodeSpaces.find? (fun w => w.reverse.isPrefixOf (c :: cs)) = none := by
    rw [List.find?_eq_none]
    intro w hw
    have := List.all_eq_true.mp unicodeSpaces_lasts w hw
    cases hr : w.reverse with
    | nil => simp [hr] at this
    | cons b w' =>
      simp only [hr, decide_eq_true_eq] at this
      have hne : b ≠ c := by
        intro e
        rw [e] at this
        omega
      simp [isPrefixOf_cons_of_ne b c w' cs hne]
  simp [stripSpaceRev, h1, hfind]

theorem visible_not_space (c : Char) (h : visible c = true) :
    isAsciiSpace c = false ∧ c.toNat < 128 := by
  simp only [visible, Bool.and_eq_true, decide_eq_true_eq] at h
  refine ⟨?_, by omega⟩
  simp only [isAsciiSpace, Bool.or_eq_false_iff, decide_eq_false_iff_not]
  omega

theorem trimLeftSpace_eq_self (s : Str) (h : ∀ c ∈ s, visible c = true) :
    trimLeftSpace s = s := by
  cases s with
  | nil => rfl
  | cons c cs =>
    have hv := visible_not_space c (h c (by simp))
    exact stripAll_of_none _ _ _ (stripSpace_none c cs hv.1 hv.2)

theorem trimRightSpace_eq_self (s : Str) (h : ∀ c ∈ s, visible c = true) :
    trimRightSpace s = s := by
  unfold trimRightSpace
  cases hr : s.reverse with
  | nil =>
    have hs : s = [] := by simpa using hr
    subst hs
    rfl
  | cons c cs =>
    have hc : c ∈ s := by
      have : c ∈ s.reverse := by rw [hr]; simp
      simpa using this
    have hv := visible_not_space c (h c hc)
    rw [stripAll_of_none _ _ _ (stripSpaceRev_none c cs hv.1 hv.2), ← hr]
    simp

theorem trimSpace_eq_self (s : Str) (h : ∀ c ∈ s, visible c = true) : trimSpace s = s := by
  unfold trimSpace
  rw [trimLeftSpace_eq_self s h, trimRightSpace_eq_self s h]

theorem unescapeOk_of_plain (mode : Encoding) (s : Str)
    (h : ∀ c ∈ s, c ≠ '%' ∧ shouldEscape c encodeHost = false) : unescapeOk mode s = true := by
  induction s with
  | nil => simp [unescapeOk]
  | cons c cs ih =>
    have hc := h c (by simp)
    have hcs : ∀ d ∈ cs, d ≠ '%' ∧ shouldEscape d encodeHost = false :=
      fun d hd => h d (by simp [hd])
    rw [unescapeOk.eq_def]
    simp [hc.1, hc.2, ih hcs]

theorem unescapeOk_path (s : Str) (h : ∀ c ∈ s, c ≠ '%') :
    unescapeOk encodePath s = true := by
  induction s with
  | nil => simp [unescapeOk]
  | cons c cs ih =>
    have hc := h c (by simp)
    have hcs : ∀ d ∈ cs, d ≠ '%' := fun d hd => h d (by simp [hd])
    rw [unescapeOk.eq_def]
    simp [hc, ih hcs]

theorem unescapeBytes_of_plain (mode : Encoding) (hm : mode ≠ encodeQueryComponent) (s : Str)
    (h : ∀ c ∈ s, c ≠ '%') : unescapeBytes mode s = s := by
  induction s with
  | nil => simp [unescapeBytes]
  | cons c cs ih =>
    have hc := h c (by simp)
    have hcs : ∀ d ∈ cs, d ≠ '%' := fun d hd => h d (by simp [hd])
    rw [unescapeBytes.eq_def]
    simp [hc, hm, ih hcs]

theorem unescape_host_eq (s : Str)
    (h : ∀ c ∈ s, c ≠ '%' ∧ shouldEscape c encodeHost = false) :
    unescape s encodeHost = some s := by
  simp [unescape, unescapeOk_of_plain encodeHost s h,
    unescapeBytes_of_plain encodeHost (by decide) s (fun c hc => (h c hc).1)]

theorem unescape_path_eq (s : Str) (h : ∀ c ∈ s, c ≠ '%') :
    unescape s encodePath = some s := by
  simp [unescape, unescapeOk_path s h, unescapeBytes_of_plain encodePath (by decide) s h]

theorem escape_eq_self (mode : Encoding) (s : Str)
    (h : ∀ c ∈ s, shouldEscape c mode = false) : escape s mode = s := by
  induction s with
  | nil => simp [escape]
  | cons c cs ih =>
    have hc := h c (by simp)
    have hcs : ∀ d ∈ cs, shouldEscape d mode = false := fun d hd => h d (by simp [hd])
    have := ih hcs
    simp only [escape] at this ⊢
    simp [List.flatMap_cons, hc, this]

theorem setPath_eq (u : URL) (p : Str)
    (h : ∀ c ∈ p, c ≠ '%' ∧ shouldEscape c encodePath = false) :
    setPath u p = some { u with Path := p, RawPath := [] } := by
  simp [setPath, unescape_path_eq p (fun c hc => (h c hc).1),
    escape_eq_self encodePath p (fun c hc => (h c hc).2)]

theorem escapedPath_eq (u : URL) (h : u.RawPath = [])
    (hp : ∀ c ∈ u.Path, shouldEscape c encodePath = false) : u.EscapedPath = u.Path := by
  unfold URL.EscapedPath
  simp only [h, ne_eq, not_true_eq_false, false_and, if_false]
  split
  · next h1 => rw [h1]
  · exact escape_eq_self encodePath _ hp

theorem getScheme_http (X : Str) :
    getScheme ("http".toList ++ ':' :: X) = some ("http".toList, X) := by
  simp [getScheme, getSchemeFrom, isLetter, isDigit]

theorem getScheme_https (X : Str) :
    getScheme ("https".toList ++ ':' :: X) = some ("https".toList, X) := by
  simp [getScheme, getSchemeFrom, isLetter, isDigit]

theorem parseAuthority_eq (A : Str) (hA : ∀ c ∈ A, authorityByte c = true)
    (hhost : Url.parseHost A = some A) : parseAuthority A = some A := by
  have hat : '@' ∉ A := by
    intro hmem
    have := hA _ hmem
    simp [authorityByte] at this
  simp [parseAuthority, cutLast_none_of_not_mem '@' A hat, hhost]

theorem authorityByte_spec (c : Char) (h : authorityByte c = true) :
    visible c = true ∧ shouldEscape c encodeHost = false ∧ c ≠ '%' ∧ c ≠ '/' ∧ c ≠ '?' ∧
      c ≠ '#' ∧ c ≠ '@' := by
  simp only [authorityByte, Bool.and_eq_true, Bool.not_eq_true', decide_eq_true_eq] at h
  obtain ⟨⟨h1, h2⟩, h3⟩ := h
  refine ⟨h1, h2, ?_, ?_, ?_, ?_, ?_⟩ <;> intro e <;> subst e <;> simp at h3

theorem pathByte_spec (c : Char) (h : pathByte c = true) :
    visible c = true ∧ shouldEscape c encodePath = false ∧ c ≠ '%' ∧ c ≠ '?' ∧ c ≠ '#' ∧
      c ≠ ':' := by
  simp only [pathByte, Bool.and_eq_true, Bool.not_eq_true', decide_eq_true_eq] at h
  obtain ⟨⟨h1, h2⟩, h3⟩ := h
  refine ⟨h1, h2, ?_, ?_, ?_, ?_⟩ <;> intro e <;> subst e <;> simp at h3

theorem visible_not_ctl (c : Char) (h : visible c = true) :
    (decide (c.toNat < 32) || decide (c.toNat = 127)) = false := by
  simp only [visible, Bool.and_eq_true, decide_eq_true_eq] at h
  simp only [Bool.or_eq_false_iff, decide_eq_false_iff_not]
  omega

theorem stringContainsCTLByte_false (s : Str) (h : ∀ c ∈ s, visible c = true) :
    stringContainsCTLByte s = false := by
  unfold stringContainsCTLByte
  rw [List.any_eq_false]
  intro c hc
  simpa using visible_not_ctl c (h c hc)

/-- The URL that `Parse` returns for a plain `scheme://authority[/path]`. -/
theorem parse_plain (S A P : Str) (hS : S = "http".toList ∨ S = "https".toList)
    (hA : ∀ c ∈ A, authorityByte c = true) (hP : ∀ c ∈ P, pathByte c = true)
    (hPs : P = [] ∨ ∃ p, P = '/' :: p) (hhost : Url.parseHost A = some A) :
    Url.Parse (S ++ "://".toList ++ A ++ P) =
      some { Scheme := S, Host := A, Path := P, RawPath := [] } := by
  have hSv : ∀ c ∈ S, visible c = true ∧ c ≠ '#' ∧ c ≠ '?' := by
    rcases hS with hS | hS <;> subst hS <;> decide
  have hvis : ∀ c ∈ S ++ "://".toList ++ A ++ P, visible c = true := by
    intro c hc
    simp only [List.mem_append] at hc
    rcases hc with ((hc | hc) | hc) | hc
    · exact (hSv c hc).1
    · revert c; decide
    · exact (authorityByte_spec c (hA c hc)).1
    · exact (pathByte_spec c (hP c hc)).1
  have hhash : '#' ∉ S ++ "://".toList ++ A ++ P := by
    intro hc
    simp only [List.mem_append] at hc
    rcases hc with ((hc | hc) | hc) | hc
    · exact (hSv _ hc).2.1 rfl
    · revert hc; decide
    · exact (authorityByte_spec _ (hA _ hc)).2.2.2.2.2.1 rfl
    · exact (pathByte_spec _ (hP _ hc)).2.2.2.2.1 rfl
  have hq : '?' ∉ '/' :: '/' :: (A ++ P) := by
    intro hc
    simp only [List.mem_cons, List.mem_append] at hc
    rcases hc with hc | hc | hc | hc
    · revert hc; decide
    · revert hc; decide
    · exact (authorityByte_spec _ (hA _ hc)).2.2.2.2.1 rfl
    · exact (pathByte_spec _ (hP _ hc)).2.2.2.1 rfl
  have hslashA : '/' ∉ A := fun hc => (authorityByte_spec _ (hA _ hc)).2.2.2.1 rfl
  have hcutP : (match cut ['/'] (A ++ P) with
      | some (a, b) => (a, '/' :: b)
      | none => (A ++ P, [])) = (A, P) := by
    rcases hPs with hPs | ⟨p, hPs⟩
    · subst hPs
      simp [cut_none_of_head_not_mem '/' [] A hslashA]
    · subst hPs
      simp [cut_singleton_append '/' A p hslashA]
  have hpath : setPath { Scheme := S, Host := A } P =
      some { Scheme := S, Host := A, Path := P, RawPath := [] } := by
    rw [setPath_eq _ P (fun c hc =>
      ⟨(pathByte_spec c (hP c hc)).2.2.1, (pathByte_spec c (hP c hc)).2.1⟩)]
  have hgs : getScheme (S ++ "://".toList ++ A ++ P) = some (S, '/' :: '/' :: (A ++ P)) := by
    rcases hS with hS | hS <;> subst hS
    · simpa using getScheme_http ('/' :: '/' :: (A ++ P))
    · simpa using getScheme_https ('/' :: '/' :: (A ++ P))
  have hlow : toLower S = S := by
    rcases hS with hS | hS <;> subst hS <;> decide
  have hSne : S ≠ [] := by
    rcases hS with hS | hS <;> subst hS <;> decide
  have hstar : S ++ "://".toList ++ A ++ P ≠ ['*'] := by
    rcases hS with hS | hS <;> subst hS <;> simp
  unfold Url.Parse
  rw [cut_none_of_head_not_mem '#' [] _ hhash]
  simp only []
  unfold Url.parse
  simp only [stringContainsCTLByte_false _ hvis, hstar, hgs, hlow,
    cut_none_of_head_not_mem '?' [] _ hq]
  simp [List.isPrefixOf, hSne, hcutP, parseAuthority_eq A hA hhost, hpath]

theorem nameBytes_spec : ∀ c ∈ nameBytes,
    authorityByte c = true ∧ c ≠ ':' ∧ c ≠ '[' ∧ c ≠ ']' := by decide

theorem ipv6Bytes_spec : ∀ c ∈ ipv6Bytes,
    authorityByte c = true ∧ c ≠ '[' ∧ c ≠ ']' := by decide

theorem digits_spec : ∀ c ∈ digits,
    authorityByte c = true ∧ isDigit c = true ∧ c ≠ ':' ∧ c ≠ ']' ∧ c ≠ '/' := by decide

theorem pathBytes_spec : ∀ c ∈ pathBytes, pathByte c = true := by decide

theorem all_mem_iff (s alphabet : Str) :
    s.all (fun c => decide (c ∈ alphabet)) = true ↔ ∀ c ∈ s, c ∈ alphabet := by
  simp [List.all_eq_true]

theorem validOptionalPort_digits (d : Str) (hd : ∀ c ∈ d, c ∈ digits) :
    validOptionalPort (':' :: d) = true := by
  simp only [validOptionalPort, decide_True, Bool.true_and, List.all_eq_true]
  intro c hc
  exact (digits_spec c (hd c hc)).2.1

theorem not_mem_of_spec (d : Str) (c : Char) (hd : ∀ x ∈ d, x ≠ c) : c ∉ d :=
  fun h => hd c h rfl

theorem unescape_authority (A : Str) (hA : ∀ c ∈ A, authorityByte c = true) :
    unescape A encodeHost = some A :=
  unescape_host_eq A (fun c hc =>
    ⟨(authorityByte_spec c (hA c hc)).2.2.1, (authorityByte_spec c (hA c hc)).2.1⟩)

theorem isPrefixOf_singleton_false (c : Char) (s t : Str) (hne : s ≠ [])
    (h : ∀ x ∈ s, x ≠ c) : [c].isPrefixOf (s ++ t) = false := by
  obtain ⟨x, xs, rfl⟩ := List.exists_cons_of_ne_nil hne
  have hx : (c == x) = false := by simpa using (Ne.symm (h x (by simp)))
  simp [List.isPrefixOf, hx]

/-- The host of a name with an optional port, as `net/url` parses it. -/
theorem urlParseHost_name (h d : Str) (hne : h ≠ []) (hh : ∀ c ∈ h, c ∈ nameBytes)
    (hd : ∀ c ∈ d, c ∈ digits) :
    Url.parseHost h = some h ∧ Url.parseHost (h ++ ':' :: d) = some (h ++ ':' :: d) := by
  have hb : ∀ x ∈ h, x ≠ '[' := fun c hc => (nameBytes_spec c (hh c hc)).2.2.1
  have hcolon : ':' ∉ h := not_mem_of_spec _ _ (fun c hc => (nameBytes_spec c (hh c hc)).2.1)
  have hcolond : ':' ∉ d := not_mem_of_spec _ _ (fun c hc => (digits_spec c (hd c hc)).2.2.1)
  have hA1 : ∀ c ∈ h, authorityByte c = true := fun c hc => (nameBytes_spec c (hh c hc)).1
  have hA2 : ∀ c ∈ h ++ ':' :: d, authorityByte c = true := by
    intro c hc
    simp only [List.mem_append, List.mem_cons] at hc
    rcases hc with hc | hc | hc
    · exact hA1 c hc
    · subst hc; decide
    · exact (digits_spec c (hd c hc)).1
  constructor
  · unfold Url.parseHost
    have := isPrefixOf_singleton_false '[' h [] hne hb
    rw [List.append_nil] at this
    rw [this, cutLast_none_of_not_mem ':' _ hcolon, unescape_authority _ hA1]
    simp
  · unfold Url.parseHost
    rw [isPrefixOf_singleton_false '[' h _ hne hb, cutLast_append ':' h d hcolond]
    simp [validOptionalPort_digits d hd, unescape_authority _ hA2]

theorem splitHostPort_name (h d : Str) (hne : h ≠ []) (hh : ∀ c ∈ h, c ∈ nameBytes)
    (hd : ∀ c ∈ d, c ∈ digits) :
    splitHostPort h = (h, []) ∧ splitHostPort (h ++ ':' :: d) = (h, d) := by
  have hb : ∀ x ∈ h, x ≠ '[' := fun c hc => (nameBytes_spec c (hh c hc)).2.2.1
  have hcolon : ':' ∉ h := not_mem_of_spec _ _ (fun c hc => (nameBytes_spec c (hh c hc)).2.1)
  have hcolond : ':' ∉ d := not_mem_of_spec _ _ (fun c hc => (digits_spec c (hd c hc)).2.2.1)
  have hpre := isPrefixOf_singleton_false '[' h [] hne hb
  rw [List.append_nil] at hpre
  constructor
  · unfold splitHostPort
    rw [cutLast_none_of_not_mem ':' _ hcolon]
    simp [hpre]
  · unfold splitHostPort
    rw [cutLast_append ':' h d hcolond]
    simp [hpre, validOptionalPort_digits d hd]

theorem exists_last_occurrence (c : Char) (s : Str) (h : c ∈ s) :
    ∃ a b, s = a ++ c :: b ∧ c ∉ b := by
  induction s with
  | nil => simp at h
  | cons x xs ih =>
    by_cases hxs : c ∈ xs
    · obtain ⟨a, b, hab, hb⟩ := ih hxs
      exact ⟨x :: a, b, by simp [hab], hb⟩
    · have hx : c = x := by
        rcases List.mem_cons.mp h with h | h
        · exact h
        · exact absurd h hxs
      exact ⟨[], xs, by simp [hx], hxs⟩

theorem exists_first_occurrence (c : Char) (s : Str) (h : c ∈ s) :
    ∃ a b, s = a ++ c :: b ∧ c ∉ a := by
  induction s with
  | nil => simp at h
  | cons x xs ih =>
    by_cases hx : c = x
    · exact ⟨[], xs, by simp [hx], by simp⟩
    · have hxs : c ∈ xs := by
        rcases List.mem_cons.mp h with h | h
        · exact absurd h hx
        · exact h
      obtain ⟨a, b, hab, ha⟩ := ih hxs
      refine ⟨x :: a, b, by simp [hab], ?_⟩
      simp [hx, ha]

theorem contains_colon_iff (s : Str) : Strings.contains s [':'] = true ↔ ':' ∈ s := by
  constructor
  · intro h
    by_contra hn
    simp [Strings.contains, cut_none_of_head_not_mem ':' [] s hn] at h
  · intro h
    obtain ⟨a, b, hab, ha⟩ := exists_first_occurrence ':' s h
    simp [Strings.contains, hab, cut_singleton_append ':' a b ha]

theorem take_drop_brackets (a : Str) :
    List.take (('[' :: (a ++ [']'])).length - 2) (List.drop 1 ('[' :: (a ++ [']']))) = a := by
  simp

theorem isSuffixOf_bracket (a : Str) : [']'].isSuffixOf ('[' :: (a ++ [']'])) = true := by
  simp [List.isSuffixOf]

/-- The host of a bracketed literal with an optional port, as `net/url` parses it. -/
theorem urlParseHost_bracket (a ps : Str) (ha : ∀ c ∈ a, c ∈ ipv6Bytes) (hps : ']' ∉ ps)
    (hv : validOptionalPort ps = true) (hpsA : ∀ c ∈ ps, authorityByte c = true) :
    Url.parseHost ('[' :: (a ++ ']' :: ps)) = some ('[' :: (a ++ ']' :: ps)) := by
  have hA : ∀ c ∈ '[' :: (a ++ ']' :: ps), authorityByte c = true := by
    intro c hc
    simp only [List.mem_cons, List.mem_append] at hc
    rcases hc with hc | hc | hc | hc
    · subst hc; decide
    · exact (ipv6Bytes_spec c (ha c hc)).1
    · subst hc; decide
    · exact hpsA c hc
  have hpct : '%' ∉ '[' :: a := by
    intro hc
    rcases List.mem_cons.mp hc with hc | hc
    · revert hc; decide
    · exact (authorityByte_spec _ (ipv6Bytes_spec _ (ha _ hc)).1).2.2.1 rfl
  have hcl : cutLast ']' ('[' :: (a ++ ']' :: ps)) = some ('[' :: a, ps) := by
    have := cutLast_append ']' ('[' :: a) ps hps
    simpa using this
  unfold Url.parseHost
  rw [hcl]
  simp [List.isPrefixOf, hv, cut_none_of_head_not_mem '%' ['2', '5'] _ hpct,
    unescape_authority _ hA]

theorem splitHostPort_bracket (a d : Str) (hcolon : ':' ∈ a)
    (hd : ∀ c ∈ d, c ∈ digits) :
    splitHostPort ('[' :: (a ++ [']'])) = (a, []) ∧
      splitHostPort ('[' :: (a ++ [']']) ++ ':' :: d) = (a, d) := by
  have hcolond : ':' ∉ d := not_mem_of_spec _ _ (fun c hc => (digits_spec c (hd c hc)).2.2.1)
  constructor
  · obtain ⟨a1, a2, hab, ha2⟩ := exists_last_occurrence ':' a hcolon
    have hnot : ':' ∉ a2 ++ [']'] := by
      simp [ha2]
    have hcl : cutLast ':' ('[' :: (a ++ [']'])) = some ('[' :: a1, a2 ++ [']']) := by
      have := cutLast_append ':' ('[' :: a1) (a2 ++ [']']) hnot
      simpa [hab] using this
    have hinv : validOptionalPort (':' :: (a2 ++ [']'])) = false := by
      simp [validOptionalPort, isDigit]
    unfold splitHostPort
    rw [hcl]
    simp only [hinv]
    simp [List.isPrefixOf, isSuffixOf_bracket a]
  · have hcl : cutLast ':' ('[' :: (a ++ [']']) ++ ':' :: d) = some ('[' :: (a ++ [']']), d) :=
      cutLast_append ':' _ d hcolond
    unfold splitHostPort
    rw [hcl]
    simp [validOptionalPort_digits d hd, List.isPrefixOf, isSuffixOf_bracket a]

theorem hostText_name (h : Str) (hh : ∀ c ∈ h, c ∈ nameBytes) : hostText h = h := by
  have hcolon : ':' ∉ h := not_mem_of_spec _ _ (fun c hc => (nameBytes_spec c (hh c hc)).2.1)
  have : Strings.contains h [':'] = false := by
    rw [← Bool.not_eq_true, contains_colon_iff]
    exact hcolon
  simp [hostText, this]

theorem hostText_ipv6 (a : Str) (ha : ∀ c ∈ a, c ∈ ipv6Bytes) (hcolon : ':' ∈ a) :
    hostText a = '[' :: (a ++ [']']) := by
  have hne : a ≠ [] := by
    intro h0
    simp [h0] at hcolon
  have hb : ∀ x ∈ a, x ≠ '[' := fun c hc => (ipv6Bytes_spec c (ha c hc)).2.1
  have hpre := isPrefixOf_singleton_false '[' a [] hne hb
  rw [List.append_nil] at hpre
  simp [hostText, (contains_colon_iff a).mpr hcolon, hpre]

theorem cut_scheme_none (A P : Str) (hA : '/' ∉ A) (hP : ':' ∉ P)
    (hlast : ∀ B, A ≠ B ++ [':']) : cut "://".toList (A ++ P) = none := by
  induction A with
  | nil => simpa using cut_none_of_head_not_mem ':' ['/', '/'] P hP
  | cons x A' ih =>
    have hA' : '/' ∉ A' := fun h => hA (by simp [h])
    have hlast' : ∀ B, A' ≠ B ++ [':'] := by
      intro B hB
      exact hlast (x :: B) (by simp [hB])
    have hpre : "://".toList.isPrefixOf (x :: (A' ++ P)) = false := by
      by_cases hx : x = ':'
      · subst hx
        cases A' with
        | nil => exact absurd rfl (hlast [])
        | cons y A'' =>
          have hy : ('/' == y) = false := by
            have : y ≠ '/' := fun e => hA (by simp [e])
            simpa using (Ne.symm this)
          simp [List.isPrefixOf, hy]
      · have : (':' == x) = false := by simpa using (Ne.symm hx)
        simp [List.isPrefixOf, this]
    have hrec : cut [':', '/', '/'] (A' ++ P) = none := ih hA' hlast'
    rw [List.cons_append, Strings.cut, hpre]
    simp [hrec]

theorem not_end_colon (S T : Str) (hT : ∀ c ∈ T, c ≠ ':') (hne : T ≠ []) :
    ∀ B, S ++ T ≠ B ++ [':'] := by
  intro B hB
  obtain ⟨T0, z, rfl⟩ := (List.eq_nil_or_concat T).resolve_left hne
  rw [List.concat_eq_append, ← List.append_assoc] at hB
  have := (List.append_inj' hB rfl).2
  have hz : z = ':' := by simpa using this
  exact hT z (by simp) hz

theorem authority_facts (x : HostString) (hx : x.wellFormed = true) :
    (∀ c ∈ x.authority, authorityByte c = true) ∧
    Url.parseHost x.authority = some x.authority ∧
    splitHostPort x.authority = (x.host.hostname, x.port.getD []) ∧
    hostText x.host.hostname = x.host.text ∧
    (∀ B, x.authority ≠ B ++ [':']) ∧
    (∀ c ∈ x.portText, c ≠ '[') := by
  obtain ⟨sc, host, port, path⟩ := x
  cases host with
  | name h =>
    cases port with
    | none =>
      simp only [HostString.wellFormed, HostForm.wellFormed, Bool.and_eq_true, decide_eq_true_eq,
        all_mem_iff] at hx
      obtain ⟨⟨⟨hne, hh⟩, -⟩, -⟩ := hx
      simp only [HostString.authority, HostForm.text, HostString.portText, List.append_nil,
        HostForm.hostname, Option.getD]
      refine ⟨fun c hc => (nameBytes_spec c (hh c hc)).1,
        (urlParseHost_name h [] hne hh (by simp)).1,
        (splitHostPort_name h [] hne hh (by simp)).1, hostText_name h hh, ?_, by simp⟩
      have := not_end_colon [] h (fun c hc => (nameBytes_spec c (hh c hc)).2.1) hne
      simpa using this
    | some d =>
      simp only [HostString.wellFormed, HostForm.wellFormed, Bool.and_eq_true, decide_eq_true_eq,
        all_mem_iff] at hx
      obtain ⟨⟨⟨hne, hh⟩, hdne, hd⟩, -⟩ := hx
      simp only [HostString.authority, HostForm.text, HostString.portText,
        HostForm.hostname, Option.getD]
      refine ⟨?_, (urlParseHost_name h d hne hh hd).2, (splitHostPort_name h d hne hh hd).2,
        hostText_name h hh, ?_, ?_⟩
      · intro c hc
        simp only [List.mem_append, List.mem_cons] at hc
        rcases hc with hc | hc | hc
        · exact (nameBytes_spec c (hh c hc)).1
        · subst hc; decide
        · exact (digits_spec c (hd c hc)).1
      · have := not_end_colon (h ++ [':']) d (fun c hc => (digits_spec c (hd c hc)).2.2.1) hdne
        simpa using this
      · intro c hc
        rcases List.mem_cons.mp hc with hc | hc
        · subst hc; decide
        · intro e
          subst e
          have := (digits_spec _ (hd _ hc)).2.1
          simp [isDigit] at this
  | ipv6 a =>
    cases port with
    | none =>
      simp only [HostString.wellFormed, HostForm.wellFormed, Bool.and_eq_true, decide_eq_true_eq,
        all_mem_iff] at hx
      obtain ⟨⟨⟨hcolon, ha⟩, -⟩, -⟩ := hx
      simp only [HostString.authority, HostForm.text, HostString.portText, List.append_nil,
        HostForm.hostname, Option.getD]
      refine ⟨?_, urlParseHost_bracket a [] ha (by simp) (by simp [validOptionalPort]) (by simp),
        (splitHostPort_bracket a [] hcolon (by simp)).1, hostText_ipv6 a ha hcolon, ?_, by simp⟩
      · intro c hc
        simp only [List.mem_cons, List.mem_append, List.mem_singleton, List.not_mem_nil,
          or_false, or_assoc] at hc
        rcases hc with hc | hc | hc
        · subst hc; decide
        · exact (ipv6Bytes_spec c (ha c hc)).1
        · subst hc; decide
      · have := not_end_colon ('[' :: a) [']'] (by decide) (by simp)
        simpa using this
    | some d =>
      simp only [HostString.wellFormed, HostForm.wellFormed, Bool.and_eq_true, decide_eq_true_eq,
        all_mem_iff] at hx
      obtain ⟨⟨⟨hcolon, ha⟩, hdne, hd⟩, -⟩ := hx
      simp only [HostString.authority, HostForm.text, HostString.portText,
        HostForm.hostname, Option.getD]
      have hdA : ∀ c ∈ ':' :: d, authorityByte c = true := by
        intro c hc
        rcases List.mem_cons.mp hc with hc | hc
        · subst hc; decide
        · exact (digits_spec c (hd c hc)).1
      have hdb : ']' ∉ ':' :: d := by
        intro hc
        rcases List.mem_cons.mp hc with hc | hc
        · revert hc; decide
        · exact (digits_spec _ (hd _ hc)).2.2.2.1 rfl
      refine ⟨?_, ?_, (splitHostPort_bracket a d hcolon hd).2, hostText_ipv6 a ha hcolon, ?_, ?_⟩
      · intro c hc
        simp only [List.mem_cons, List.mem_append, List.mem_singleton, List.not_mem_nil,
          or_false, or_assoc] at hc
        rcases hc with hc | hc | hc | hc | hc
        · subst hc; decide
        · exact (ipv6Bytes_spec c (ha c hc)).1
        · subst hc; decide
        · subst hc; decide
        · exact (digits_spec c (hd c hc)).1
      · have := urlParseHost_bracket a (':' :: d) ha hdb (validOptionalPort_digits d hd) hdA
        simpa using this
      · have := not_end_colon ('[' :: (a ++ [']']) ++ [':']) d
          (fun c hc => (digits_spec c (hd c hc)).2.2.1) hdne
        simpa using this
      · intro c hc
        rcases List.mem_cons.mp hc with hc | hc
        · subst hc; decide
        · intro e
          subst e
          have := (digits_spec _ (hd _ hc)).2.1
          simp [isDigit] at this

theorem path_facts (x : HostString) (hx : x.wellFormed = true) :
    (∀ c ∈ x.pathSuffix, pathByte c = true) ∧
      (x.pathSuffix = [] ∨ ∃ p, x.pathSuffix = '/' :: p) := by
  obtain ⟨sc, host, port, path⟩ := x
  cases path with
  | none => simp [HostString.pathSuffix]
  | some p =>
    simp only [HostString.wellFormed, Bool.and_eq_true, all_mem_iff] at hx
    obtain ⟨-, hp⟩ := hx
    simp only [HostString.pathSuffix]
    refine ⟨?_, Or.inr ⟨p, rfl⟩⟩
    intro c hc
    rcases List.mem_cons.mp hc with hc | hc
    · subst hc; decide
    · exact pathBytes_spec c (hp c hc)

theorem host_text_ne_nil (x : HostString) (hx : x.wellFormed = true) : x.host.text ≠ [] := by
  obtain ⟨sc, host, port, path⟩ := x
  cases host with
  | name h =>
    simp only [HostString.wellFormed, HostForm.wellFormed, Bool.and_eq_true,
      decide_eq_true_eq] at hx
    simpa [HostForm.text] using hx.1.1.1
  | ipv6 a => simp [HostForm.text]

theorem cut_http (r : Str) :
    cut "://".toList ("http://".toList ++ r) = some ("http".toList, r) := by
  simp [cut, List.isPrefixOf]

theorem cut_https (r : Str) :
    cut "://".toList ("https://".toList ++ r) = some ("https".toList, r) := by
  simp [cut, List.isPrefixOf]

/-- The result of `parseHost` in terms of the URL that `Parse` returns, when the
scheme is `http` or `https`. -/
theorem parseHost_of_cut (input : Str) (found : Option (Str × Str)) (S A P : Str)
    (hS : S = "http".toList ∨ S = "https".toList)
    (hne : trimSpace input ≠ [])
    (hcut : cut "://".toList (trimSpace input) = found)
    (hfound : found = none ∧ S = "http".toList ∧ trimSpace input = A ++ P ∨
      found = some (S, A ++ P))
    (hparse : Url.Parse (S ++ "://".toList ++ A ++ P) =
      some { Scheme := S, Host := A, Path := P, RawPath := [] })
    (hP : ∀ c ∈ P, pathByte c = true) :
    parseHost input = S ++ "://".toList ++ hostText (splitHostPort A).1 ++ [':'] ++
      (if (splitHostPort A).2 = [] then
        (if found = none then "11434".toList
         else if S = "http".toList then "80".toList else "443".toList)
       else (splitHostPort A).2) ++ pathText P := by
  have hesc : ({ Scheme := S, Host := A, Path := P, RawPath := [] } : URL).EscapedPath = P :=
    escapedPath_eq _ rfl (fun c hc => (pathByte_spec c (hP c hc)).2.1)
  have hparse2 : Url.Parse (S ++ "://".toList ++ (A ++ P)) =
      some { Scheme := S, Host := A, Path := P, RawPath := [] } := by
    rw [← hparse]; simp
  unfold parseHost
  rcases hfound with ⟨hf, hS1, htext⟩ | hf
  · subst hf
    subst hS1
    rw [htext] at hcut hne
    simp only [htext, hne, if_false, hcut, hparse2, hesc, URL.Hostname, URL.Port, hostText,
      pathText]
    by_cases hport : (splitHostPort A).2 = [] <;>
      by_cases hpath : trimByte '/' P = [] <;> simp [hport, hpath]
  · subst hf
    simp only [hne, if_false, hcut, hparse2, hesc, URL.Hostname, URL.Port, hostText, pathText]
    rcases hS with hS | hS <;> subst hS <;>
      by_cases hport : (splitHostPort A).2 = [] <;>
      by_cases hpath : trimByte '/' P = [] <;> simp [hport, hpath]

/-- The normal form of a well-formed host string: `parseHost` returns its canonical base
URL. -/
theorem parseHost_text (x : HostString) (hx : x.wellFormed = true) :
    parseHost x.text = x.canonical := by
  obtain ⟨hA, hhost, hsplit, hhostText, hlast, -⟩ := authority_facts x hx
  obtain ⟨hP, hPs⟩ := path_facts x hx
  have hhne := host_text_ne_nil x hx
  have htextA : x.text = x.scheme.lead ++ (x.authority ++ x.pathSuffix) := by
    simp [HostString.text, HostString.authority]
  have hleadvis : ∀ c ∈ x.scheme.lead, visible c = true := by
    cases x.scheme <;> decide
  have hvis : ∀ c ∈ x.text, visible c = true := by
    intro c hc
    rw [htextA] at hc
    simp only [List.mem_append] at hc
    rcases hc with hc | hc | hc
    · exact hleadvis c hc
    · exact (authorityByte_spec c (hA c hc)).1
    · exact (pathByte_spec c (hP c hc)).1
  have htrim : trimSpace x.text = x.text := trimSpace_eq_self _ hvis
  have hne : trimSpace x.text ≠ [] := by
    rw [htrim, HostString.text]
    simp [hhne]
  have hSs : x.scheme.scheme = "http".toList ∨ x.scheme.scheme = "https".toList := by
    cases x.scheme <;> simp [SchemeForm.scheme]
  have hparse := parse_plain x.scheme.scheme x.authority x.pathSuffix hSs hA hP hPs hhost
  have hslashA : '/' ∉ x.authority := fun hc => (authorityByte_spec _ (hA _ hc)).2.2.2.1 rfl
  have hcolonP : ':' ∉ x.pathSuffix := fun hc => (pathByte_spec _ (hP _ hc)).2.2.2.2.2 rfl
  have hfound : (cut "://".toList (trimSpace x.text) = none ∧ x.scheme = SchemeForm.absent ∧
        trimSpace x.text = x.authority ++ x.pathSuffix) ∨
      (cut "://".toList (trimSpace x.text) = some (x.scheme.scheme, x.authority ++ x.pathSuffix) ∧
        x.scheme ≠ SchemeForm.absent) := by
    rw [htrim, htextA]
    cases hsc : x.scheme with
    | absent =>
      left
      simp only [SchemeForm.lead, List.nil_append]
      exact ⟨cut_scheme_none _ _ hslashA hcolonP hlast, trivial, trivial⟩
    | http => right; exact ⟨cut_http _, by simp⟩
    | https => right; exact ⟨cut_https _, by simp⟩
  have hmain := parseHost_of_cut x.text (cut "://".toList (trimSpace x.text)) x.scheme.scheme
    x.authority x.pathSuffix hSs hne rfl
    (by
      rcases hfound with ⟨h1, h2, h3⟩ | ⟨h1, -⟩
      · left; exact ⟨h1, by simp [h2, SchemeForm.scheme], h3⟩
      · right; exact h1)
    hparse hP
  rw [hmain, hsplit]
  simp only [hhostText, HostString.canonical, HostString.base, HostString.resolvedPort]
  obtain ⟨sc, host, port, path⟩ := x
  simp only at hfound ⊢
  cases port with
  | none =>
    rcases hfound with ⟨h1, h2, -⟩ | ⟨h1, h2⟩
    · subst h2
      have h1c : cut [':', '/', '/'] (trimSpace (HostString.text
          { scheme := SchemeForm.absent, host := host, port := none, path := path })) = none := h1
      simp [h1c, SchemeForm.defaultPort, SchemeForm.scheme]
    · have h1c : cut [':', '/', '/'] (trimSpace (HostString.text
          { scheme := sc, host := host, port := none, path := path })) =
          some (sc.scheme, HostString.authority
            { scheme := sc, host := host, port := none, path := path } ++
            HostString.pathSuffix { scheme := sc, host := host, port := none, path := path }) := h1
      cases sc with
      | absent => exact absurd rfl h2
      | http => simp [h1c, SchemeForm.defaultPort, SchemeForm.scheme]
      | https => simp [h1c, SchemeForm.defaultPort, SchemeForm.scheme]
  | some d =>
    have hd : d ≠ [] := by
      simp only [HostString.wellFormed, Bool.and_eq_true, decide_eq_true_eq] at hx
      exact hx.1.2.1
    simp [hd]

/-! ## The fuel of `trimSpace` and of the JSON parser -/
theorem stripAll_done (strip : Str → Option Str)
    (hlt : ∀ s r, strip s = some r → r.length < s.length) (n : Nat) (s : Str)
    (hn : s.length ≤ n) : strip (stripAll strip n s) = none := by
  induction n generalizing s with
  | zero =>
    cases hs : strip s with
    | none => simpa [stripAll] using hs
    | some r =>
      have := hlt s r hs
      omega
  | succ n ih =>
    cases hs : strip s with
    | none => simp [stripAll, hs]
    | some r =>
      have := hlt s r hs
      simpa [stripAll, hs] using ih r (by omega)

theorem stripSpace_length (s r : Str) (h : stripSpace s = some r) : r.length < s.length := by
  cases s with
  | nil => simp [stripSpace] at h
  | cons c cs =>
    simp only [stripSpace] at h
    split at h
    · simp only [Option.some.injEq] at h
      subst h
      simp
    · split at h
      · next w hw =>
        simp only [Option.some.injEq] at h
        subst h
        have hmem := List.mem_of_find?_eq_some hw
        have hpos : 0 < w.length := by
          have := List.all_eq_true.mp unicodeSpaces_heads w hmem
          cases w with
          | nil => simp at this
          | cons b w' => simp
        simp only [List.length_drop, List.length_cons]
        omega
      · simp at h

theorem stripSpaceRev_length (s r : Str) (h : stripSpaceRev s = some r) :
    r.length < s.length := by
  cases s with
  | nil => simp [stripSpaceRev] at h
  | cons c cs =>
    simp only [stripSpaceRev] at h
    split at h
    · simp only [Option.some.injEq] at h
      subst h
      simp
    · split at h
      · next w hw =>
        simp only [Option.some.injEq] at h
        subst h
        have hmem := List.mem_of_find?_eq_some hw
        have hpos : 0 < w.length := by
          have := List.all_eq_true.mp unicodeSpaces_heads w hmem
          cases w with
          | nil => simp at this
          | cons b w' => simp
        simp only [List.length_drop, List.length_cons]
        omega
      · simp at h

/-- The fuel of `trimLeftSpace` is enough: no white space is left at the head. -/
theorem trimLeftSpace_done (s : Str) : stripSpace (trimLeftSpace s) = none :=
  stripAll_done stripSpace stripSpace_length s.length s (Nat.le_refl _)

/-- The fuel of `trimRightSpace` is enough: no white space is left at the end. -/
theorem trimRightSpace_done (s : Str) : stripSpaceRev (trimRightSpace s).reverse = none := by
  simpa [trimRightSpace] using
    stripAll_done stripSpaceRev stripSpaceRev_length s.reverse.length s.reverse (Nat.le_refl _)

namespace Json

theorem skipSpace_length (s : Str) : (skipSpace s).length ≤ s.length := by
  induction s with
  | nil => simp [skipSpace]
  | cons c cs ih =>
    simp only [skipSpace]
    split
    · simp only [List.length_cons]; omega
    · simp

theorem scanString_length (n : Nat) : ∀ (s : Str) (ps : List Piece) (rest : Str),
    s.length ≤ n → scanString s = some (ps, rest) → rest.length < s.length := by
  induction n with
  | zero =>
    intro s ps rest hn h
    have : s = [] := List.length_eq_zero.mp (by omega)
    subst this
    simp [scanString] at h
  | succ n ih =>
    intro s ps rest hn h
    rw [scanString.eq_def] at h
    split at h
    · simp at h
    · next c cs =>
      simp only [List.length_cons] at hn ⊢
      split at h
      · simp only [Option.some.injEq, Prod.mk.injEq] at h
        rw [← h.2]
        omega
      · split at h
        · split at h
          · simp at h
          · next e cs1 =>
            split at h
            · split at h
              · next a b c2 d cs2 =>
                split at h
                · simp at h
                · split at h
                  · simp at h
                  · next ps2 rest2 hrec =>
                    simp only [Option.some.injEq, Prod.mk.injEq] at h
                    have := ih cs2 ps2 rest2 (by simp only [List.length_cons] at hn; omega) hrec
                    rw [← h.2]
                    simp only [List.length_cons]
                    omega
              · simp at h
            · split at h
              · simp at h
              · split at h
                · simp at h
                · next ps2 rest2 hrec =>
                  simp only [Option.some.injEq, Prod.mk.injEq] at h
                  have := ih cs1 ps2 rest2 (by simp only [List.length_cons] at hn; omega) hrec
                  rw [← h.2]
                  simp only [List.length_cons]
                  omega
        · split at h
          · simp at h
          · split at h
            · simp at h
            · next ps2 rest2 hrec =>
              simp only [Option.some.injEq, Prod.mk.injEq] at h
              have := ih cs ps2 rest2 (by omega) hrec
              rw [← h.2]
              omega

theorem dropWhile_length_lt (p : Char → Bool) (s : Str) (h : s.takeWhile p ≠ []) :
    (s.dropWhile p).length < s.length := by
  have h1 := congrArg List.length (List.takeWhile_append_dropWhile p s)
  simp only [List.length_append] at h1
  have h2 : 0 < (s.takeWhile p).length := List.length_pos.mpr h
  omega

theorem dropWhile_length_le (p : Char → Bool) (s : Str) :
    (s.dropWhile p).length ≤ s.length := by
  have h1 := congrArg List.length (List.takeWhile_append_dropWhile p s)
  simp only [List.length_append] at h1
  omega

theorem intPart_length (s : Str) (h : (intPart s).1 ≠ []) :
    (intPart s).2.length < s.length := by
  cases s with
  | nil => exact absurd rfl h
  | cons c cs =>
    unfold intPart at h ⊢
    by_cases hc : c = '0'
    · simp only [hc, if_true, List.length_cons]
      omega
    · simp only [hc, if_false] at h ⊢
      exact dropWhile_length_lt isDigit (c :: cs) h

/-- The sign, the integer part, the fraction and the exponent of `scanNumber`, each as a
step that does not lengthen the text. -/
theorem scanNumber_length (s lit rest : Str) (h : scanNumber s = some (lit, rest)) :
    rest.length < s.length := by
  unfold scanNumber at h
  -- the text after the sign
  generalize hs1 : (match s with
    | c :: cs => if c = '-' then (['-'], cs) else ([], s)
    | [] => ([], s)) = signed at h
  obtain ⟨sign, s1⟩ := signed
  have hlen1 : s1.length ≤ s.length := by
    cases s with
    | nil => simp at hs1; rw [← hs1.2]
    | cons c cs =>
      simp only at hs1
      split at hs1
      · simp only [Prod.mk.injEq] at hs1; rw [← hs1.2]; simp
      · simp only [Prod.mk.injEq] at hs1; rw [← hs1.2]
  simp only at h
  split at h
  · simp at h
  · next hint =>
    have hlen2 := intPart_length s1 hint
    generalize (intPart s1).1 = intDigits at h
    generalize (intPart s1).2 = s2 at h hlen2
    generalize hf : (match s2 with
      | c :: cs =>
        if c = '.' then
          if cs.takeWhile isDigit = [] then none
          else some ('.' :: cs.takeWhile isDigit, cs.dropWhile isDigit)
        else some ([], s2)
      | [] => some ([], s2)) = fracOk at h
    cases fracOk with
    | none => simp at h
    | some fr =>
      obtain ⟨frac, s3⟩ := fr
      have hlen3 : s3.length ≤ s2.length := by
        split at hf
        · next c cs =>
          split at hf
          · split at hf
            · simp at hf
            · simp only [Option.some.injEq, Prod.mk.injEq] at hf
              rw [← hf.2]
              have := dropWhile_length_le isDigit cs
              simp only [List.length_cons]
              omega
          · simp only [Option.some.injEq, Prod.mk.injEq] at hf
            rw [← hf.2]
        · simp only [Option.some.injEq, Prod.mk.injEq] at hf
          rw [← hf.2]
      simp only at h
      split at h
      · next c cs =>
        split at h
        · generalize he : (match cs with
            | d :: ds => if d = '+' ∨ d = '-' then ([d], ds) else ([], cs)
            | [] => ([], cs)) = ex at h
          obtain ⟨esign, s4⟩ := ex
          have hlen4 : s4.length ≤ cs.length := by
            cases cs with
            | nil => simp at he; rw [← he.2]
            | cons d ds =>
              simp only at he
              split at he
              · simp only [Prod.mk.injEq] at he; rw [← he.2]; simp
              · simp only [Prod.mk.injEq] at he; rw [← he.2]
          simp only at h
          split at h
          · simp at h
          · simp only [Option.some.injEq, Prod.mk.injEq] at h
            rw [← h.2]
            have := dropWhile_length_le isDigit s4
            simp only [List.length_cons] at hlen3
            omega
        · simp only [Option.some.injEq, Prod.mk.injEq] at h
          rw [← h.2]
          omega
      · simp only [Option.some.injEq, Prod.mk.injEq] at h
        rw [← h.2]
        omega

theorem parse_length (f : Nat) :
    (∀ d s v rest, parseValue f d s = some (v, rest) → rest.length < s.length) ∧
    (∀ d s vs rest, parseElements f d s = some (vs, rest) → rest.length < s.length) ∧
    (∀ d s ms rest, parseMembers f d s = some (ms, rest) → rest.length < s.length) := by
  induction f with
  | zero => simp [parseValue, parseElements, parseMembers]
  | succ f ih =>
    obtain ⟨ihV, ihE, ihM⟩ := ih
    refine ⟨?_, ?_, ?_⟩
    · intro d s v rest h
      have hsp := skipSpace_length s
      rw [parseValue] at h
      split at h
      · simp at h
      · next c cs hcs =>
        rw [hcs] at hsp
        simp only [List.length_cons] at hsp
        have hsp2 := skipSpace_length cs
        split at h
        · split at h
          · simp at h
          · split at h
            · simp at h
            · next d1 ds hds =>
              rw [hds] at hsp2
              simp only [List.length_cons] at hsp2
              split at h
              · simp only [Option.some.injEq, Prod.mk.injEq] at h
                rw [← h.2]; omega
              · split at h
                · simp at h
                · next ms rest1 hrec =>
                  simp only [Option.some.injEq, Prod.mk.injEq] at h
                  have := ihM _ _ _ _ hrec
                  simp only [List.length_cons] at this
                  rw [← h.2]; omega
        · split at h
          · split at h
            · simp at h
            · split at h
              · simp at h
              · next d1 ds hds =>
                rw [hds] at hsp2
                simp only [List.length_cons] at hsp2
                split at h
                · simp only [Option.some.injEq, Prod.mk.injEq] at h
                  rw [← h.2]; omega
                · split at h
                  · simp at h
                  · next vs rest1 hrec =>
                    simp only [Option.some.injEq, Prod.mk.injEq] at h
                    have := ihE _ _ _ _ hrec
                    simp only [List.length_cons] at this
                    rw [← h.2]; omega
          · split at h
            · split at h
              · simp at h
              · next ps rest1 hrec =>
                simp only [Option.some.injEq, Prod.mk.injEq] at h
                have := scanString_length cs.length cs ps rest1 (Nat.le_refl _) hrec
                rw [← h.2]; omega
            · split at h
              · split at h
                · simp at h
                · next lit rest1 hrec =>
                  simp only [Option.some.injEq, Prod.mk.injEq] at h
                  have := scanNumber_length _ _ _ hrec
                  simp only [List.length_cons] at this
                  rw [← h.2]; omega
              · split at h
                · simp only [Option.some.injEq, Prod.mk.injEq] at h
                  rw [← h.2]
                  simp only [List.length_drop, List.length_cons]
                  omega
                · split at h
                  · simp only [Option.some.injEq, Prod.mk.injEq] at h
                    rw [← h.2]
                    simp only [List.length_drop, List.length_cons]
                    omega
                  · split at h
                    · simp only [Option.some.injEq, Prod.mk.injEq] at h
                      rw [← h.2]
                      simp only [List.length_drop, List.length_cons]
                      omega
                    · simp at h
    · intro d s vs rest h
      rw [parseElements] at h
      split at h
      · simp at h
      · next v rest1 hrec =>
        have h1 := ihV _ _ _ _ hrec
        have hsp := skipSpace_length rest1
        split at h
        · simp at h
        · next c cs hcs =>
          rw [hcs] at hsp
          simp only [List.length_cons] at hsp
          split at h
          · simp only [Option.some.injEq, Prod.mk.injEq] at h
            rw [← h.2]; omega
          · split at h
            · split at h
              · simp at h
              · next vs2 rest2 hrec2 =>
                simp only [Option.some.injEq, Prod.mk.injEq] at h
                have := ihE _ _ _ _ hrec2
                rw [← h.2]; omega
            · simp at h
    · intro d s ms rest h
      have hsp := skipSpace_length s
      rw [parseMembers] at h
      split at h
      · simp at h
      · next q cs hcs =>
        rw [hcs] at hsp
        simp only [List.length_cons] at hsp
        split at h
        · simp at h
        · split at h
          · simp at h
          · next ps rest1 hscan =>
            have h1 := scanString_length cs.length cs ps rest1 (Nat.le_refl _) hscan
            have hsp1 := skipSpace_length rest1
            split at h
            · simp at h
            · next c cs1 hcs1 =>
              rw [hcs1] at hsp1
              simp only [List.length_cons] at hsp1
              split at h
              · simp at h
              · split at h
                · simp at h
                · next v rest2 hrec =>
                  have h2 := ihV _ _ _ _ hrec
                  have hsp2 := skipSpace_length rest2
                  split at h
                  · simp at h
                  · next e cs2 hcs2 =>
                    rw [hcs2] at hsp2
                    simp only [List.length_cons] at hsp2
                    split at h
                    · simp only [Option.some.injEq, Prod.mk.injEq] at h
                      rw [← h.2]; omega
                    · split at h
                      · split at h
                        · simp at h
                        · next ms2 rest3 hrec3 =>
                          simp only [Option.some.injEq, Prod.mk.injEq] at h
                          have := ihM _ _ _ _ hrec3
                          rw [← h.2]; omega
                      · simp at h

theorem parse_fuel (f : Nat) :
    (∀ d s k, 2 * s.length + 1 ≤ f → parseValue (f + k) d s = parseValue f d s) ∧
    (∀ d s k, 2 * s.length + 2 ≤ f → parseElements (f + k) d s = parseElements f d s) ∧
    (∀ d s k, 2 * s.length + 2 ≤ f → parseMembers (f + k) d s = parseMembers f d s) := by
  induction f with
  | zero =>
    refine ⟨?_, ?_, ?_⟩ <;> intro d s k h <;> omega
  | succ f ih =>
    obtain ⟨ihV, ihE, ihM⟩ := ih
    obtain ⟨lenV, lenE, lenM⟩ := parse_length f
    refine ⟨?_, ?_, ?_⟩
    · intro d s k hb
      rw [Nat.add_right_comm, parseValue, parseValue]
      have hsp := skipSpace_length s
      cases hs : skipSpace s with
      | nil => rfl
      | cons c cs =>
        rw [hs] at hsp
        simp only [List.length_cons] at hsp
        have hsp2 := skipSpace_length cs
        dsimp only
        cases hcs : skipSpace cs with
        | nil => rfl
        | cons d1 ds =>
          rw [hcs] at hsp2
          simp only [List.length_cons] at hsp2
          have hbound : 2 * (d1 :: ds).length + 2 ≤ f := by
            simp only [List.length_cons]; omega
          dsimp only
          rw [ihM (d + 1) (d1 :: ds) k hbound, ihE (d + 1) (d1 :: ds) k hbound]
    · intro d s k hb
      rw [Nat.add_right_comm, parseElements, parseElements, ihV d s k (by omega)]
      cases hv : parseValue f d s with
      | none => rfl
      | some vr =>
        obtain ⟨v, rest⟩ := vr
        dsimp only
        have h1 := lenV _ _ _ _ hv
        have hsp := skipSpace_length rest
        cases hr : skipSpace rest with
        | nil => rfl
        | cons c cs =>
          rw [hr] at hsp
          simp only [List.length_cons] at hsp
          dsimp only
          rw [ihE d cs k (by omega)]
    · intro d s k hb
      rw [Nat.add_right_comm, parseMembers, parseMembers]
      have hsp := skipSpace_length s
      cases hs : skipSpace s with
      | nil => rfl
      | cons q cs =>
        rw [hs] at hsp
        simp only [List.length_cons] at hsp
        dsimp only
        cases hscan : scanString cs with
        | none => rfl
        | some pr =>
          obtain ⟨ps, rest⟩ := pr
          dsimp only
          have h1 := scanString_length cs.length cs ps rest (Nat.le_refl _) hscan
          have hsp1 := skipSpace_length rest
          cases hr : skipSpace rest with
          | nil => rfl
          | cons c cs1 =>
            rw [hr] at hsp1
            simp only [List.length_cons] at hsp1
            dsimp only
            rw [ihV d cs1 k (by omega)]
            cases hv : parseValue f d cs1 with
            | none => rfl
            | some vr =>
              obtain ⟨v, rest2⟩ := vr
              dsimp only
              have h2 := lenV _ _ _ _ hv
              have hsp2 := skipSpace_length rest2
              cases hr2 : skipSpace rest2 with
              | nil => rfl
              | cons e cs2 =>
                rw [hr2] at hsp2
                simp only [List.length_cons] at hsp2
                dsimp only
                rw [ihM d cs2 k (by omega)]

/-- The fuel of `parse` is enough: with more fuel the parser returns the same. -/
theorem parse_fuel_enough (data : Str) (k : Nat) :
    parseValue (2 * data.length + 2 + k) 0 data = parseValue (2 * data.length + 2) 0 data :=
  (parse_fuel (2 * data.length + 2)).1 0 data k (by omega)

end Json

/-! ## `parseHost`: scheme and port -/

/-- C1. A host string without `://` that `url.Parse` accepts (as `http://` followed by
the string) is normalised to scheme `http`, with the port it names and with port
`11434` when it names none. -/
theorem parseHost_without_scheme (input : Str) (u : Url.URL)
    (hne : trimSpace input ≠ [])
    (hcut : Strings.contains (trimSpace input) "://".toList = false)
    (hparse : Url.Parse ("http://".toList ++ trimSpace input) = some u) :
    Ollama.parseHost input = "http://".toList ++ hostText u.Hostname ++ [':'] ++
      (if u.Port = [] then "11434".toList else u.Port) ++ pathText u.EscapedPath := by
  have hc : cut "://".toList (trimSpace input) = none := by
    simpa [Strings.contains] using hcut
  unfold Ollama.parseHost
  simp only [hne, if_false, hc]
  have hp : Url.Parse ("http".toList ++ "://".toList ++ trimSpace input) = some u := by
    simpa using hparse
  simp only [hp, hostText, pathText]
  by_cases hport : u.Port = [] <;> by_cases hpath : trimByte '/' u.EscapedPath = [] <;>
    simp [hport, hpath]

/-- Witness of C1: `example.com`, without and with a port. -/
theorem parseHost_without_scheme_witness :
    Ollama.parseHost "example.com".toList = "http://example.com:11434".toList ∧
    Ollama.parseHost "example.com:56789".toList = "http://example.com:56789".toList :=
  ⟨(parseHost_without_scheme "example.com".toList
      { Scheme := "http".toList, Host := "example.com".toList }
      (by decide) (by decide) (by decide)).trans (by decide),
   (parseHost_without_scheme "example.com:56789".toList
      { Scheme := "http".toList, Host := "example.com:56789".toList }
      (by decide) (by decide) (by decide)).trans (by decide)⟩

/-- C2. A host string with the explicit scheme `http` or `https` that `url.Parse`
accepts keeps its scheme, with the port it names and with port `80` (for `http`) or
`443` (for `https`) when it names none. -/
theorem parseHost_with_scheme (input scheme rest : Str) (u : Url.URL)
    (hs : scheme = "http".toList ∨ scheme = "https".toList)
    (hcut : cut "://".toList (trimSpace input) = some (scheme, rest))
    (hparse : Url.Parse (scheme ++ "://".toList ++ rest) = some u) :
    Ollama.parseHost input = scheme ++ "://".toList ++ hostText u.Hostname ++ [':'] ++
      (if u.Port = [] then (if scheme = "http".toList then "80".toList else "443".toList)
        else u.Port) ++ pathText u.EscapedPath := by
  have hne : trimSpace input ≠ [] := by
    intro h0
    rw [h0] at hcut
    simp [cut] at hcut
  unfold Ollama.parseHost
  simp only [hne, if_false, hcut, hparse, hostText, pathText]
  rcases hs with hs | hs <;> subst hs <;>
    by_cases hport : u.Port = [] <;> by_cases hpath : trimByte '/' u.EscapedPath = [] <;>
    simp [hport, hpath]

/-- Witness of C2: `http://example.com` and `https://example.com:56789`. -/
theorem parseHost_with_scheme_witness :
    Ollama.parseHost "http://example.com".toList = "http://example.com:80".toList ∧
    Ollama.parseHost "https://example.com:56789".toList =
      "https://example.com:56789".toList :=
  ⟨(parseHost_with_scheme "http://example.com".toList "http".toList "example.com".toList
      { Scheme := "http".toList, Host := "example.com".toList }
      (by decide) (by decide) (by decide)).trans (by decide),
   (parseHost_with_scheme "https://example.com:56789".toList "https".toList
      "example.com:56789".toList
      { Scheme := "https".toList, Host := "example.com:56789".toList }
      (by decide) (by decide) (by decide)).trans (by decide)⟩

/-- C6. `parseHost` is total, and when `url.Parse` rejects `scheme://remainder` it
returns `scheme://127.0.0.1:11434`, the scheme being the one of the input and `http`
when the input has none. -/
theorem parseHost_fallback (input : Str)
    (h : Url.Parse (schemeOf (trimSpace input) ++ "://".toList ++
      remainderOf (trimSpace input)) = none) :
    Ollama.parseHost input = schemeOf (trimSpace input) ++ "://127.0.0.1:11434".toList := by
  unfold Ollama.parseHost
  by_cases hne : trimSpace input = []
  · rw [hne] at h
    exact absurd h (by decide)
  · simp only [hne, if_false]
    cases hc : cut "://".toList (trimSpace input) with
    | none =>
      simp only [schemeOf, remainderOf, hc] at h ⊢
      simp only [h]
    | some sr =>
      obtain ⟨s, r⟩ := sr
      simp only [schemeOf, remainderOf, hc] at h ⊢
      simp only [h]

/-- Witness of C6: a port that is not a number, without and with a scheme. -/
theorem parseHost_fallback_witness :
    Ollama.parseHost "example.com:abc".toList = "http://127.0.0.1:11434".toList ∧
    Ollama.parseHost "https://example.com:abc".toList = "https://127.0.0.1:11434".toList :=
  ⟨(parseHost_fallback "example.com:abc".toList (by decide)).trans (by decide),
   (parseHost_fallback "https://example.com:abc".toList (by decide)).trans (by decide)⟩
theorem trimLeftByte_head (c : Char) (s : Str) : (trimLeftByte c s).head? ≠ some c := by
  induction s with
  | nil => simp [trimLeftByte]
  | cons x xs ih =>
    by_cases hx : x = c
    · simpa [trimLeftByte, hx] using ih
    · simp [trimLeftByte, hx]

theorem trimLeftByte_of_head (c : Char) (s : Str) (h : s.head? ≠ some c) :
    trimLeftByte c s = s := by
  cases s with
  | nil => rfl
  | cons x xs =>
    have hx : x ≠ c := by simpa using h
    simp [trimLeftByte, hx]

theorem trimLeftByte_suffix (c : Char) (s : Str) : ∃ pre, s = pre ++ trimLeftByte c s := by
  induction s with
  | nil => exact ⟨[], rfl⟩
  | cons x xs ih =>
    by_cases hx : x = c
    · obtain ⟨pre, hpre⟩ := ih
      refine ⟨x :: pre, ?_⟩
      subst hx
      simp only [trimLeftByte, if_true, List.cons_append]
      rw [← hpre]
    · exact ⟨[], by simp [trimLeftByte, hx]⟩

/-- The trimmed text lies between a run of leading and a run of trailing bytes. -/
theorem trimByte_infix (c : Char) (s : Str) : ∃ pre post, s = pre ++ trimByte c s ++ post := by
  obtain ⟨pre, hpre⟩ := trimLeftByte_suffix c s
  obtain ⟨post, hpost⟩ := trimLeftByte_suffix c (trimLeftByte c s).reverse
  refine ⟨pre, post.reverse, ?_⟩
  have h2 : trimLeftByte c s = trimByte c s ++ post.reverse := by
    have := congrArg List.reverse hpost
    simpa [trimByte] using this
  rw [List.append_assoc, ← h2, ← hpre]

theorem trimByte_mem (c : Char) (s : Str) (x : Char) (hx : x ∈ trimByte c s) : x ∈ s := by
  obtain ⟨pre, post, h⟩ := trimByte_infix c s
  rw [h]
  simp [hx]

theorem trimByte_head (c : Char) (s : Str) : (trimByte c s).head? ≠ some c := by
  obtain ⟨post, hpost⟩ := trimLeftByte_suffix c (trimLeftByte c s).reverse
  have h2 : trimLeftByte c s = trimByte c s ++ post.reverse := by
    have := congrArg List.reverse hpost
    simpa [trimByte] using this
  cases ht : trimByte c s with
  | nil => simp
  | cons y t =>
    have := trimLeftByte_head c s
    rw [h2, ht] at this
    simpa using this

theorem trimByte_last (c : Char) (s : Str) : (trimByte c s).reverse.head? ≠ some c := by
  simpa [trimByte] using trimLeftByte_head c (trimLeftByte c s).reverse

theorem trimByte_idem (c : Char) (s : Str) : trimByte c (trimByte c s) = trimByte c s := by
  have h1 := trimLeftByte_of_head c _ (trimByte_head c s)
  have h2 := trimLeftByte_of_head c _ (trimByte_last c s)
  unfold trimByte at h1 h2 ⊢
  rw [h1, h2]
  simp

theorem pathText_idem (s : Str) : pathText (pathText s) = pathText s := by
  unfold pathText
  by_cases h : trimByte '/' s = []
  · have h0 : trimByte '/' ([] : Str) = [] := by decide
    simp only [h, if_true, h0]
  · have hcons : trimByte '/' ('/' :: trimByte '/' s) = trimByte '/' s := by
      have : trimByte '/' ('/' :: trimByte '/' s) = trimByte '/' (trimByte '/' s) := by
        simp [trimByte, trimLeftByte]
      rw [this, trimByte_idem]
    simp [h, hcons]
theorem normal_text (x : HostString) : x.normal.text = x.canonical := by
  obtain ⟨sc, host, port, path⟩ := x
  simp only [HostString.normal, HostString.text, HostString.canonical, HostString.base,
    HostString.portText, HostString.pathSuffix, pathText]
  cases sc <;> by_cases h : trimByte '/' (match path with
      | none => []
      | some p => '/' :: p) = [] <;> simp [h, SchemeForm.lead, SchemeForm.scheme]

theorem normal_canonical (x : HostString) : x.normal.canonical = x.canonical := by
  have hp : pathText x.normal.pathSuffix = pathText x.pathSuffix := by
    have h1 : x.normal.pathSuffix = pathText x.pathSuffix := by
      simp only [HostString.normal, HostString.pathSuffix, pathText]
      by_cases h : trimByte '/' (match x.path with
        | none => []
        | some p => '/' :: p) = [] <;> simp [h]
    rw [h1, pathText_idem]
  have hs : x.normal.scheme.scheme = x.scheme.scheme := by
    simp only [HostString.normal]
    cases x.scheme <;> rfl
  simp only [HostString.canonical, HostString.base, hp, hs]
  simp [HostString.normal, HostString.resolvedPort]

theorem resolvedPort_digits (x : HostString) (hx : x.wellFormed = true) :
    x.resolvedPort ≠ [] ∧ ∀ c ∈ x.resolvedPort, c ∈ digits := by
  obtain ⟨sc, host, port, path⟩ := x
  cases port with
  | none => cases sc <;> simp only [HostString.resolvedPort, SchemeForm.defaultPort] <;> decide
  | some d =>
    simp only [HostString.wellFormed, Bool.and_eq_true, decide_eq_true_eq, all_mem_iff] at hx
    exact ⟨hx.1.2.1, hx.1.2.2⟩

theorem pathSuffix_bytes (x : HostString) (hx : x.wellFormed = true) :
    ∀ c ∈ x.pathSuffix, c ∈ pathBytes := by
  obtain ⟨sc, host, port, path⟩ := x
  cases path with
  | none => simp [HostString.pathSuffix]
  | some p =>
    simp only [HostString.wellFormed, Bool.and_eq_true, all_mem_iff] at hx
    intro c hc
    rcases List.mem_cons.mp hc with hc | hc
    · subst hc; decide
    · exact hx.2 c hc

theorem normal_wellFormed (x : HostString) (hx : x.wellFormed = true) :
    x.normal.wellFormed = true := by
  have hport := resolvedPort_digits x hx
  have hpath := pathSuffix_bytes x hx
  have hhost : x.host.wellFormed = true := by
    simp only [HostString.wellFormed, Bool.and_eq_true] at hx
    exact hx.1.1
  simp only [HostString.wellFormed, HostString.normal, hhost, Bool.true_and, Bool.and_eq_true,
    decide_eq_true_eq, all_mem_iff]
  refine ⟨⟨hport.1, hport.2⟩, ?_⟩
  by_cases h : trimByte '/' x.pathSuffix = []
  · simp [h]
  · simp only [h, if_false, all_mem_iff]
    exact fun c hc => hpath c (trimByte_mem '/' _ c hc)

/-! ## `parseHost`: idempotence, paths and IPv6 literals -/

/-- C3 fails on the code: for the IPv6 literal with a zone `[fe80::1%25eth0]` the second
normalisation differs from the first.  `parseHost` writes the host as `u.Hostname()`
gives it, with the escaped `%25` resolved to `%` (the path, in contrast, is written
escaped, with `EscapedPath`), so that the result `http://[fe80::1%eth0]:11434` no longer
parses and its own normalisation is the fallback `http://127.0.0.1:11434`. -/
theorem parseHost_not_idempotent :
    Ollama.parseHost "[fe80::1%25eth0]".toList = "http://[fe80::1%eth0]:11434".toList ∧
    Ollama.parseHost (Ollama.parseHost "[fe80::1%25eth0]".toList) =
      "http://127.0.0.1:11434".toList ∧
    Ollama.parseHost (Ollama.parseHost "[fe80::1%25eth0]".toList) ≠
      Ollama.parseHost "[fe80::1%25eth0]".toList := by
  decide

/-- Idempotence where no escape is involved: for every well-formed host string
`[http://|https://]host[:port][/path]` (host a name or a bracketed IPv6 literal without a
zone, port a run of digits, path of unreserved bytes and slashes), the canonical base URL
is returned unchanged, and so normalising twice is the same as normalising once. -/
theorem parseHost_idempotent (x : HostString) (hx : x.wellFormed = true) :
    Ollama.parseHost x.canonical = x.canonical ∧
    Ollama.parseHost (Ollama.parseHost x.text) = Ollama.parseHost x.text := by
  have h1 : Ollama.parseHost x.canonical = x.canonical := by
    rw [← normal_text, parseHost_text x.normal (normal_wellFormed x hx), normal_canonical,
      normal_text]
  exact ⟨h1, by rw [parseHost_text x hx, h1]⟩

/-- Idempotence at `localhost:56789/path/`. -/
theorem parseHost_idempotent_witness :
    Ollama.parseHost "http://localhost:56789/path".toList =
      "http://localhost:56789/path".toList ∧
    Ollama.parseHost (Ollama.parseHost "localhost:56789/path/".toList) =
      Ollama.parseHost "localhost:56789/path/".toList :=
  parseHost_idempotent
    { scheme := SchemeForm.absent, host := HostForm.name "localhost".toList,
      port := some "56789".toList, path := some "path/".toList } (by decide)
/-- Bracketed IPv6 literals without a zone: a literal `[addr]` of hexadecimal digits,
colons and dots, with a colon, given with or without scheme, port and path, keeps its
host as `[addr]` in exactly one pair of brackets; the port is the one given, else `11434`
without a scheme, `80` for `http` and `443` for `https`. -/
theorem parseHost_ipv6 (x : HostString) (addr : Str) (hx : x.wellFormed = true)
    (hhost : x.host = HostForm.ipv6 addr) :
    Ollama.parseHost x.text =
      x.scheme.scheme ++ "://".toList ++ ('[' :: addr ++ [']']) ++ [':'] ++ x.resolvedPort ++
        pathText x.pathSuffix := by
  rw [parseHost_text x hx, HostString.canonical, HostString.base, hhost, HostForm.text]

/-- The literal `[::1]`, and the literal of the tests with a scheme, and with a port and
a path. -/
theorem parseHost_ipv6_witness :
    Ollama.parseHost "[::1]".toList = "http://[::1]:11434".toList ∧
    Ollama.parseHost "https://[0001:002:003:0004::1]".toList =
      "https://[0001:002:003:0004::1]:443".toList ∧
    Ollama.parseHost "[0001:002:003:0004::1]:56789/path/".toList =
      "http://[0001:002:003:0004::1]:56789/path".toList :=
  ⟨parseHost_ipv6
      { scheme := SchemeForm.absent, host := HostForm.ipv6 "::1".toList, port := none,
        path := none } "::1".toList (by decide) rfl,
   parseHost_ipv6
      { scheme := SchemeForm.https, host := HostForm.ipv6 "0001:002:003:0004::1".toList,
        port := none, path := none } "0001:002:003:0004::1".toList (by decide) rfl,
   parseHost_ipv6
      { scheme := SchemeForm.absent, host := HostForm.ipv6 "0001:002:003:0004::1".toList,
        port := some "56789".toList, path := some "path/".toList }
      "0001:002:003:0004::1".toList (by decide) rfl⟩

/-- C5 fails on the code: the bracketed IPv6 literal with a zone `[fe80::1%25eth0]` (the
zone is written `%25eth0` in a URL) does not keep its host.  With or without scheme,
port and path, the host of the result is `[fe80::1%eth0]`, the escape resolved, and the
text `[fe80::1%25eth0]` occurs nowhere in the result; the port is resolved as usual. -/
theorem parseHost_ipv6_zone :
    Ollama.parseHost "[fe80::1%25eth0]".toList = "http://[fe80::1%eth0]:11434".toList ∧
    Ollama.parseHost "https://[fe80::1%25eth0]".toList = "https://[fe80::1%eth0]:443".toList ∧
    Ollama.parseHost "http://[fe80::1%25eth0]:8080/path".toList =
      "http://[fe80::1%eth0]:8080/path".toList ∧
    Strings.contains (Ollama.parseHost "[fe80::1%25eth0]".toList) "[fe80::1%25eth0]".toList =
      false ∧
    Strings.contains (Ollama.parseHost "https://[fe80::1%25eth0]".toList)
      "[fe80::1%25eth0]".toList = false ∧
    Strings.contains (Ollama.parseHost "http://[fe80::1%25eth0]:8080/path".toList)
      "[fe80::1%25eth0]".toList = false := by
  decide
/-! ## `NewClient` and `do` -/

/-- C7 (the code at the failing input). With `OLLAMA_HOST` unset, the empty host gives
the default base URL, but a host of white space only gives a client whose base URL is the
empty string. -/
theorem NewClient_blank_host (env : Env) :
    (NewClient { env with getenv := fun _ => [] } [] []).base = defaultBase ∧
    (NewClient { env with getenv := fun _ => [] } "   ".toList []).base = [] := by
  constructor
  · rfl
  · have h : Ollama.parseHost [' ', ' ', ' '] = [] := by decide
    simp [NewClient, h]

/-- C8. For a response that the HTTP client returns: with a status of 400 or more, `do`
returns no response and the `ResponseError` of that status; with a status below 400, it
returns the response itself and no error. -/
theorem do_status (env : Env) (c : Client) (method path : Str) (body : Option Str)
    (headers : Header) (resp : Response)
    (hreq : env.newRequestError method (c.base ++ path) = none)
    (hresp : c.hc (c.request method path body headers) = Except.ok resp) :
    (400 ≤ resp.StatusCode →
      c.do env method path body headers =
        Except.error (Error.response (newResponseError resp.StatusCode resp.Body.readAll)) ∧
      (newResponseError resp.StatusCode resp.Body.readAll).StatusCode = resp.StatusCode) ∧
    (resp.StatusCode < 400 → c.do env method path body headers = Except.ok resp) := by
  have hstatus : ∀ status body, (newResponseError status body).StatusCode = status := by
    intro status body
    unfold newResponseError
    split
    · split <;> rfl
    · rfl
  constructor
  · intro h
    refine ⟨?_, hstatus _ _⟩
    simp [Client.do, hreq, hresp, h]
  · intro h
    have : ¬ (400 ≤ resp.StatusCode) := by omega
    simp [Client.do, hreq, hresp, this]

/-- Witness of C8: the statuses 399 and 400. -/
theorem do_status_witness :
    (stubClient 399 "ok".toList).do unsetEnv "POST".toList "/api/generate".toList none [] =
      Except.ok { StatusCode := 399, Body := { data := "ok".toList } } ∧
    (stubClient 400 "bad".toList).do unsetEnv "POST".toList "/api/generate".toList none [] =
      Except.error (Error.response { Message := "bad".toList, StatusCode := 400 }) :=
  ⟨(do_status unsetEnv (stubClient 399 "ok".toList) "POST".toList "/api/generate".toList none []
      { StatusCode := 399, Body := { data := "ok".toList } } rfl rfl).2 (by decide),
   ((do_status unsetEnv (stubClient 400 "bad".toList) "POST".toList "/api/generate".toList none
      [] { StatusCode := 400, Body := { data := "bad".toList } } rfl rfl).1 (by decide)).1.trans
      (congrArg (fun e => Except.error (Error.response e)) (by decide))⟩
theorem decodeErrorMembers_eq (ms : List (Str × Json.Value)) (field : Str) (failed : Bool) :
    decodeErrorMembers ms (field, failed) =
      (lastString field (errorValues ms), failed || !(errorValues ms).all isStringOrNull) := by
  induction ms generalizing field failed with
  | nil => simp [decodeErrorMembers, errorValues, lastString]
  | cons m ms ih =>
    obtain ⟨key, v⟩ := m
    by_cases hk : namesErrorField key = true
    · have hv : errorValues ((key, v) :: ms) = v :: errorValues ms := by
        simp [errorValues, hk]
      rw [hv]
      cases v <;> simp [decodeErrorMembers, hk, ih, lastString, isStringOrNull]
    · have hv : errorValues ((key, v) :: ms) = errorValues ms := by
        simp [errorValues, hk]
      rw [hv]
      simp [decodeErrorMembers, hk, ih]

/-- C9 (counterexample). The body `{"error":""}` is a JSON object with a string field
`error`, whose value is the empty string, yet the message is the raw body; and the body
`{"ERROR":"x"}`, which has no member named `error`, gives the message `x`. -/
theorem newResponseError_not_field :
    statedMessage "\x7b\"error\":\"\"\x7d".toList = none ∧
    (newResponseError 500 "\x7b\"error\":\"\"\x7d".toList).Message =
      "\x7b\"error\":\"\"\x7d".toList ∧
    (newResponseError 500 "\x7b\"error\":\"\"\x7d".toList).Message ≠ [] ∧
    (newResponseError 500 "\x7b\"ERROR\":\"x\"\x7d".toList).Message = "x".toList := by
  decide

/-- C9 (amended). `newResponseError` returns a `ResponseError` with the given status
whose message is the one the body states (the last string among its members named
`error` without regard to case, when the body is a JSON object, each of those members is
a string or `null`, and that string is not empty) and the raw body in every other case. -/
theorem newResponseError_message (status : Int) (body : Str) :
    newResponseError status body =
      { Message := match statedMessage body with
          | some e => e
          | none => body
        StatusCode := status } := by
  unfold newResponseError unmarshalErrorStruct statedMessage
  cases hp : Json.parse body with
  | none => rfl
  | some v =>
    cases v with
    | object ms =>
      simp only [decodeErrorMembers_eq, Bool.false_or]
      by_cases hall : (errorValues ms).all isStringOrNull = true
      · by_cases hne : lastString [] (errorValues ms) = [] <;> simp [hall, hne]
      · simp [hall]
    | null => simp
    | bool b => simp
    | number n => simp
    | string s => simp
    | array xs => simp
theorem errorsIs_of_urlError (e u : GoError) (target : Nat)
    (h : errorsAsURLError e = some u) (hu : errorsIs u target = true) :
    errorsIs e target = true := by
  induction e with
  | errno n => simp [errorsAsURLError] at h
  | urlError op url err _ =>
    simp only [errorsAsURLError, Option.some.injEq] at h
    subst h
    simpa [errorsIs] using hu
  | wrap text err ih => simpa [errorsIs] using ih (by simpa [errorsAsURLError] using h)
  | leaf text => simp [errorsAsURLError] at h

theorem isConnectErr_eq (sys : Sys) (e : GoError) : isConnectErr sys e = signalsConnect sys e := by
  unfold isConnectErr signalsConnect
  by_cases hc : hasConnectErrno e = true
  · have hc1 := hc
    simp only [hasConnectErrno] at hc1
    simp [hc, hc1]
  · have hc1 := hc
    simp only [hasConnectErrno] at hc1
    simp only [hc1, hc, Bool.false_or]
    cases hu : errorsAsURLError e with
    | none => simp [saysRefused]
    | some u =>
      have hnot : (errorsIs u ECONNREFUSED || errorsIs u ENETUNREACH ||
          errorsIs u EHOSTUNREACH) = false := by
        rw [Bool.eq_false_iff]
        intro h
        apply hc
        simp only [hasConnectErrno, Bool.or_eq_true] at h ⊢
        rcases h with (h | h) | h
        · exact Or.inl (Or.inl (errorsIs_of_urlError e u _ hu h))
        · exact Or.inl (Or.inr (errorsIs_of_urlError e u _ hu h))
        · exact Or.inr (errorsIs_of_urlError e u _ hu h)
      simp only [hnot]
      cases h1 : saysRefused sys u <;> cases h2 : saysRefused sys e <;>
        simp_all [saysRefused]

/-- C10. When the HTTP client fails with the error `e`: if `e` signals a failed
connection (one of `ECONNREFUSED`, `ENETUNREACH`, `EHOSTUNREACH` in its chain, directly or
inside a `*url.Error`, or else the text "connection refused"), `do` returns a
`ConnectionError` with the fixed message, whatever the text of `e`; otherwise `do`
returns `e` itself. -/
theorem do_transport_failure (env : Env) (c : Client) (method path : Str) (body : Option Str)
    (headers : Header) (e : GoError)
    (hreq : env.newRequestError method (c.base ++ path) = none)
    (hfail : c.hc (c.request method path body headers) = Except.error e) :
    (hasConnectErrno e = true → signalsConnect env.sys e = true) ∧
    (signalsConnect env.sys e = true →
      c.do env method path body headers =
        Except.error (Error.connection { Message := connectionErrorMessage })) ∧
    (signalsConnect env.sys e = false →
      c.do env method path body headers = Except.error (Error.other e)) := by
  refine ⟨?_, ?_, ?_⟩
  · intro h
    simp [signalsConnect, h]
  · intro h
    simp [Client.do, hreq, hfail, isConnectErr_eq, h]
  · intro h
    simp [Client.do, hreq, hfail, isConnectErr_eq, h]

/-- Witness of C10: a refused connection inside a `*url.Error`, and a deadline. -/
theorem do_transport_failure_witness :
    (failingClient (GoError.urlError "Post".toList "http://127.0.0.1:11434/api/generate".toList
        (GoError.errno ECONNREFUSED))).do unsetEnv "POST".toList "/api/generate".toList none [] =
      Except.error (Error.connection { Message := connectionErrorMessage }) ∧
    (failingClient (GoError.leaf "context deadline exceeded".toList)).do unsetEnv
        "POST".toList "/api/generate".toList none [] =
      Except.error (Error.other (GoError.leaf "context deadline exceeded".toList)) :=
  ⟨(do_transport_failure unsetEnv
      (failingClient (GoError.urlError "Post".toList
        "http://127.0.0.1:11434/api/generate".toList (GoError.errno ECONNREFUSED)))
      "POST".toList "/api/generate".toList none [] _ rfl rfl).2.1 (by decide),
   (do_transport_failure unsetEnv (failingClient (GoError.leaf "context deadline exceeded".toList))
      "POST".toList "/api/generate".toList none [] _ rfl rfl).2.2 (by decide)⟩

/-! ## The headers of a request -/

theorem values_store (h : Header) (k1 k : Str) (vs : List Str) :
    (h.store k1 vs).values k = if k1 = k then vs else h.values k := by
  induction h with
  | nil => simp [Header.store, Header.values]
  | cons e rest ih =>
    obtain ⟨k2, vs2⟩ := e
    by_cases h2 : k2 = k1
    · subst h2
      by_cases h3 : k2 = k <;> simp [Header.store, Header.values, h3]
    · by_cases h3 : k1 = k
      · subst h3
        simp [Header.store, Header.values, h2, ih]
      · by_cases h4 : k2 = k
        · subst h4
          simp [Header.store, Header.values, h2, h3]
        · simp [Header.store, Header.values, h2, h3, h4, ih]

theorem values_Add (h : Header) (key value k : Str) :
    (h.Add key value).values k =
      if canonicalMIMEHeaderKey key = k then h.values k ++ [value] else h.values k := by
  unfold Header.Add
  rw [values_store]
  by_cases hk : canonicalMIMEHeaderKey key = k
  · simp [hk]
  · simp [hk]

theorem values_foldl_Add (key k : Str) (vs : List Str) (h : Header) :
    (vs.foldl (fun h v => h.Add key v) h).values k =
      if canonicalMIMEHeaderKey key = k then h.values k ++ vs else h.values k := by
  induction vs generalizing h with
  | nil => simp
  | cons v vs ih =>
    rw [List.foldl_cons, ih, values_Add]
    by_cases hk : canonicalMIMEHeaderKey key = k <;> simp [hk]

theorem values_foldl_entries (entries : Header) (k : Str) (acc : Header) :
    (entries.foldl (fun (acc : Header) (entry : Str × List Str) =>
      entry.2.foldl (fun h v => h.Add entry.1 v) acc) acc).values k =
      acc.values k ++ entries.carried k := by
  induction entries generalizing acc with
  | nil => simp [Header.carried]
  | cons e rest ih =>
    obtain ⟨k1, vs⟩ := e
    rw [List.foldl_cons, ih, values_foldl_Add]
    by_cases hk : canonicalMIMEHeaderKey k1 = k <;> simp [hk, Header.carried]

theorem requestHeader_values (defaults perCall : Header) (k : Str) :
    (requestHeader defaults perCall).values k = defaults.carried k ++ perCall.carried k := by
  unfold requestHeader
  rw [values_foldl_entries, values_foldl_entries]
  simp [Header.values]

/-- C11, as stated, fails: when the per-call headers name a key that the defaults name
too, the request carries both values with the default first, and the value that `Get`
returns is the default, not the per-call value.  Here the client has the default
`Accept: application/json` and the call passes `Accept: text/plain`. -/
theorem do_header_conflict :
    ((stubClient 200 []).request "POST".toList "/api/x".toList none
        [("Accept".toList, ["text/plain".toList])]).Header.values "Accept".toList =
      ["application/json".toList, "text/plain".toList] ∧
    ((stubClient 200 []).request "POST".toList "/api/x".toList none
        [("Accept".toList, ["text/plain".toList])]).Header.Get "Accept".toList =
      "application/json".toList ∧
    ((stubClient 200 []).request "POST".toList "/api/x".toList none
        [("Accept".toList, ["text/plain".toList])]).Header.Get "Accept".toList ≠
      "text/plain".toList := by
  decide

/-- C11, amended: for every key, the request that `do` builds carries the default values
of the key followed by its per-call values.  So a key named by one of the two sets only
carries the values of that set, and for a key named by both the per-call value is added
after the default and does not replace it: `Get` returns the first default value. -/
theorem do_header_merge (c : Client) (method path : Str) (body : Option Str)
    (headers : Header) (key : Str) :
    (c.request method path body headers).Header.values key =
      c.header.carried key ++ headers.carried key ∧
    (c.request method path body headers).Header.Get key =
      (c.header.carried (canonicalMIMEHeaderKey key) ++
        headers.carried (canonicalMIMEHeaderKey key)).headD [] := by
  constructor
  · exact requestHeader_values c.header headers key
  · show Header.Get (requestHeader c.header headers) key = _
    unfold Header.Get
    rw [requestHeader_values]
    cases c.header.carried (canonicalMIMEHeaderKey key) ++
      headers.carried (canonicalMIMEHeaderKey key) <;> rfl

/-! ## The operations of the client -/

/-- C12: each of the twelve operations that take a request with a model, given a request
whose model is the empty string, returns no value and the `RequestError` "model is
required", and hands no request to the HTTP client. -/
theorem operations_require_model {Res T : Type} (env : Env) (c : Client)
    (t : Json.Target Res) (u : Json.Target T) (d : Delivery)
    (g : GenerateRequest) (ch : ChatRequest) (e : EmbedRequest) (es : EmbeddingsRequest)
    (pl : PullRequest) (ps : PushRequest) (cr : CreateRequest)
    (hg : g.Model = []) (hch : ch.Model = []) (he : e.Model = []) (hes : es.Model = [])
    (hpl : pl.Model = []) (hps : ps.Model = []) (hcr : cr.Model = []) :
    c.Generate env t g = modelRequired ∧ c.GenerateStream env u d g = modelRequired ∧
    c.Chat env t ch = modelRequired ∧ c.ChatStream env u d ch = modelRequired ∧
    c.Embed env t e = modelRequired ∧ c.Embeddings env t es = modelRequired ∧
    c.Pull env t pl = modelRequired ∧ c.PullStream env u d pl = modelRequired ∧
    c.Push env t ps = modelRequired ∧ c.PushStream env u d ps = modelRequired ∧
    c.Create env t cr = modelRequired ∧ c.CreateStream env u d cr = modelRequired := by
  simp [Client.Generate, Client.GenerateStream, Client.Chat, Client.ChatStream, Client.Embed,
    Client.Embeddings, Client.Pull, Client.PullStream, Client.Push, Client.PushStream,
    Client.Create, Client.CreateStream, ensureModel, modelRequired, hg, hch, he, hes, hpl, hps,
    hcr]

theorem operations_require_model_witness :
    (stubClient 200 []).Generate unsetEnv progress { Model := [] } = modelRequired ∧
    (stubClient 200 []).PullStream unsetEnv progress atOnce { Model := [] } = modelRequired :=
  ⟨(operations_require_model unsetEnv (stubClient 200 []) progress progress atOnce
      { Model := [] } { Model := [] } { Model := [] } { Model := [] } { Model := [] }
      { Model := [] } { Model := [] } rfl rfl rfl rfl rfl rfl rfl).1,
   (operations_require_model unsetEnv (stubClient 200 []) progress progress atOnce
      { Model := [] } { Model := [] } { Model := [] } { Model := [] } { Model := [] }
      { Model := [] } { Model := [] } rfl rfl rfl rfl rfl rfl rfl).2.2.2.2.2.2.2.1⟩

/-- C13 fails on the code (`requestJSON` serialises with `json.Marshal`, which escapes
for HTML): for the prompt `1 < 2 & 3 > 2` the body that `Generate` hands to `do` holds
the escapes of `<`, `&` and `>` and none of the three characters. -/
theorem requestJSON_escapes_html {Res : Type} (env : Env) (c : Client) (t : Json.Target Res) :
    (c.Generate env t { Model := "m".toList, Prompt := some "1 < 2 & 3 > 2".toList }).calls =
      (c.exchange env "POST".toList "/api/generate".toList
        (some "\x7b\"model\":\"m\",\"prompt\":\"1 \\u003c 2 \\u0026 3 \\u003e 2\"\x7d".toList)
        []).calls ∧
    GenerateRequest.marshal { Model := "m".toList, Prompt := some "1 < 2 & 3 > 2".toList } ≠
      Except.ok "\x7b\"model\":\"m\",\"prompt\":\"1 < 2 & 3 > 2\"\x7d".toList := by
  have hm : GenerateRequest.marshal
      { Model := "m".toList, Prompt := some "1 < 2 & 3 > 2".toList } =
      Except.ok
        "\x7b\"model\":\"m\",\"prompt\":\"1 \\u003c 2 \\u0026 3 \\u003e 2\"\x7d".toList := by
    rfl
  constructor
  · have hmodel : ensureModel "m".toList = none := by decide
    unfold Client.Generate
    simp only [hmodel, hm, requestJSON]
    cases h : (c.exchange env "POST".toList "/api/generate".toList
        (some "\x7b\"model\":\"m\",\"prompt\":\"1 \\u003c 2 \\u0026 3 \\u003e 2\"\x7d".toList)
        []).result with
    | error err => rfl
    | ok resp =>
      dsimp only
      cases t.Decode resp.Body <;> rfl
  · rw [hm]
    intro h
    have h2 := Except.ok.inj h
    revert h2
    decide

theorem exchange_calls (env : Env) (c : Client) (method path : Str) (body : Option Str)
    (headers : Header) (h : env.newRequestError method (c.base ++ path) = none) :
    (c.exchange env method path body headers).calls = [c.request method path body headers] := by
  simp [Client.exchange, h]

theorem ensureModel_named (m : Str) (h : m ≠ []) : ensureModel m = none := by
  simp [ensureModel, h]

theorem marshal_stream_members (model : Str) (rest : List (Str × Json.Encoded)) (text : Str)
    (h : Json.ofMembers (Json.always "model" (Json.ofString model) ++
      Json.omitNil "stream" (some true) Json.ofBool ++ rest) = Except.ok text) :
    ∃ tail, text = "\x7b\"model\":".toList ++ Json.encodeString model ++
      ",\"stream\":true".toList ++ tail := by
  have e1 : Json.encodeString ['m', 'o', 'd', 'e', 'l'] = "\"model\"".toList := by decide
  have e2 : Json.encodeString ['s', 't', 'r', 'e', 'a', 'm'] = "\"stream\"".toList := by decide
  unfold Json.ofMembers at h
  simp only [Json.always, Json.omitNil, Json.ofString, Json.ofBool, List.map_cons,
    List.map_append, List.cons_append, List.nil_append, List.append_eq, Json.collect,
    if_true] at h
  cases hc : Json.collect (List.map (fun m => m.2) rest) with
  | error err => rw [hc] at h; simp at h
  | ok texts =>
    rw [hc] at h
    simp only [List.zipWith_cons_cons] at h
    have h2 := (Except.ok.inj h).symm
    cases hz : List.zipWith (fun name text => Json.encodeString name ++ [':'] ++ text)
        (List.map (fun m => m.1) rest) texts with
    | nil =>
      rw [hz] at h2
      refine ⟨['}'], ?_⟩
      rw [h2]
      simp [Json.joinComma, e1, e2]
    | cons z zs =>
      rw [hz] at h2
      refine ⟨[','] ++ Json.joinComma (z :: zs) ++ ['}'], ?_⟩
      rw [h2]
      simp [Json.joinComma, e1, e2]

/-- C19: for a request that names a model, whatever its field `Stream` holds (`s`), each of
the five streaming methods hands to the HTTP client one request: a POST to the URL of the
operation, whose body is the JSON serialisation of the request with `Stream` set to `true`
and every other field as the caller gave it; that text holds `"stream":true`. -/
theorem stream_methods_force_stream {T : Type} (env : Env) (c : Client) (t : Json.Target T)
    (d : Delivery) (s : Option Bool)
    (g : GenerateRequest) (ch : ChatRequest) (pl : PullRequest) (ps : PushRequest)
    (cr : CreateRequest) (bg bch bpl bps bcr : Str)
    (hnew : ∀ path, env.newRequestError "POST".toList (c.base ++ path) = none)
    (hg : g.Model ≠ []) (hch : ch.Model ≠ []) (hpl : pl.Model ≠ []) (hps : ps.Model ≠ [])
    (hcr : cr.Model ≠ [])
    (hbg : ({ g with Stream := some true } : GenerateRequest).marshal = Except.ok bg)
    (hbch : ({ ch with Stream := some true } : ChatRequest).marshal = Except.ok bch)
    (hbpl : ({ pl with Stream := some true } : PullRequest).marshal = Except.ok bpl)
    (hbps : ({ ps with Stream := some true } : PushRequest).marshal = Except.ok bps)
    (hbcr : ({ cr with Stream := some true } : CreateRequest).marshal = Except.ok bcr) :
    ((c.GenerateStream env t d { g with Stream := s }).calls =
        [{ Method := "POST".toList, URL := c.base ++ "/api/generate".toList, Body := some bg,
           Header := requestHeader c.header [] }] ∧
      streamsTrue g.Model bg) ∧
    ((c.ChatStream env t d { ch with Stream := s }).calls =
        [{ Method := "POST".toList, URL := c.base ++ "/api/chat".toList, Body := some bch,
           Header := requestHeader c.header [] }] ∧
      streamsTrue ch.Model bch) ∧
    ((c.PullStream env t d { pl with Stream := s }).calls =
        [{ Method := "POST".toList, URL := c.base ++ "/api/pull".toList, Body := some bpl,
           Header := requestHeader c.header [] }] ∧
      streamsTrue pl.Model bpl) ∧
    ((c.PushStream env t d { ps with Stream := s }).calls =
        [{ Method := "POST".toList, URL := c.base ++ "/api/push".toList, Body := some bps,
           Header := requestHeader c.header [] }] ∧
      streamsTrue ps.Model bps) ∧
    ((c.CreateStream env t d { cr with Stream := s }).calls =
        [{ Method := "POST".toList, URL := c.base ++ "/api/create".toList, Body := some bcr,
           Header := requestHeader c.header [] }] ∧
      streamsTrue cr.Model bcr) := by
  refine ⟨⟨?_, ?_⟩, ⟨?_, ?_⟩, ⟨?_, ?_⟩, ⟨?_, ?_⟩, ⟨?_, ?_⟩⟩
  · unfold Client.GenerateStream
    simp only [ensureModel_named _ hg]
    rw [show ({ ({ g with Stream := s } : GenerateRequest) with Stream := some true } :
      GenerateRequest) = { g with Stream := some true } from rfl, hbg]
    dsimp only
    refine Eq.trans ?_ (exchange_calls env c "POST".toList _ _ [] (hnew _))
    split <;> rfl
  · exact marshal_stream_members g.Model _ bg hbg
  · unfold Client.ChatStream
    simp only [ensureModel_named _ hch]
    rw [show ({ ({ ch with Stream := s } : ChatRequest) with Stream := some true } :
      ChatRequest) = { ch with Stream := some true } from rfl, hbch]
    dsimp only
    refine Eq.trans ?_ (exchange_calls env c "POST".toList _ _ [] (hnew _))
    split <;> rfl
  · exact marshal_stream_members ch.Model _ bch hbch
  · unfold Client.PullStream
    simp only [ensureModel_named _ hpl]
    rw [show ({ ({ pl with Stream := s } : PullRequest) with Stream := some true } :
      PullRequest) = { pl with Stream := some true } from rfl, hbpl]
    dsimp only
    refine Eq.trans ?_ (exchange_calls env c "POST".toList _ _ [] (hnew _))
    split <;> rfl
  · exact marshal_stream_members pl.Model _ bpl hbpl
  · unfold Client.PushStream
    simp only [ensureModel_named _ hps]
    rw [show ({ ({ ps with Stream := s } : PushRequest) with Stream := some true } :
      PushRequest) = { ps with Stream := some true } from rfl, hbps]
    dsimp only
    refine Eq.trans ?_ (exchange_calls env c "POST".toList _ _ [] (hnew _))
    split <;> rfl
  · exact marshal_stream_members ps.Model _ bps hbps
  · unfold Client.CreateStream
    simp only [ensureModel_named _ hcr]
    rw [show ({ ({ cr with Stream := s } : CreateRequest) with Stream := some true } :
      CreateRequest) = { cr with Stream := some true } from rfl, hbcr]
    dsimp only
    refine Eq.trans ?_ (exchange_calls env c "POST".toList _ _ [] (hnew _))
    split <;> rfl
  · exact marshal_stream_members cr.Model _ bcr hbcr

/-- Witness of C19: requests whose field `Stream` is `false`, sent with `"stream":true`. -/
theorem stream_methods_force_stream_witness :
    ((stubClient 200 []).GenerateStream unsetEnv progress atOnce
        { Model := "m".toList, Stream := some false, Prompt := some "hi".toList }).calls =
      [{ Method := "POST".toList, URL := "http://127.0.0.1:11434/api/generate".toList,
         Body := some "\x7b\"model\":\"m\",\"stream\":true,\"prompt\":\"hi\"\x7d".toList,
         Header := requestHeader (stubClient 200 []).header [] }] ∧
    ((stubClient 200 []).PullStream unsetEnv progress atOnce
        { Model := "m".toList, Stream := some false, Insecure := some false }).calls =
      [{ Method := "POST".toList, URL := "http://127.0.0.1:11434/api/pull".toList,
         Body := some "\x7b\"model\":\"m\",\"stream\":true,\"insecure\":false\x7d".toList,
         Header := requestHeader (stubClient 200 []).header [] }] :=
  ⟨(stream_methods_force_stream unsetEnv (stubClient 200 []) progress atOnce (some false)
      { Model := "m".toList, Prompt := some "hi".toList } { Model := "m".toList }
      { Model := "m".toList, Insecure := some false } { Model := "m".toList }
      { Model := "m".toList }
      "\x7b\"model\":\"m\",\"stream\":true,\"prompt\":\"hi\"\x7d".toList
      "\x7b\"model\":\"m\",\"stream\":true\x7d".toList
      "\x7b\"model\":\"m\",\"stream\":true,\"insecure\":false\x7d".toList
      "\x7b\"model\":\"m\",\"stream\":true\x7d".toList
      "\x7b\"model\":\"m\",\"stream\":true\x7d".toList
      (fun _ => rfl) (by decide) (by decide) (by decide) (by decide) (by decide)
      rfl rfl rfl rfl rfl).1.1,
   (stream_methods_force_stream unsetEnv (stubClient 200 []) progress atOnce (some false)
      { Model := "m".toList, Prompt := some "hi".toList } { Model := "m".toList }
      { Model := "m".toList, Insecure := some false } { Model := "m".toList }
      { Model := "m".toList }
      "\x7b\"model\":\"m\",\"stream\":true,\"prompt\":\"hi\"\x7d".toList
      "\x7b\"model\":\"m\",\"stream\":true\x7d".toList
      "\x7b\"model\":\"m\",\"stream\":true,\"insecure\":false\x7d".toList
      "\x7b\"model\":\"m\",\"stream\":true\x7d".toList
      "\x7b\"model\":\"m\",\"stream\":true\x7d".toList
      (fun _ => rfl) (by decide) (by decide) (by decide) (by decide) (by decide)
      rfl rfl rfl rfl rfl).2.2.1.1⟩

theorem do_of_response (env : Env) (c : Client) (method path : Str) (body : Option Str)
    (headers : Header) (resp : Response)
    (hreq : env.newRequestError method (c.base ++ path) = none)
    (hresp : c.hc (c.request method path body headers) = Except.ok resp) :
    c.do env method path body headers =
      if resp.StatusCode ≥ 400 then
        Except.error (Error.response (newResponseError resp.StatusCode resp.Body.readAll))
      else Except.ok resp := by
  unfold Client.do
  rw [hreq]
  dsimp only
  rw [hresp]

/-- C20: whatever status the server answers with, `Delete` and `Copy` return no error
and a `StatusResponse` whose status is "success" when the code is 200 and "error" for
every other code. -/
theorem delete_copy_status (env : Env) (c : Client) (model source destination : Str)
    (respDelete respCopy : Response)
    (hnewDelete : env.newRequestError "DELETE".toList (c.base ++ "/api/delete".toList) = none)
    (hnewCopy : env.newRequestError "POST".toList (c.base ++ "/api/copy".toList) = none)
    (hdelete : c.hc (c.request "DELETE".toList "/api/delete".toList
      (some (jsonBody (DeleteRequest.marshal { Model := model }))) []) = Except.ok respDelete)
    (hcopy : c.hc (c.request "POST".toList "/api/copy".toList
      (some (jsonBody (CopyRequest.marshal { Source := source, Destination := destination })))
      []) = Except.ok respCopy) :
    (c.Delete env model).result =
      Except.ok
        ⟨some (if respDelete.StatusCode = 200 then "success".toList else "error".toList)⟩ ∧
    (c.Copy env source destination).result =
      Except.ok
        ⟨some (if respCopy.StatusCode = 200 then "success".toList else "error".toList)⟩ := by
  constructor
  · unfold Client.Delete Client.exchange
    dsimp only
    rw [do_of_response env c _ _ _ _ respDelete hnewDelete hdelete]
    by_cases h4 : respDelete.StatusCode ≥ 400
    · have hne : respDelete.StatusCode ≠ 200 := by omega
      rw [if_pos h4, if_neg hne]
    · rw [if_neg h4]
  · unfold Client.Copy Client.exchange
    dsimp only
    rw [do_of_response env c _ _ _ _ respCopy hnewCopy hcopy]
    by_cases h4 : respCopy.StatusCode ≥ 400
    · have hne : respCopy.StatusCode ≠ 200 := by omega
      rw [if_pos h4, if_neg hne]
    · rw [if_neg h4]

/-- Witness of C20: the codes 200, 204 and 500. -/
theorem delete_copy_status_witness :
    ((stubClient 200 []).Delete unsetEnv "m".toList).result =
      Except.ok { Status := some "success".toList } ∧
    ((stubClient 204 []).Copy unsetEnv "a".toList "b".toList).result =
      Except.ok { Status := some "error".toList } ∧
    ((stubClient 500 "boom".toList).Delete unsetEnv "m".toList).result =
      Except.ok { Status := some "error".toList } :=
  ⟨(delete_copy_status unsetEnv (stubClient 200 []) "m".toList "a".toList "b".toList
      (responseOf 200 []) (responseOf 200 []) rfl rfl rfl rfl).1,
   (delete_copy_status unsetEnv (stubClient 204 []) "m".toList "a".toList "b".toList
      (responseOf 204 []) (responseOf 204 []) rfl rfl rfl rfl).2,
   (delete_copy_status unsetEnv (stubClient 500 "boom".toList) "m".toList "a".toList
      "b".toList (responseOf 500 "boom".toList) (responseOf 500 "boom".toList)
      rfl rfl rfl rfl).1⟩

/-! ## Streams -/

theorem cut_singleton_none (c : Char) (s : Str) (h : cut [c] s = none) : c ∉ s := by
  induction s with
  | nil => simp
  | cons x xs ih =>
    rw [cut] at h
    by_cases hx : x = c
    · subst hx
      simp [List.isPrefixOf] at h
    · have hp : List.isPrefixOf [c] (x :: xs) = false := by
        simp [List.isPrefixOf, Ne.symm hx]
      rw [hp] at h
      cases hc : cut [c] xs with
      | none =>
        have := ih hc
        simp [this, Ne.symm hx]
      | some p => rw [hc] at h; simp at h

theorem cut_singleton_some (c : Char) (s a b : Str) (h : cut [c] s = some (a, b)) :
    s = a ++ c :: b ∧ c ∉ a := by
  induction s generalizing a with
  | nil => simp [cut] at h
  | cons x xs ih =>
    rw [cut] at h
    by_cases hx : x = c
    · subst hx
      simp [List.isPrefixOf] at h
      obtain ⟨h1, h2⟩ := h
      subst h1 h2
      simp
    · have hp : List.isPrefixOf [c] (x :: xs) = false := by
        simp [List.isPrefixOf, Ne.symm hx]
      rw [hp] at h
      cases hc : cut [c] xs with
      | none => rw [hc] at h; simp at h
      | some p =>
        obtain ⟨a1, b1⟩ := p
        rw [hc] at h
        simp at h
        obtain ⟨h1, h2⟩ := h
        subst h1 h2
        obtain ⟨e, hn⟩ := ih a1 hc
        refine ⟨by rw [e]; rfl, ?_⟩
        simp [hn, Ne.symm hx]

theorem nextLine_of_line (line rest : Str) (terminal : ReadEnd) (h : '\n' ∉ line) :
    nextLine (line ++ '\n' :: rest) terminal = ((line ++ ['\n'], none), rest) := by
  unfold nextLine
  rw [cut_singleton_append '\n' line rest h]

theorem nextLine_of_last (content : Str) (terminal : ReadEnd) (h : '\n' ∉ content) :
    nextLine content terminal = ((content, some terminal), []) := by
  unfold nextLine
  rw [cut_none_of_head_not_mem '\n' [] content h]

theorem nextLine_append_left (a content : Str) (terminal : ReadEnd) (h : '\n' ∉ a) :
    nextLine (a ++ content) terminal =
      ((a ++ (nextLine content terminal).1.1, (nextLine content terminal).1.2),
        (nextLine content terminal).2) := by
  cases hc : cut ['\n'] content with
  | none =>
    have hn := cut_singleton_none _ _ hc
    have hn2 : '\n' ∉ a ++ content := by simp [h, hn]
    rw [nextLine_of_last _ _ hn2, nextLine_of_last _ _ hn]
  | some p =>
    obtain ⟨l, r⟩ := p
    obtain ⟨e, hl⟩ := cut_singleton_some _ _ _ _ hc
    have hal : '\n' ∉ a ++ l := by simp [h, hl]
    rw [e, nextLine_of_line l r terminal hl]
    rw [← List.append_assoc, nextLine_of_line (a ++ l) r terminal hal]
    simp

theorem Body_Read_closed (d : Delivery) (room : Nat) (b : Body) (h : b.closed ≠ 0) :
    b.Read d room = ([], some (ReadEnd.failure errReadOnClosedBody), b) := by
  simp [Body.Read, h]

theorem Body_Read_empty (d : Delivery) (room : Nat) (b : Body) (h : b.closed = 0)
    (hd : b.data = []) : b.Read d room = ([], some b.terminal, b) := by
  simp [Body.Read, h, hd]

theorem Body_Read_data (d : Delivery) (room : Nat) (b : Body) (h : b.closed = 0)
    (hd : b.data ≠ []) :
    ∃ n, 1 ≤ n ∧ b.Read d room =
      (b.data.take n,
        if d.withEnd ∧ b.data.drop n = [] then some b.terminal else none,
        { b with data := b.data.drop n }) := by
  cases hdata : b.data with
  | nil => exact absurd hdata hd
  | cons c cs =>
    refine ⟨max 1 (min (d.size (c :: cs)) room), le_max_left _ _, ?_⟩
    simp only [Body.Read, h, hdata]
    simp

/-- With twice the unread bytes and three for fuel, `ReadBytes` on a body that is not
closed returns what `nextLine` gives for the bytes still to come, whatever the way in
which the body hands them over, and leaves the rest of them to come. -/
theorem ReadBytes_spec (fuel : Nat) (d : Delivery) (full : Str) (r : Reader) (b : Body)
    (hclosed : b.closed = 0)
    (herr : r.err = none ∨ (r.err = some b.terminal ∧ b.data = []))
    (hfuel : 2 * b.data.length + (if defaultBufSize ≤ r.buffered.length then 1 else 0) +
      (if r.err = none then 1 else 0) + 1 ≤ fuel) :
    (r.ReadBytes fuel d full b).1 =
        (full ++ (nextLine (r.buffered ++ b.data) b.terminal).1.1,
          (nextLine (r.buffered ++ b.data) b.terminal).1.2) ∧
      (r.ReadBytes fuel d full b).2.1.buffered ++ (r.ReadBytes fuel d full b).2.2.data =
        (nextLine (r.buffered ++ b.data) b.terminal).2 ∧
      (r.ReadBytes fuel d full b).2.2.closed = 0 ∧
      (r.ReadBytes fuel d full b).2.2.failure = b.failure ∧
      ((r.ReadBytes fuel d full b).2.1.err = none ∨
        ((r.ReadBytes fuel d full b).2.1.err = some b.terminal ∧
          (r.ReadBytes fuel d full b).2.2.data = [])) := by
  induction fuel generalizing full r b with
  | zero => omega
  | succ fuel ih =>
    rw [Reader.ReadBytes]
    cases hcut : cut ['\n'] r.buffered with
    | some p =>
      obtain ⟨line, rest⟩ := p
      obtain ⟨e, hl⟩ := cut_singleton_some _ _ _ _ hcut
      dsimp only
      have e2 : r.buffered ++ b.data = line ++ '\n' :: (rest ++ b.data) := by
        rw [e]
        simp
      rw [e2, nextLine_of_line line (rest ++ b.data) _ hl]
      exact ⟨by simp, rfl, hclosed, rfl, herr⟩
    | none =>
      have hn := cut_singleton_none _ _ hcut
      dsimp only
      cases he : r.err with
      | some e =>
        dsimp only
        rcases herr with h0 | ⟨h1, h2⟩
        · rw [h0] at he; exact absurd he (by simp)
        · rw [h1] at he
          have he2 : e = b.terminal := (Option.some.inj he).symm
          rw [h2, List.append_nil, nextLine_of_last _ _ hn, he2]
          exact ⟨rfl, by simp [h2], hclosed, rfl, Or.inl rfl⟩
      | none =>
        dsimp only
        rw [he] at hfuel
        by_cases hfull : defaultBufSize ≤ r.buffered.length
        · rw [if_pos hfull]
          rw [if_pos hfull] at hfuel
          have hsmall : ¬ defaultBufSize ≤ ([] : Str).length := by decide
          have := ih (full ++ r.buffered) { buffered := [], err := none } b hclosed (Or.inl rfl)
            (by
              show 2 * b.data.length + (if defaultBufSize ≤ ([] : Str).length then 1 else 0) +
                (if (none : Option ReadEnd) = none then 1 else 0) + 1 ≤ fuel
              rw [if_neg hsmall]
              simp only [if_true]
              simp only [if_true] at hfuel
              omega)
          obtain ⟨a1, a2, a3, a4, a5⟩ := this
          rw [nextLine_append_left _ _ _ hn]
          simp only [List.nil_append] at a1 a2
          dsimp only
          refine ⟨?_, a2, a3, a4, a5⟩
          rw [a1]
          simp
        · rw [if_neg hfull]
          rw [if_neg hfull] at hfuel
          simp only [if_true] at hfuel
          by_cases hd : b.data = []
          · rw [Body_Read_empty d _ b hclosed hd]
            dsimp only
            have := ih full { buffered := r.buffered ++ [], err := some b.terminal } b hclosed
              (Or.inr ⟨rfl, hd⟩)
              (by
                show 2 * b.data.length +
                  (if defaultBufSize ≤ (r.buffered ++ []).length then 1 else 0) +
                  (if (some b.terminal : Option ReadEnd) = none then 1 else 0) + 1 ≤ fuel
                rw [List.append_nil, if_neg hfull, if_neg (by simp)]
                omega)
            simpa using this
          · obtain ⟨n, hn1, hread⟩ := Body_Read_data d (defaultBufSize - r.buffered.length) b
              hclosed hd
            rw [hread]
            dsimp only
            have hlen : (b.data.drop n).length + 1 ≤ b.data.length := by
              have : b.data.length ≠ 0 := by
                intro h0
                exact hd (List.length_eq_zero.mp h0)
              rw [List.length_drop]
              omega
            have hterm : ({ b with data := b.data.drop n } : Body).terminal = b.terminal := rfl
            have := ih full
              { buffered := r.buffered ++ b.data.take n,
                err := if d.withEnd ∧ b.data.drop n = [] then some b.terminal else none }
              { b with data := b.data.drop n } hclosed
              (by
                by_cases hw : d.withEnd ∧ b.data.drop n = []
                · right
                  exact ⟨by rw [if_pos hw]; rfl, hw.2⟩
                · left
                  rw [if_neg hw])
              (by
                show 2 * (b.data.drop n).length +
                  (if defaultBufSize ≤ (r.buffered ++ b.data.take n).length then 1 else 0) +
                  (if (if d.withEnd ∧ b.data.drop n = [] then some b.terminal else none) = none
                    then 1 else 0) + 1 ≤ fuel
                split_ifs <;> omega)
            obtain ⟨a1, a2, a3, a4, a5⟩ := this
            have hcontent : (r.buffered ++ b.data.take n) ++ b.data.drop n =
                r.buffered ++ b.data := by
              rw [List.append_assoc, List.take_append_drop]
            simp only [hterm, hcontent] at a1 a2 a5
            exact ⟨a1, a2, a3, a4, a5⟩

theorem Recv_spec {T : Type} (s : Stream T) (h : s.ready) :
    (s.Recv).1 = (answer s.decode s.resp.StatusCode s.resp.Body.terminal s.pending).1 ∧
    (s.Recv).2.pending = (answer s.decode s.resp.StatusCode s.resp.Body.terminal s.pending).2 ∧
    (s.Recv).2.ready ∧ (s.Recv).2.decode = s.decode ∧
    (s.Recv).2.resp.StatusCode = s.resp.StatusCode ∧
    (s.Recv).2.resp.Body.terminal = s.resp.Body.terminal := by
  obtain ⟨hclosed, rd, hrd, herr⟩ := h
  have hspec := ReadBytes_spec (2 * s.resp.Body.data.length + 3) s.deliver [] rd s.resp.Body
    hclosed herr (by split_ifs <;> omega)
  obtain ⟨a1, a2, a3, a4, a5⟩ := hspec
  have hpending : s.pending = rd.buffered ++ s.resp.Body.data := by
    simp [Stream.pending, hrd]
  have hterm : (rd.ReadBytes (2 * s.resp.Body.data.length + 3) s.deliver []
      s.resp.Body).2.2.terminal = s.resp.Body.terminal := by
    simp [Body.terminal, a4]
  rw [hpending]
  simp only [List.nil_append] at a1
  have b1 := congrArg Prod.fst a1
  have b2 := congrArg Prod.snd a1
  dsimp only at b1 b2
  unfold Stream.Recv answer
  rw [hrd]
  dsimp only
  rw [b1, b2]
  cases hl : (nextLine (rd.buffered ++ s.resp.Body.data) s.resp.Body.terminal).1.1 with
  | nil =>
    cases he : (nextLine (rd.buffered ++ s.resp.Body.data) s.resp.Body.terminal).1.2 with
    | none =>
      dsimp only
      unfold lineResult
      refine ⟨?_, ?_, ?_⟩
      · cases s.decode (bytesTrimSpace []) with
        | error err => rfl
        | ok out => dsimp only; cases inBandError (bytesTrimSpace []) <;> rfl
      · cases s.decode (bytesTrimSpace []) with
        | error err => exact a2
        | ok out => dsimp only; cases inBandError (bytesTrimSpace []) <;> exact a2
      · cases s.decode (bytesTrimSpace []) with
        | error err => exact ⟨⟨a3, _, rfl, by rw [hterm]; exact a5⟩, rfl, rfl, hterm⟩
        | ok out =>
          dsimp only
          cases inBandError (bytesTrimSpace []) <;>
            exact ⟨⟨a3, _, rfl, by rw [hterm]; exact a5⟩, rfl, rfl, hterm⟩
    | some e =>
      cases e with
      | eof => exact ⟨rfl, a2, ⟨a3, _, rfl, by rw [hterm]; exact a5⟩, rfl, rfl, hterm⟩
      | failure err => exact ⟨rfl, a2, ⟨a3, _, rfl, by rw [hterm]; exact a5⟩, rfl, rfl, hterm⟩
  | cons c cs =>
    dsimp only
    unfold lineResult
    refine ⟨?_, ?_, ?_⟩
    · cases s.decode (bytesTrimSpace (c :: cs)) with
      | error err => rfl
      | ok out => dsimp only; cases inBandError (bytesTrimSpace (c :: cs)) <;> rfl
    · cases s.decode (bytesTrimSpace (c :: cs)) with
      | error err => exact a2
      | ok out => dsimp only; cases inBandError (bytesTrimSpace (c :: cs)) <;> exact a2
    · cases s.decode (bytesTrimSpace (c :: cs)) with
      | error err => exact ⟨⟨a3, _, rfl, by rw [hterm]; exact a5⟩, rfl, rfl, hterm⟩
      | ok out =>
        dsimp only
        cases inBandError (bytesTrimSpace (c :: cs)) <;>
          exact ⟨⟨a3, _, rfl, by rw [hterm]; exact a5⟩, rfl, rfl, hterm⟩

theorem receive_spec {T : Type} (n : Nat) (s : Stream T) (h : s.ready) :
    (s.receive n).1 = answers s.decode s.resp.StatusCode s.resp.Body.terminal n s.pending := by
  induction n generalizing s with
  | zero => rfl
  | succ n ih =>
    obtain ⟨a1, a2, a3, a4, a5, a6⟩ := Recv_spec s h
    show (s.Recv).1 :: ((s.Recv).2.receive n).1 = _
    rw [ih _ a3, a1, a2, a4, a5, a6]
    rfl

theorem newStream_ready {T : Type} (t : Json.Target T) (d : Delivery) (status : Int)
    (data : Str) (failure : Option GoError) :
    (newStream t d { StatusCode := status, Body := { data := data, failure := failure } }).ready :=
  ⟨rfl, _, rfl, Or.inl rfl⟩

theorem dropWhile_append_singleton (p : Char → Bool) (l : Str) (c : Char) (hc : p c = true) :
    (l ++ [c]).dropWhile p = if l.dropWhile p = [] then [] else l.dropWhile p ++ [c] := by
  induction l with
  | nil => simp [List.dropWhile, hc]
  | cons x xs ih =>
    by_cases hx : p x = true
    · simp only [List.cons_append, List.dropWhile_cons, hx, if_true]
      exact ih
    · simp [List.dropWhile_cons, hx]

theorem bytesTrimSpace_line (l : Str) : bytesTrimSpace (l ++ ['\n']) = bytesTrimSpace l := by
  unfold bytesTrimSpace
  dsimp only
  rw [dropWhile_append_singleton _ l '\n' (by decide)]
  split
  · rename_i h
    rw [h]
  · rw [List.reverse_append]
    simp [List.dropWhile_cons]

theorem lineResult_line {T : Type} (decode : Str → Except GoError T) (status : Int) (l : Str) :
    lineResult decode status (l ++ ['\n']) = lineResult decode status l := by
  unfold lineResult
  rw [bytesTrimSpace_line]

theorem answer_of_line {T : Type} (decode : Str → Except GoError T) (status : Int)
    (terminal : ReadEnd) (line rest : Str) (h : '\n' ∉ line) :
    answer decode status terminal (line ++ '\n' :: rest) =
      (lineResult decode status line, rest) := by
  unfold answer
  rw [nextLine_of_line line rest terminal h]
  dsimp only
  rw [← lineResult_line]
  cases line <;> rfl

theorem answer_of_last {T : Type} (decode : Str → Except GoError T) (status : Int)
    (terminal : ReadEnd) (line : Str) (h : '\n' ∉ line) (hne : line ≠ []) :
    answer decode status terminal line = (lineResult decode status line, []) := by
  unfold answer
  rw [nextLine_of_last line terminal h]
  cases line with
  | nil => exact absurd rfl hne
  | cons c cs => rfl

theorem answer_of_end {T : Type} (decode : Str → Except GoError T) (status : Int) :
    answer decode status ReadEnd.eof [] = (RecvResult.EOF, []) := by
  rfl

theorem lineResult_value {T : Type} (decode : Str → Except GoError T) (status : Int)
    (line : Str) (v : T) (hd : decode (bytesTrimSpace line) = Except.ok v)
    (he : inBandError (bytesTrimSpace line) = none) :
    lineResult decode status line = RecvResult.value v := by
  unfold lineResult
  rw [hd]
  dsimp only
  rw [he]

theorem answers_lines {T : Type} (decode : Str → Except GoError T) (status : Int)
    (terminal : ReadEnd) (docs : List (Str × T)) (tail : Str) (n : Nat)
    (hdocs : ∀ p ∈ docs, '\n' ∉ p.1 ∧ decode (bytesTrimSpace p.1) = Except.ok p.2 ∧
      inBandError (bytesTrimSpace p.1) = none) :
    answers decode status terminal (docs.length + n) (linesBody (docs.map (fun p => p.1)) ++ tail) =
      docs.map (fun p => RecvResult.value p.2) ++ answers decode status terminal n tail := by
  induction docs with
  | nil => simp [linesBody]
  | cons p ps ih =>
    obtain ⟨h1, h2, h3⟩ := hdocs p (List.mem_cons_self _ _)
    have hrest := ih (fun q hq => hdocs q (List.mem_cons_of_mem _ hq))
    have hbody : linesBody (List.map (fun p => p.1) (p :: ps)) ++ tail =
        p.1 ++ '\n' :: (linesBody (List.map (fun p => p.1) ps) ++ tail) := by
      simp [linesBody]
    have hlen : (p :: ps).length + n = (ps.length + n) + 1 := by
      simp only [List.length_cons]
      omega
    rw [hbody, hlen, answers, answer_of_line decode status terminal _ _ h1]
    dsimp only
    rw [hrest, lineResult_value decode status p.1 p.2 h2 h3]
    rfl

theorem receive_newStream {T : Type} (t : Json.Target T) (d : Delivery) (status : Int)
    (data : Str) (n : Nat) :
    ((newStream t d (responseOf status data)).receive n).1 =
      answers t.Unmarshal status ReadEnd.eof n data :=
  receive_spec n _ (newStream_ready t d status data none)

/-- C14: for a body of `n` lines, each ended by a line feed and each (white space at its
ends apart) a document that decodes into the expected type and in which `Recv` finds no
`error` member, `n` successive calls of `Recv` return the `n` decoded values in the order
of the body, and the next call returns `io.EOF`. -/
theorem recv_lines {T : Type} (t : Json.Target T) (d : Delivery) (status : Int)
    (docs : List (Str × T))
    (hdocs : ∀ p ∈ docs, '\n' ∉ p.1 ∧ t.Unmarshal (bytesTrimSpace p.1) = Except.ok p.2 ∧
      inBandError (bytesTrimSpace p.1) = none) :
    ((newStream t d (responseOf status (linesBody (docs.map (fun p => p.1))))).receive
        (docs.length + 1)).1 =
      docs.map (fun p => RecvResult.value p.2) ++ [RecvResult.EOF] := by
  rw [receive_newStream]
  have h := answers_lines t.Unmarshal status ReadEnd.eof docs [] 1 hdocs
  rw [List.append_nil] at h
  exact h

/-- Witness of C14: two progress documents, handed over byte by byte. -/
theorem recv_lines_witness :
    ((newStream progress byteWise
        (responseOf 200 "\x7b\"status\":\"pulling\"\x7d\n\x7b\"status\":\"success\"\x7d\n".toList)).receive
        3).1 =
      [RecvResult.value { Status := some "pulling".toList },
       RecvResult.value { Status := some "success".toList }, RecvResult.EOF] :=
  recv_lines progress byteWise 200
    [("\x7b\"status\":\"pulling\"\x7d".toList, { Status := some "pulling".toList }),
     ("\x7b\"status\":\"success\"\x7d".toList, { Status := some "success".toList })]
    (by
      intro p hp
      simp only [List.mem_cons, List.mem_singleton, List.not_mem_nil, or_false] at hp
      rcases hp with rfl | rfl
      · exact ⟨by decide, rfl, rfl⟩
      · exact ⟨by decide, rfl, rfl⟩)

theorem answers_unterminated {T : Type} (decode : Str → Except GoError T) (status : Int)
    (n : Nat) (body : Str) (hne : body ≠ []) (hlast : ∀ a, body ≠ a ++ ['\n']) :
    answers decode status ReadEnd.eof n body =
      answers decode status ReadEnd.eof n (body ++ ['\n']) := by
  induction n generalizing body with
  | zero => rfl
  | succ n ih =>
    cases hc : cut ['\n'] body with
    | none =>
      have hn := cut_singleton_none _ _ hc
      rw [answers, answers, answer_of_last decode status _ body hn hne,
        answer_of_line decode status _ body [] hn]
    | some p =>
      obtain ⟨l, rest⟩ := p
      obtain ⟨e, hl⟩ := cut_singleton_some _ _ _ _ hc
      have hrest : rest ≠ [] := by
        intro h0
        rw [h0] at e
        exact hlast l e
      have hlast2 : ∀ a, rest ≠ a ++ ['\n'] := by
        intro a h0
        apply hlast (l ++ '\n' :: a)
        rw [e, h0]
        simp
      have e2 : body ++ ['\n'] = l ++ '\n' :: (rest ++ ['\n']) := by
        rw [e]
        simp
      rw [answers, answers, e2, answer_of_line decode status _ l _ hl]
      rw [e, answer_of_line decode status _ l _ hl]
      dsimp only
      rw [ih rest hrest hlast2]

/-- C15: for a body that is not empty and does not end in a line feed, the results of
the successive calls of `Recv` are those for the same body followed by a line feed,
however the two bodies are handed over. -/
theorem recv_unterminated_last_line {T : Type} (t : Json.Target T) (d1 d2 : Delivery)
    (status : Int) (body : Str) (n : Nat)
    (hne : body ≠ []) (hlast : ∀ a, body ≠ a ++ ['\n']) :
    ((newStream t d1 (responseOf status body)).receive n).1 =
      ((newStream t d2 (responseOf status (body ++ ['\n']))).receive n).1 := by
  rw [receive_newStream, receive_newStream]
  exact answers_unterminated t.Unmarshal status n body hne hlast

/-- Witness of C15: the last of two documents has no line feed after it. -/
theorem recv_unterminated_last_line_witness :
    ((newStream progress atOnce
        (responseOf 200 "\x7b\"status\":\"a\"\x7d\n\x7b\"status\":\"b\"\x7d".toList)).receive 3).1 =
      ((newStream progress byteWise
        (responseOf 200
          ("\x7b\"status\":\"a\"\x7d\n\x7b\"status\":\"b\"\x7d".toList ++ ['\n']))).receive 3).1 ∧
    ((newStream progress atOnce
        (responseOf 200 "\x7b\"status\":\"a\"\x7d\n\x7b\"status\":\"b\"\x7d".toList)).receive 3).1 =
      [RecvResult.value { Status := some "a".toList },
       RecvResult.value { Status := some "b".toList }, RecvResult.EOF] :=
  ⟨recv_unterminated_last_line progress atOnce byteWise 200
      "\x7b\"status\":\"a\"\x7d\n\x7b\"status\":\"b\"\x7d".toList 3 (by decide)
      (by
        intro a h
        have h2 := congrArg List.getLast? h
        rw [List.getLast?_append] at h2
        simp at h2),
    rfl⟩

/-- C16, as stated, fails: the line `{"error":"x","n":1e999}` is a JSON object with the
string `x` as its `error` member, and it decodes into a `ProgressResponse`; but `1e999`
fits no `float64`, so the line does not decode into the `map[string]any` in which `Recv`
looks for the member, and `Recv` returns the decoded value and no error. -/
theorem recv_error_line_unread :
    Json.parse "\x7b\"error\":\"x\",\"n\":1e999\x7d".toList =
      some (Json.Value.object
        [("error".toList, Json.Value.string "x".toList),
         ("n".toList, Json.Value.number "1e999".toList)]) ∧
    progress.Unmarshal "\x7b\"error\":\"x\",\"n\":1e999\x7d".toList = Except.ok {} ∧
    ((newStream progress atOnce
        (responseOf 200 "\x7b\"error\":\"x\",\"n\":1e999\x7d\n".toList)).receive 1).1 =
      [RecvResult.value {}] :=
  ⟨rfl, rfl, rfl⟩

theorem inBandError_of_member (line : Str) (members : List (Str × Json.Value)) (x : Str)
    (hparse : Json.parse line = some (Json.Value.object members))
    (hfit : Json.membersFit members = true)
    (hx : Json.mapIndex members "error".toList = some (Json.Value.string x))
    (hne : x ≠ []) : inBandError line = some x := by
  unfold inBandError Json.unmarshalMap
  rw [hparse]
  dsimp only
  rw [if_pos hfit]
  dsimp only
  rw [hx]
  dsimp only
  rw [if_pos hne]

theorem lineResult_error {T : Type} (decode : Str → Except GoError T) (status : Int)
    (line x : Str) (v : T) (hd : decode (bytesTrimSpace line) = Except.ok v)
    (he : inBandError (bytesTrimSpace line) = some x) :
    lineResult decode status line =
      RecvResult.failed (Error.response { Message := x, StatusCode := status }) := by
  unfold lineResult
  rw [hd]
  dsimp only
  rw [he]

theorem receive_newStream_failure {T : Type} (t : Json.Target T) (d : Delivery) (status : Int)
    (data : Str) (failure : Option GoError) (n : Nat) :
    ((newStream t d
        { StatusCode := status, Body := { data := data, failure := failure } }).receive n).1 =
      answers t.Unmarshal status
        (match failure with
          | none => ReadEnd.eof
          | some err => ReadEnd.failure err) n data :=
  receive_spec n _ (newStream_ready t d status data failure)

/-- C16, amended: let the first lines of the body be documents as in C14, and let the
next line decode into the expected type and be a JSON object whose numbers all fit a
`float64` and whose `error` entry, the last member of that name, is a string `x` that is
not empty.  Then the calls of `Recv` for the first lines return their values, and the
call for that line returns no value and the `ResponseError` with message `x` and the
status of the response, whatever follows the line and however the body ends. -/
theorem recv_error_line {T : Type} (t : Json.Target T) (d : Delivery) (status : Int)
    (docs : List (Str × T)) (line x rest : Str) (v : T) (members : List (Str × Json.Value))
    (failure : Option GoError)
    (hdocs : ∀ p ∈ docs, '\n' ∉ p.1 ∧ t.Unmarshal (bytesTrimSpace p.1) = Except.ok p.2 ∧
      inBandError (bytesTrimSpace p.1) = none)
    (hline : '\n' ∉ line)
    (hshape : t.Unmarshal (bytesTrimSpace line) = Except.ok v)
    (hparse : Json.parse (bytesTrimSpace line) = some (Json.Value.object members))
    (hfit : Json.membersFit members = true)
    (hx : Json.mapIndex members "error".toList = some (Json.Value.string x))
    (hne : x ≠ []) :
    ((newStream t d
        { StatusCode := status,
          Body := { data := linesBody (docs.map (fun p => p.1)) ++ (line ++ '\n' :: rest),
                    failure := failure } }).receive (docs.length + 1)).1 =
      docs.map (fun p => RecvResult.value p.2) ++
        [RecvResult.failed (Error.response { Message := x, StatusCode := status })] ∧
    (line ≠ [] →
      ((newStream t d
          { StatusCode := status,
            Body := { data := linesBody (docs.map (fun p => p.1)) ++ line,
                      failure := failure } }).receive (docs.length + 1)).1 =
        docs.map (fun p => RecvResult.value p.2) ++
          [RecvResult.failed (Error.response { Message := x, StatusCode := status })]) := by
  have herr := inBandError_of_member _ members x hparse hfit hx hne
  constructor
  · rw [receive_newStream_failure, answers_lines t.Unmarshal status _ docs _ 1 hdocs]
    rw [answers, answer_of_line _ _ _ _ _ hline, lineResult_error _ status line x v hshape herr]
    rfl
  · intro hlne
    rw [receive_newStream_failure, answers_lines t.Unmarshal status _ docs _ 1 hdocs]
    rw [answers, answer_of_last _ _ _ _ hline hlne,
      lineResult_error _ status line x v hshape herr]
    rfl

/-- Witness of C16: a progress document, then an `error` line, then another document. -/
theorem recv_error_line_witness :
    ((newStream progress atOnce
        { StatusCode := 200,
          Body := { data := linesBody (["\x7b\"status\":\"pulling\"\x7d".toList]) ++
                      ("\x7b\"error\":\"pull failed\"\x7d".toList ++ '\n' ::
                        "\x7b\"status\":\"success\"\x7d\n".toList),
                    failure := none } }).receive 2).1 =
      [RecvResult.value { Status := some "pulling".toList },
       RecvResult.failed (Error.response { Message := "pull failed".toList, StatusCode := 200 })] :=
  (recv_error_line progress atOnce 200
    [("\x7b\"status\":\"pulling\"\x7d".toList, { Status := some "pulling".toList })]
    "\x7b\"error\":\"pull failed\"\x7d".toList "pull failed".toList
    "\x7b\"status\":\"success\"\x7d\n".toList {}
    [("error".toList, Json.Value.string "pull failed".toList)] none
    (by
      intro p hp
      simp only [List.mem_singleton] at hp
      subst hp
      exact ⟨by decide, rfl, rfl⟩)
    (by decide) rfl rfl rfl rfl (by decide)).1

/-- C17 fails on the code: `Close` is `if s.closer == nil { return nil }` followed by
`return s.closer.Close()`, and nothing ever sets the closer to nil, so the guard does not
hold on the second call: on a stream made by `newStream`, one call closes the body of the
response once and two calls close it twice, where C17 requires exactly once. -/
theorem close_twice_closes_twice :
    ((newStream progress atOnce (responseOf 200 [])).closeTimes 1).resp.Body.closed = 1 ∧
    ((newStream progress atOnce (responseOf 200 [])).closeTimes 2).resp.Body.closed = 2 := by
  decide

theorem closeTimes_closed {T : Type} (n : Nat) (s : Stream T) (h : s.closer = true) :
    (s.closeTimes n).resp.Body.closed = s.resp.Body.closed + n ∧
      (s.closeTimes n).closer = true := by
  induction n generalizing s with
  | zero => exact ⟨rfl, h⟩
  | succ n ih =>
    have hc : (s.Close).2.closer = true := by simp [Stream.Close, h]
    have hn : (s.Close).2.resp.Body.closed = s.resp.Body.closed + 1 := by
      simp [Stream.Close, Body.Close, h]
    obtain ⟨a1, a2⟩ := ih (s.Close).2 hc
    refine ⟨?_, a2⟩
    show ((s.Close).2.closeTimes n).resp.Body.closed = _
    rw [a1, hn]
    omega

/-- How `Close` counts, for every stream: a call on a stream with a closer (as
`newStream` makes it) returns what the `Close` of the body returns, keeps the closer, and
closes the body of the response once more, so that after `n` calls the body has been
closed `n` times more; a stream without a closer returns nil and is left as it was. -/
theorem close_closes_each_time {T : Type} (s : Stream T) (n : Nat) :
    (s.closer = true → (s.Close).1 = s.resp.Body.closeFailure ∧ (s.Close).2.closer = true) ∧
    (s.closer = false → (s.Close).1 = none) ∧
    (s.closer = true → (s.closeTimes n).resp.Body.closed = s.resp.Body.closed + n) ∧
    (s.closer = false → s.closeTimes n = s) := by
  refine ⟨?_, ?_, ?_, ?_⟩
  · intro h
    simp [Stream.Close, Body.Close, h]
  · intro h
    simp [Stream.Close, h]
  · intro h
    exact (closeTimes_closed n s h).1
  · intro h
    induction n with
    | zero => rfl
    | succ n ih =>
      show (s.Close).2.closeTimes n = s
      have : (s.Close).2 = s := by simp [Stream.Close, h]
      rw [this]
      exact ih

/-- Three calls on a new stream close its body three times. -/
theorem close_closes_each_time_witness :
    ((newStream progress atOnce (responseOf 200 [])).closeTimes 3).resp.Body.closed = 3 :=
  ((close_closes_each_time (newStream progress atOnce (responseOf 200 [])) 3).2.2.1 rfl).trans
    (by decide)

/-- C18 fails on the code: `Recv` returns `io.EOF` at once only `if s.rd == nil`, and
`Close` never sets the reader to nil, so the guard does not hold after `Close`.  Both lines
of the body reach the buffer with the first call of `Recv`; after `Close` the next call of
`Recv` returns the value of the second line, not `io.EOF`.  The call after it finds the
buffer empty: it reads the closed body and returns the error of that read when the end of
the body has not reached the reader, and `io.EOF` when the end arrived together with the
last bytes. -/
theorem recv_after_close :
    ((((newStream progress atOnce
        (responseOf 200 "\x7b\"status\":\"a\"\x7d\n\x7b\"status\":\"b\"\x7d\n".toList)).Recv).2.Close).2.receive
        2).1 =
      [RecvResult.value { Status := some "b".toList },
       RecvResult.failed (Error.other errReadOnClosedBody)] ∧
    ((((newStream progress { size := fun unread => unread.length, withEnd := true }
        (responseOf 200 "\x7b\"status\":\"a\"\x7d\n\x7b\"status\":\"b\"\x7d\n".toList)).Recv).2.Close).2.receive
        2).1 =
      [RecvResult.value { Status := some "b".toList }, RecvResult.EOF] := by
  exact ⟨rfl, rfl⟩

theorem lineResult_ne_EOF {T : Type} (decode : Str → Except GoError T) (status : Int)
    (line : Str) : lineResult decode status line ≠ RecvResult.EOF := by
  unfold lineResult
  cases decode (bytesTrimSpace line) with
  | error err => simp
  | ok out =>
    dsimp only
    cases inBandError (bytesTrimSpace line) <;> simp

theorem Recv_buffered {T : Type} (s : Stream T) (rd : Reader) (line rest : Str)
    (hrd : s.rd = some rd) (hbuf : rd.buffered = line ++ '\n' :: rest) (hline : '\n' ∉ line) :
    (s.Recv).1 = lineResult s.decode s.resp.StatusCode (line ++ ['\n']) := by
  have hcut : cut ['\n'] rd.buffered = some (line, rest) := by
    rw [hbuf]
    exact cut_singleton_append '\n' line rest hline
  obtain ⟨c, cs, hl⟩ : ∃ c cs, line ++ ['\n'] = c :: cs := by
    cases line with
    | nil => exact ⟨_, _, rfl⟩
    | cons c cs => exact ⟨_, _, rfl⟩
  have hread : rd.ReadBytes (2 * s.resp.Body.data.length + 3) s.deliver [] s.resp.Body =
      ((c :: cs, none), { rd with buffered := rest }, s.resp.Body) := by
    rw [show 2 * s.resp.Body.data.length + 3 = (2 * s.resp.Body.data.length + 2) + 1 from rfl,
      Reader.ReadBytes, hcut]
    dsimp only
    rw [List.nil_append, hl]
  unfold Stream.Recv
  rw [hrd]
  dsimp only
  rw [hread, hl]
  unfold lineResult
  dsimp only
  cases s.decode (bytesTrimSpace (c :: cs)) with
  | error err => rfl
  | ok out =>
    dsimp only
    cases inBandError (bytesTrimSpace (c :: cs)) <;> rfl

/-- What `Recv` does after `Close`, for every stream: `Close` leaves the reader of the
stream in place, and a stream returns `io.EOF` at once when it has no reader.  After
`Close`, a call of `Recv` whose line is already in the buffer returns what it would have
returned without the `Close`, and never `io.EOF`; when the buffer is empty and the reader
has not yet met the end of the body, the call reads the closed body and returns the error
of that read. -/
theorem recv_after_close_reads_on {T : Type} (s : Stream T) (rd : Reader) (line rest : Str) :
    (s.Close).2.rd = s.rd ∧
    (s.rd = none → (s.Recv).1 = RecvResult.EOF) ∧
    (s.rd = some rd → rd.buffered = line ++ '\n' :: rest → '\n' ∉ line →
      ((s.Close).2.Recv).1 = (s.Recv).1 ∧
      ((s.Close).2.Recv).1 = lineResult s.decode s.resp.StatusCode (line ++ ['\n']) ∧
      ((s.Close).2.Recv).1 ≠ RecvResult.EOF) ∧
    (s.rd = some rd → rd.buffered = [] → rd.err = none → s.closer = true →
      ((s.Close).2.Recv).1 = RecvResult.failed (Error.other errReadOnClosedBody)) := by
  have hsame : (s.Close).2.rd = s.rd := by
    unfold Stream.Close
    split <;> rfl
  have hdecode : (s.Close).2.decode = s.decode := by
    unfold Stream.Close
    split <;> rfl
  have hstatus : (s.Close).2.resp.StatusCode = s.resp.StatusCode := by
    unfold Stream.Close
    split <;> rfl
  refine ⟨hsame, ?_, ?_, ?_⟩
  · intro h
    unfold Stream.Recv
    rw [h]
  · intro hrd hbuf hline
    have h1 := Recv_buffered (s.Close).2 rd line rest (hsame.trans hrd) hbuf hline
    have h2 := Recv_buffered s rd line rest hrd hbuf hline
    rw [hdecode, hstatus] at h1
    exact ⟨h1.trans h2.symm, h1, by rw [h1]; exact lineResult_ne_EOF _ _ _⟩
  · intro hrd hbuf herr hcloser
    have hclosed : (s.Close).2.resp.Body.closed ≠ 0 := by
      simp [Stream.Close, Body.Close, hcloser]
    have hcut : cut ['\n'] rd.buffered = none := by
      rw [hbuf]
      rfl
    have hsmall : ¬ defaultBufSize ≤ rd.buffered.length := by
      rw [hbuf]
      decide
    have hread : rd.ReadBytes (2 * (s.Close).2.resp.Body.data.length + 3) (s.Close).2.deliver []
        (s.Close).2.resp.Body =
        (([], some (ReadEnd.failure errReadOnClosedBody)), { buffered := [], err := none },
          (s.Close).2.resp.Body) := by
      rw [show 2 * (s.Close).2.resp.Body.data.length + 3 =
        ((2 * (s.Close).2.resp.Body.data.length + 1) + 1) + 1 from rfl,
        Reader.ReadBytes, hcut]
      dsimp only
      rw [herr]
      dsimp only
      rw [if_neg hsmall, Body_Read_closed _ _ _ hclosed]
      dsimp only
      rw [Reader.ReadBytes, hbuf]
      rfl
    unfold Stream.Recv
    rw [hsame.trans hrd]
    dsimp only
    rw [hread]

/-- The second line of the body is in the buffer when the stream is closed. -/
theorem recv_after_close_reads_on_witness :
    ((((newStream progress atOnce
        (responseOf 200 "\x7b\"status\":\"a\"\x7d\n\x7b\"status\":\"b\"\x7d\n".toList)).Recv).2.Close).2.Recv).1 =
      RecvResult.value { Status := some "b".toList } :=
  ((recv_after_close_reads_on
      ((newStream progress atOnce
        (responseOf 200 "\x7b\"status\":\"a\"\x7d\n\x7b\"status\":\"b\"\x7d\n".toList)).Recv).2
      { buffered := "\x7b\"status\":\"b\"\x7d\n".toList }
      "\x7b\"status\":\"b\"\x7d".toList []).2.2.1 rfl rfl (by decide)).2.1.trans rfl

/-! ## Streams: errors in the lines and in the reading -/

theorem lineResult_decode_error {T : Type} (decode : Str → Except GoError T) (status : Int)
    (line : Str) (err : GoError) (hd : decode (bytesTrimSpace line) = Except.error err) :
    lineResult decode status line = RecvResult.failed (Error.other err) := by
  unfold lineResult
  rw [hd]

theorem receive_after_line {T : Type} (t : Json.Target T) (d1 d2 : Delivery) (status : Int)
    (line rest : Str) (failure : Option GoError) (n : Nat) (h : '\n' ∉ line) :
    ((newStream t d1
        { StatusCode := status,
          Body := { data := line ++ '\n' :: rest, failure := failure } }).receive (n + 1)).1 =
      lineResult t.Unmarshal status line ::
        ((newStream t d2
          { StatusCode := status, Body := { data := rest, failure := failure } }).receive n).1 := by
  rw [receive_newStream_failure, receive_newStream_failure, answers, answer_of_line _ _ _ _ _ h]

theorem bytesTrimSpace_blank (blank : Str)
    (h : ∀ c ∈ blank, c = ' ' ∨ c = '\t' ∨ c = '\n' ∨ c = '\r') : bytesTrimSpace blank = [] := by
  unfold bytesTrimSpace
  dsimp only
  have : blank.dropWhile (fun c => c = ' ' || c = '\t' || c = '\n' || c = '\r') = [] := by
    rw [List.dropWhile_eq_nil_iff]
    intro c hc
    rcases h c hc with rfl | rfl | rfl | rfl <;> decide
  rw [this]
  rfl

/-- C29: when a line does not decode into the expected type, `Recv` returns the error of
the decoding, which is neither a `ResponseError` nor `io.EOF`, and no value; the calls
that follow return what a stream over the rest of the body returns, so that the next call
returns the value of the next line when that line is a valid document. -/
theorem recv_decode_error {T : Type} (t : Json.Target T) (d1 d2 : Delivery) (status : Int)
    (line rest : Str) (failure : Option GoError) (err : GoError) (n : Nat)
    (hline : '\n' ∉ line)
    (hdecode : t.Unmarshal (bytesTrimSpace line) = Except.error err) :
    ((newStream t d1
        { StatusCode := status,
          Body := { data := line ++ '\n' :: rest, failure := failure } }).receive (n + 1)).1 =
      RecvResult.failed (Error.other err) ::
        ((newStream t d2
          { StatusCode := status, Body := { data := rest, failure := failure } }).receive n).1 ∧
    (∀ next after v, rest = next ++ '\n' :: after → '\n' ∉ next →
      t.Unmarshal (bytesTrimSpace next) = Except.ok v → inBandError (bytesTrimSpace next) = none →
      ((newStream t d1
          { StatusCode := status,
            Body := { data := line ++ '\n' :: rest, failure := failure } }).receive 2).1 =
        [RecvResult.failed (Error.other err), RecvResult.value v]) := by
  constructor
  · rw [receive_after_line t d1 d2 status line rest failure n hline,
      lineResult_decode_error _ _ _ err hdecode]
  · intro next after v hrest hnext hv hnone
    rw [receive_after_line t d1 d1 status line rest failure 1 hline,
      lineResult_decode_error _ _ _ err hdecode, hrest,
      receive_after_line t d1 d1 status next after failure 0 hnext,
      lineResult_value _ _ _ v hv hnone]
    rfl

/-- Witness of C29: a line that is no JSON text, then a progress document. -/
theorem recv_decode_error_witness :
    ((newStream progress byteWise
        { StatusCode := 200,
          Body := { data := "oops".toList ++ '\n' :: "\x7b\"status\":\"success\"\x7d\n".toList,
                    failure := none } }).receive 2).1 =
      [RecvResult.failed (Error.other (GoError.leaf [])),
       RecvResult.value { Status := some "success".toList }] :=
  (recv_decode_error progress byteWise byteWise 200 "oops".toList
    "\x7b\"status\":\"success\"\x7d\n".toList none (GoError.leaf []) 1 (by decide) rfl).2
    "\x7b\"status\":\"success\"\x7d".toList [] { Status := some "success".toList } rfl
    (by decide) rfl rfl

/-- C30: for a line that is empty or holds only spaces, tabs and carriage returns, and
for every expected type, `Recv` returns the syntax error that `json.Unmarshal` reports for
an empty text, and no value; the line is neither passed over nor taken for the end of the
stream, and the calls that follow return what a stream over the rest of the body
returns.  The same holds for such a line, not empty, that ends the body without a line
feed. -/
theorem recv_blank_line {T : Type} (t : Json.Target T) (d1 d2 : Delivery) (status : Int)
    (blank rest : Str) (failure : Option GoError) (n : Nat)
    (hblank : ∀ c ∈ blank, c = ' ' ∨ c = '\t' ∨ c = '\r') :
    ((newStream t d1
        { StatusCode := status,
          Body := { data := blank ++ '\n' :: rest, failure := failure } }).receive (n + 1)).1 =
      RecvResult.failed (Error.other (t.syntaxError [])) ::
        ((newStream t d2
          { StatusCode := status, Body := { data := rest, failure := failure } }).receive n).1 ∧
    (blank ≠ [] →
      ((newStream t d1
          { StatusCode := status,
            Body := { data := blank, failure := failure } }).receive 1).1 =
        [RecvResult.failed (Error.other (t.syntaxError []))]) := by
  have hline : '\n' ∉ blank := by
    intro hmem
    rcases hblank _ hmem with h | h | h <;> exact absurd h (by decide)
  have htrim : bytesTrimSpace blank = [] :=
    bytesTrimSpace_blank blank (fun c hc => by
      rcases hblank c hc with h | h | h
      · exact Or.inl h
      · exact Or.inr (Or.inl h)
      · exact Or.inr (Or.inr (Or.inr h)))
  have hdecode : t.Unmarshal (bytesTrimSpace blank) = Except.error (t.syntaxError []) := by
    rw [htrim]
    rfl
  constructor
  · rw [receive_after_line t d1 d2 status blank rest failure n hline,
      lineResult_decode_error _ _ _ _ hdecode]
  · intro hne
    rw [receive_newStream_failure, answers, answer_of_last _ _ _ _ hline hne,
      lineResult_decode_error _ _ _ _ hdecode]
    rfl

/-- Witness of C30: a blank line between two progress documents. -/
theorem recv_blank_line_witness :
    ((newStream progress atOnce
        { StatusCode := 200,
          Body := { data := "\x7b\"status\":\"a\"\x7d\n".toList ++
                      (" \t\r".toList ++ '\n' :: "\x7b\"status\":\"b\"\x7d\n".toList),
                    failure := none } }).receive 4).1 =
      [RecvResult.value { Status := some "a".toList },
       RecvResult.failed (Error.other (GoError.leaf [])),
       RecvResult.value { Status := some "b".toList }, RecvResult.EOF] :=
  (receive_after_line progress atOnce atOnce 200 "\x7b\"status\":\"a\"\x7d".toList
    (" \t\r".toList ++ '\n' :: "\x7b\"status\":\"b\"\x7d\n".toList) none 3 (by decide)).trans
    (congrArg (fun l => RecvResult.value ({ Status := some "a".toList } : ProgressResponse) :: l)
      (((recv_blank_line progress atOnce atOnce 200 " \t\r".toList
        "\x7b\"status\":\"b\"\x7d\n".toList none 2
        (by
          intro c hc
          simp only [String.toList, List.mem_cons, List.mem_singleton, List.not_mem_nil,
            or_false] at hc
          rcases hc with h | h | h
          · exact Or.inl h
          · exact Or.inr (Or.inl h)
          · exact Or.inr (Or.inr h))).1).trans rfl))

/-- C24, as stated, fails: after the call of `Recv` that has returned the `ResponseError`
of an `error` line, the next call returns the value of the line that follows it. -/
theorem recv_goes_on_after_error :
    ((newStream progress atOnce
        (responseOf 200
          ("\x7b\"status\":\"a\"\x7d\n\x7b\"error\":\"boom\"\x7d\n".toList ++
            "\x7b\"status\":\"b\"\x7d\n".toList))).receive 4).1 =
      [RecvResult.value { Status := some "a".toList },
       RecvResult.failed (Error.response { Message := "boom".toList, StatusCode := 200 }),
       RecvResult.value { Status := some "b".toList }, RecvResult.EOF] := by
  rfl

/-- C24, amended: an `error` line does not end the stream.  The call of `Recv` for it
returns the `ResponseError`, and the calls that follow return what a stream over the rest
of the body returns: the documents after the `error` line are delivered, in order. -/
theorem recv_after_error_line {T : Type} (t : Json.Target T) (d1 d2 : Delivery) (status : Int)
    (line x rest : Str) (v : T) (failure : Option GoError) (n : Nat)
    (hline : '\n' ∉ line)
    (hshape : t.Unmarshal (bytesTrimSpace line) = Except.ok v)
    (herror : inBandError (bytesTrimSpace line) = some x) :
    ((newStream t d1
        { StatusCode := status,
          Body := { data := line ++ '\n' :: rest, failure := failure } }).receive (n + 1)).1 =
      RecvResult.failed (Error.response { Message := x, StatusCode := status }) ::
        ((newStream t d2
          { StatusCode := status, Body := { data := rest, failure := failure } }).receive n).1 := by
  rw [receive_after_line t d1 d2 status line rest failure n hline,
    lineResult_error _ _ _ x v hshape herror]

/-- Witness of C24: the document after an `error` line is delivered. -/
theorem recv_after_error_line_witness :
    ((newStream progress byteWise
        { StatusCode := 200,
          Body := { data := "\x7b\"error\":\"boom\"\x7d".toList ++ '\n' ::
                      "\x7b\"status\":\"b\"\x7d\n".toList,
                    failure := none } }).receive 2).1 =
      [RecvResult.failed (Error.response { Message := "boom".toList, StatusCode := 200 }),
       RecvResult.value { Status := some "b".toList }] :=
  (recv_after_error_line progress byteWise atOnce 200 "\x7b\"error\":\"boom\"\x7d".toList
    "boom".toList "\x7b\"status\":\"b\"\x7d\n".toList {} none 1 (by decide) rfl rfl).trans rfl

/-- For every fragment of a line that is not empty, `Recv` returns what it makes of the
fragment, and the failure of the reading is returned by the next call. -/
theorem recv_partial_line {T : Type} (t : Json.Target T) (d : Delivery) (status : Int)
    (fragment : Str) (err : GoError) (hne : fragment ≠ []) (hline : '\n' ∉ fragment) :
    ((newStream t d
        { StatusCode := status,
          Body := { data := fragment, failure := some err } }).receive 2).1 =
      [lineResult t.Unmarshal status fragment, RecvResult.failed (Error.other err)] := by
  rw [receive_newStream_failure, answers, answer_of_last _ _ _ _ hline hne]
  rfl

/-- C25 fails on the code: when the reading fails after some bytes of a line, `Recv`
decodes those bytes and drops the failure, which only the next call returns.  Here the
context is cancelled after `{"status":"pulling"}` (the line feed has not arrived) and
`Recv` returns the value; it is cancelled after `{"status":` and `Recv` returns the
syntax error of the fragment, not the cancellation. -/
theorem recv_decodes_partial_line :
    ((newStream progress atOnce
        { StatusCode := 200,
          Body := { data := "\x7b\"status\":\"pulling\"\x7d".toList,
                    failure := some errCanceled } }).receive 2).1 =
      [RecvResult.value { Status := some "pulling".toList },
       RecvResult.failed (Error.other errCanceled)] ∧
    ((newStream progress atOnce
        { StatusCode := 200,
          Body := { data := "\x7b\"status\":".toList,
                    failure := some errCanceled } }).receive 2).1 =
      [RecvResult.failed (Error.other (progress.syntaxError "\x7b\"status\":".toList)),
       RecvResult.failed (Error.other errCanceled)] := by
  exact ⟨rfl, rfl⟩

/-! ## `parseHost`: inputs without brackets or without a host -/

/-- C26 fails on the code: for `::1` the result of `parseHost` is `http://[:]:1`.  The
last group of the address is taken for a port, the rest for the host, and the brackets
are put around that rest. -/
theorem parseHost_bare_ipv6 :
    Ollama.parseHost "::1".toList = "http://[:]:1".toList ∧
    Ollama.parseHost "::1".toList ≠ "http://[::1]:11434".toList := by
  decide

/-- C27 fails on the code: `url.Parse` accepts a URL without a host, so that no fallback
takes place and the result has an empty host. -/
theorem parseHost_empty_host :
    Ollama.parseHost "http://".toList = "http://:80".toList ∧
    Ollama.parseHost "/path".toList = "http://:11434/path".toList ∧
    Ollama.parseHost "https://".toList = "https://:443".toList := by
  decide

/-! ## `requestJSON`: the document that is decoded -/

/-- The end of the first value for `Decoder.Decode`: a literal, a number or a string ends
with the byte after it, whatever that byte is, and a number that begins with `0` ends
after the `0`; `Unmarshal`, which takes the whole text, rejects the same texts. -/
theorem Decode_first_value {T : Type} (t : Json.Target T) :
    t.Decode { data := "truex".toList } = t.shape (Json.Value.bool true) ∧
    t.Decode { data := "1x".toList } = t.shape (Json.Value.number "1".toList) ∧
    t.Decode { data := "01".toList } = t.shape (Json.Value.number "0".toList) ∧
    t.Decode { data := "\"a\"b".toList } = t.shape (Json.Value.string "a".toList) ∧
    t.Unmarshal "truex".toList = Except.error (t.syntaxError "truex".toList) ∧
    t.Unmarshal "01".toList = Except.error (t.syntaxError "01".toList) := by
  exact ⟨rfl, rfl, rfl, rfl, rfl, rfl⟩

/-- C28 fails on the code: `requestJSON` decodes one document with `Decoder.Decode`, the
first of the body.  For a body of two progress documents `Pull`, `Push` and `Create`
return the first, `pulling`, not the last, `success`. -/
theorem pull_returns_first_document :
    ((stubClient 200 "\x7b\"status\":\"pulling\"\x7d\n\x7b\"status\":\"success\"\x7d\n".toList).Pull
        unsetEnv progress { Model := "m".toList }).result =
      Except.ok { Status := some "pulling".toList } ∧
    ((stubClient 200 "\x7b\"status\":\"pulling\"\x7d\n\x7b\"status\":\"success\"\x7d\n".toList).Push
        unsetEnv progress { Model := "m".toList }).result =
      Except.ok { Status := some "pulling".toList } ∧
    ((stubClient 200 "\x7b\"status\":\"pulling\"\x7d\n\x7b\"status\":\"success\"\x7d\n".toList).Create
        unsetEnv progress { Model := "m".toList }).result =
      Except.ok { Status := some "pulling".toList } := by
  exact ⟨rfl, rfl, rfl⟩

/-! ## The operations when the server cannot be reached -/

theorem exchange_unreachable (env : Env) (c : Client) (method path : Str) (body : Option Str)
    (headers : Header) (h : serverDown env c) :
    (c.exchange env method path body headers).result = connectionError := by
  obtain ⟨hnew, hdown⟩ := h
  obtain ⟨err, herr, hconn⟩ := hdown (c.request method path body headers)
  show c.do env method path body headers = _
  unfold Client.do
  rw [hnew]
  dsimp only
  rw [herr]
  dsimp only
  rw [if_pos hconn]
  rfl

theorem requestJSON_unreachable {Res : Type} (env : Env) (c : Client) (t : Json.Target Res)
    (method path : Str) (input : Option Json.Encoded) (h : serverDown env c)
    (hin : ∀ m, input = some m → serialises m) :
    (requestJSON env c t method path input).result = connectionError := by
  unfold requestJSON
  cases input with
  | none =>
    dsimp only
    rw [exchange_unreachable env c _ _ _ _ h]
    rfl
  | some m =>
    obtain ⟨b, hb⟩ := hin m rfl
    subst hb
    dsimp only
    rw [exchange_unreachable env c _ _ _ _ h]
    rfl

/-- C21 fails on the code: when the server cannot be reached, `do` returns the
`ConnectionError`, but `Delete` and `Copy` replace every error of `do` by the status
"error" with a nil error, the `ConnectionError` included, where every other operation
(here `Show`) returns it. -/
theorem delete_copy_hide_connection_error :
    (failingClient (GoError.urlError "Post".toList [] (GoError.errno ECONNREFUSED))).do unsetEnv
        "DELETE".toList "/api/delete".toList none [] =
      Except.error (Error.connection { Message := connectionErrorMessage }) ∧
    ((failingClient (GoError.urlError "Post".toList [] (GoError.errno ECONNREFUSED))).Delete
        unsetEnv "m".toList).result = Except.ok { Status := some "error".toList } ∧
    ((failingClient (GoError.urlError "Post".toList [] (GoError.errno ECONNREFUSED))).Copy
        unsetEnv "a".toList "b".toList).result = Except.ok { Status := some "error".toList } ∧
    ((failingClient (GoError.urlError "Post".toList [] (GoError.errno ECONNREFUSED))).Show
        unsetEnv progress "m".toList).result = connectionError := by
  exact ⟨rfl, rfl, rfl, rfl⟩

/-- The operations when the server cannot be reached, for every client and environment:
every operation that performs a request, `Delete` and `Copy` apart, returns the
`ConnectionError` with the fixed message (for a request that names a model and can be
serialised, and for a file that can be read); `Delete` and `Copy` return the status
"error" and no error. -/
theorem operations_when_unreachable {Res T : Type} (fs : FS) (env : Env) (c : Client)
    (t : Json.Target Res) (u : Json.Target T) (d : Delivery)
    (g : GenerateRequest) (ch : ChatRequest) (e : EmbedRequest) (es : EmbeddingsRequest)
    (pl : PullRequest) (ps : PushRequest) (cr : CreateRequest)
    (model source destination path : Str) (f : File)
    (h : serverDown env c) :
    (g.Model ≠ [] → serialises g.marshal → (c.Generate env t g).result = connectionError) ∧
    (g.Model ≠ [] → serialises ({ g with Stream := some true } : GenerateRequest).marshal →
      (c.GenerateStream env u d g).result = connectionError) ∧
    (ch.Model ≠ [] → serialises ch.marshal → (c.Chat env t ch).result = connectionError) ∧
    (ch.Model ≠ [] → serialises ({ ch with Stream := some true } : ChatRequest).marshal →
      (c.ChatStream env u d ch).result = connectionError) ∧
    (e.Model ≠ [] → serialises e.marshal → (c.Embed env t e).result = connectionError) ∧
    (es.Model ≠ [] → serialises es.marshal → (c.Embeddings env t es).result = connectionError) ∧
    (pl.Model ≠ [] → serialises pl.marshal → (c.Pull env t pl).result = connectionError) ∧
    (pl.Model ≠ [] → serialises ({ pl with Stream := some true } : PullRequest).marshal →
      (c.PullStream env u d pl).result = connectionError) ∧
    (ps.Model ≠ [] → serialises ps.marshal → (c.Push env t ps).result = connectionError) ∧
    (ps.Model ≠ [] → serialises ({ ps with Stream := some true } : PushRequest).marshal →
      (c.PushStream env u d ps).result = connectionError) ∧
    (cr.Model ≠ [] → serialises cr.marshal → (c.Create env t cr).result = connectionError) ∧
    (cr.Model ≠ [] → serialises ({ cr with Stream := some true } : CreateRequest).marshal →
      (c.CreateStream env u d cr).result = connectionError) ∧
    (c.List env t).result = connectionError ∧
    (c.Show env t model).result = connectionError ∧
    (c.PS env t).result = connectionError ∧
    (fs.Open path = Except.ok f → f.readFailure = none → f.seekFailure = none →
      (c.CreateBlob fs env path).result = connectionError) ∧
    (c.Delete env model).result = Except.ok { Status := some "error".toList } ∧
    (c.Copy env source destination).result = Except.ok { Status := some "error".toList } := by
  have hjson : ∀ (method path : Str) (m : Json.Encoded), serialises m →
      (requestJSON env c t method path (some m)).result = connectionError :=
    fun method path m hm =>
      requestJSON_unreachable env c t method path (some m) h
        (fun m2 h2 => by rw [← Option.some.inj h2]; exact hm)
  refine ⟨?_, ?_, ?_, ?_, ?_, ?_, ?_, ?_, ?_, ?_, ?_, ?_, ?_, ?_, ?_, ?_, ?_, ?_⟩
  · intro hm hs
    unfold Client.Generate
    rw [ensureModel_named _ hm]
    exact hjson _ _ _ hs
  · intro hm hs
    unfold Client.GenerateStream
    rw [ensureModel_named _ hm]
    obtain ⟨b, hb⟩ := hs
    rw [hb]
    dsimp only
    rw [exchange_unreachable env c _ _ _ _ h]
    rfl
  · intro hm hs
    unfold Client.Chat
    rw [ensureModel_named _ hm]
    exact hjson _ _ _ hs
  · intro hm hs
    unfold Client.ChatStream
    rw [ensureModel_named _ hm]
    obtain ⟨b, hb⟩ := hs
    rw [hb]
    dsimp only
    rw [exchange_unreachable env c _ _ _ _ h]
    rfl
  · intro hm hs
    unfold Client.Embed
    rw [ensureModel_named _ hm]
    exact hjson _ _ _ hs
  · intro hm hs
    unfold Client.Embeddings
    rw [ensureModel_named _ hm]
    exact hjson _ _ _ hs
  · intro hm hs
    unfold Client.Pull
    rw [ensureModel_named _ hm]
    exact hjson _ _ _ hs
  · intro hm hs
    unfold Client.PullStream
    rw [ensureModel_named _ hm]
    obtain ⟨b, hb⟩ := hs
    rw [hb]
    dsimp only
    rw [exchange_unreachable env c _ _ _ _ h]
    rfl
  · intro hm hs
    unfold Client.Push
    rw [ensureModel_named _ hm]
    exact hjson _ _ _ hs
  · intro hm hs
    unfold Client.PushStream
    rw [ensureModel_named _ hm]
    obtain ⟨b, hb⟩ := hs
    rw [hb]
    dsimp only
    rw [exchange_unreachable env c _ _ _ _ h]
    rfl
  · intro hm hs
    unfold Client.Create
    rw [ensureModel_named _ hm]
    exact hjson _ _ _ hs
  · intro hm hs
    unfold Client.CreateStream
    rw [ensureModel_named _ hm]
    obtain ⟨b, hb⟩ := hs
    rw [hb]
    dsimp only
    rw [exchange_unreachable env c _ _ _ _ h]
    rfl
  · exact requestJSON_unreachable env c t _ _ none h (fun m hm => by simp at hm)
  · exact hjson _ _ _ ⟨_, rfl⟩
  · exact requestJSON_unreachable env c t _ _ none h (fun m hm => by simp at hm)
  · intro hopen hread hseek
    unfold Client.CreateBlob
    rw [hopen]
    dsimp only
    rw [hread]
    dsimp only
    rw [hseek]
    dsimp only
    rw [exchange_unreachable env c _ _ _ _ h]
    rfl
  · unfold Client.Delete
    dsimp only
    rw [exchange_unreachable env c _ _ _ _ h]
    rfl
  · unfold Client.Copy
    dsimp only
    rw [exchange_unreachable env c _ _ _ _ h]
    rfl

/-- A client whose connections are refused. -/
theorem operations_when_unreachable_witness :
    ((failingClient (GoError.urlError "Post".toList [] (GoError.errno ECONNREFUSED))).Generate
        unsetEnv progress { Model := "m".toList }).result = connectionError ∧
    ((failingClient (GoError.urlError "Post".toList [] (GoError.errno ECONNREFUSED))).PullStream
        unsetEnv progress atOnce { Model := "m".toList }).result = connectionError ∧
    ((failingClient (GoError.urlError "Post".toList [] (GoError.errno ECONNREFUSED))).CreateBlob
        (fileAt "blob".toList "abc".toList) unsetEnv "blob".toList).result = connectionError :=
  have h : serverDown unsetEnv
      (failingClient (GoError.urlError "Post".toList [] (GoError.errno ECONNREFUSED))) :=
    ⟨fun _ _ => rfl, fun _ => ⟨_, rfl, by decide⟩⟩
  have all := operations_when_unreachable (fileAt "blob".toList "abc".toList) unsetEnv
    (failingClient (GoError.urlError "Post".toList [] (GoError.errno ECONNREFUSED)))
    progress progress atOnce { Model := "m".toList } { Model := "m".toList }
    { Model := "m".toList } { Model := "m".toList } { Model := "m".toList }
    { Model := "m".toList } { Model := "m".toList } "m".toList "a".toList "b".toList
    "blob".toList { data := "abc".toList } h
  ⟨all.1 (by decide) ⟨_, rfl⟩, all.2.2.2.2.2.2.2.1 (by decide) ⟨_, rfl⟩,
    all.2.2.2.2.2.2.2.2.2.2.2.2.2.2.2.1 rfl rfl rfl⟩

/-! ## `CreateBlob` -/

theorem dropWhile_nil_mem (p : Char → Bool) (l : Str) (h : l.dropWhile p = []) :
    ∀ c ∈ l, p c = true := by
  rw [List.dropWhile_eq_nil_iff] at h
  exact h

theorem dropWhile_cons_mem (p : Char → Bool) (l rest : Str) (d : Char)
    (h : l.dropWhile p = d :: rest) : ∀ c ∈ l, p c = true ∨ c = d ∨ c ∈ rest := by
  intro c hc
  rw [← List.takeWhile_append_dropWhile p l, h, List.mem_append, List.mem_cons] at hc
  rcases hc with h1 | h1 | h1
  · exact Or.inl (List.mem_takeWhile_imp h1)
  · exact Or.inr (Or.inl h1)
  · exact Or.inr (Or.inr h1)

/-- The characters of a text that the decoder accepts. -/
theorem validFrom_chars (s : Str) (j : Nat) (h : Base64.validFrom s j = true) :
    ∀ c ∈ s, c ∈ Base64.alphabet ∨ Base64.newline c = true ∨ c = '=' := by
  induction s generalizing j with
  | nil => intro c hc; simp at hc
  | cons x xs ih =>
    intro c hc
    rw [Base64.validFrom] at h
    by_cases h1 : x ∈ Base64.alphabet
    · rw [if_pos h1] at h
      rcases List.mem_cons.mp hc with rfl | h2
      · exact Or.inl h1
      · exact ih _ h c h2
    · rw [if_neg h1] at h
      by_cases h2 : Base64.newline x = true
      · rw [if_pos h2] at h
        rcases List.mem_cons.mp hc with rfl | h3
        · exact Or.inr (Or.inl h2)
        · exact ih _ h c h3
      · rw [if_neg h2] at h
        by_cases h3 : x = '='
        · rw [if_pos h3] at h
          rcases List.mem_cons.mp hc with rfl | h4
          · exact Or.inr (Or.inr h3)
          · by_cases hj2 : j = 2
            · rw [if_pos hj2] at h
              cases hd : xs.dropWhile Base64.newline with
              | nil => rw [hd] at h; simp at h
              | cons d rest =>
                rw [hd] at h
                simp only [Bool.and_eq_true, decide_eq_true_eq, List.isEmpty_iff] at h
                rcases dropWhile_cons_mem _ _ _ _ hd c h4 with h5 | h5 | h5
                · exact Or.inr (Or.inl h5)
                · exact Or.inr (Or.inr (h5.trans h.1))
                · exact Or.inr (Or.inl (dropWhile_nil_mem _ _ h.2 c h5))
            · rw [if_neg hj2] at h
              by_cases hj3 : j = 3
              · rw [if_pos hj3] at h
                simp only [List.isEmpty_iff] at h
                exact Or.inr (Or.inl (dropWhile_nil_mem _ _ h c h4))
              · rw [if_neg hj3] at h
                simp at h
        · rw [if_neg h3] at h
          simp at h

theorem appendString_safe (s : Str) (h : ∀ c ∈ s, Json.htmlSafe c = true) :
    Json.appendString s 0 true = s := by
  induction s with
  | nil => rfl
  | cons x xs ih =>
    have hx := h x (List.mem_cons_self _ _)
    have hlt : x.toNat < 128 := by
      simp only [Json.htmlSafe, Bool.and_eq_true, decide_eq_true_eq] at hx
      exact hx.1.1.1.1.1.2
    rw [Json.appendString]
    rw [if_pos hlt, if_pos hx, ih (fun c hc => h c (List.mem_cons_of_mem _ hc))]
    rfl

theorem alphabet_safe : ∀ c ∈ Base64.alphabet, Json.htmlSafe c = true := by decide

/-- C23, as stated, fails: `/dev/null` names a device, a file that exists and is not a
regular file; the string has no image suffix and `base64.StdEncoding` does not accept it,
yet `MarshalJSON` does not fail: the test of the code is `!fi.IsDir()`, so the device is
read as a file and the result is the base64 text of what the read gives (here nothing). -/
theorem image_text_device :
    (deviceAt "/dev/null".toList []).Stat "/dev/null".toList =
      Except.ok { isDir := false, isRegular := false } ∧
    imageSuffix (Strings.toLower "/dev/null".toList) = false ∧
    Base64.valid "/dev/null".toList = false ∧
    Image.MarshalJSON (deviceAt "/dev/null".toList [])
        { Value := ImageValue.text "/dev/null".toList } =
      Except.ok "\"\"".toList := by
  exact ⟨rfl, by decide, by decide, rfl⟩

/-- C23, amended: the test of the code is whether `os.Stat` succeeds on `v` and reports
no directory.  For an `Image` that holds a string `v` for which `os.Stat` fails or reports
a directory (`v` names no existing file, or names a directory), `MarshalJSON` fails if and
only if the lower case of `v` ends in `.png`, `.jpg`, `.jpeg` or `.webp`, or
`base64.StdEncoding` does not accept `v`; and when it succeeds the output is
`json.Marshal(v)`, which is `v` between quotes when `v` holds no line feed or carriage
return.  For a string `v` that names an existing file other than a directory, regular or
not, `MarshalJSON` returns the error of `os.ReadFile` when the reading fails, and else the
JSON string of the base64 text of the contents. -/
theorem image_text_marshal (fs : FS) (v : Str) :
    ((∀ fi, fs.Stat v = Except.ok fi → fi.isDir = true) →
      ((∃ err, Image.MarshalJSON fs { Value := ImageValue.text v } = Except.error err) ↔
        (imageSuffix (Strings.toLower v) = true ∨ Base64.valid v = false)) ∧
      (∀ out, Image.MarshalJSON fs { Value := ImageValue.text v } = Except.ok out →
        out = Json.encodeString v ∧
        ('\n' ∉ v → '\r' ∉ v → out = Json.quote :: v ++ [Json.quote]))) ∧
    (∀ fi, fs.Stat v = Except.ok fi → fi.isDir = false →
      (∀ err, fs.ReadFile v = Except.error err →
        Image.MarshalJSON fs { Value := ImageValue.text v } = Except.error err) ∧
      (∀ data, fs.ReadFile v = Except.ok data →
        Image.MarshalJSON fs { Value := ImageValue.text v } =
          Except.ok (Json.encodeString (Base64.encode data)))) := by
  refine ⟨fun hfile => ?_, fun fi hs hd => ⟨fun err hr => ?_, fun data hr => ?_⟩⟩
  · have hnofile : (match fs.Stat v with
        | Except.ok fi =>
          if fi.isDir = false then
            match fs.ReadFile v with
            | Except.error err => some (Except.error err)
            | Except.ok b => some (Json.ofString (Base64.encode b))
          else none
        | Except.error _ => (none : Option Json.Encoded)) = none := by
      cases hs : fs.Stat v with
      | error e => rfl
      | ok fi =>
        dsimp only
        rw [if_neg (by rw [hfile fi hs]; decide)]
    have hform : Image.MarshalJSON fs { Value := ImageValue.text v } =
        if imageSuffix (Strings.toLower v) then
          Except.error (GoError.leaf ("File ".toList ++ v ++ " does not exist".toList))
        else if Base64.valid v then Json.ofString v
        else
          Except.error (GoError.leaf
            "Invalid image data, expected base64 string or path to image file".toList) := by
      unfold Image.MarshalJSON
      dsimp only
      rw [hnofile]
    rw [hform]
    by_cases h1 : imageSuffix (Strings.toLower v) = true
    · rw [if_pos h1]
      refine ⟨⟨fun _ => Or.inl h1, fun _ => ⟨_, rfl⟩⟩, ?_⟩
      intro out h
      exact absurd h (by simp)
    · rw [if_neg h1]
      by_cases h2 : Base64.valid v = true
      · rw [if_pos h2]
        refine ⟨⟨fun ⟨err, h⟩ => absurd h (by simp [Json.ofString]), fun h => ?_⟩, ?_⟩
        · rcases h with h | h
          · exact absurd h h1
          · rw [h2] at h; exact absurd h (by decide)
        · intro out h
          have hout : out = Json.encodeString v := (Except.ok.inj h).symm
          refine ⟨hout, fun hn hr => ?_⟩
          rw [hout]
          unfold Json.encodeString
          rw [appendString_safe v]
          intro c hc
          rcases validFrom_chars v 0 h2 c hc with h3 | h3 | h3
          · exact alphabet_safe c h3
          · simp only [Base64.newline, Bool.or_eq_true, decide_eq_true_eq] at h3
            rcases h3 with h3 | h3
            · rw [h3] at hc; exact absurd hc hn
            · rw [h3] at hc; exact absurd hc hr
          · rw [h3]; decide
      · rw [if_neg h2]
        refine ⟨⟨fun _ => Or.inr (by simpa using h2), fun _ => ⟨_, rfl⟩⟩, ?_⟩
        intro out h
        exact absurd h (by simp)
  · unfold Image.MarshalJSON
    dsimp only
    rw [hs]
    dsimp only
    rw [if_pos hd, hr]
  · unfold Image.MarshalJSON
    dsimp only
    rw [hs]
    dsimp only
    rw [if_pos hd, hr]
    rfl

/-- Witness of C23, amended: the strings of the tests and a base64 string, none of which
names a file, and the path of a file that holds `abc`. -/
theorem image_text_marshal_witness :
    Image.MarshalJSON (fileAt "blob".toList "abc".toList)
        { Value := ImageValue.text "aGVsbG8gd29ybGQ=".toList } =
      Except.ok "\"aGVsbG8gd29ybGQ=\"".toList ∧
    (∃ err, Image.MarshalJSON (fileAt "blob".toList "abc".toList)
        { Value := ImageValue.text "@@notbase64@@".toList } = Except.error err) ∧
    (∃ err, Image.MarshalJSON (fileAt "blob".toList "abc".toList)
        { Value := ImageValue.text "/definitely/not/there.PNG".toList } = Except.error err) ∧
    Image.MarshalJSON (fileAt "blob".toList "abc".toList)
        { Value := ImageValue.text "blob".toList } = Except.ok "\"YWJj\"".toList :=
  have hno : ∀ v : Str, v ≠ "blob".toList →
      ∀ fi, (fileAt "blob".toList "abc".toList).Stat v = Except.ok fi → fi.isDir = true := by
    intro v hv fi h
    have hstat : (fileAt "blob".toList "abc".toList).Stat v =
        Except.error (GoError.leaf "no such file or directory".toList) := if_neg hv
    rw [hstat] at h
    cases h
  ⟨by
      have h := ((image_text_marshal (fileAt "blob".toList "abc".toList)
        "aGVsbG8gd29ybGQ=".toList).1 (hno _ (by decide))).2 _ rfl
      exact (congrArg Except.ok (h.2 (by decide) (by decide))).symm ▸ rfl,
    ((image_text_marshal (fileAt "blob".toList "abc".toList) "@@notbase64@@".toList).1
      (hno _ (by decide))).1.mpr (Or.inr (by decide)),
    ((image_text_marshal (fileAt "blob".toList "abc".toList)
      "/definitely/not/there.PNG".toList).1 (hno _ (by decide))).1.mpr (Or.inl (by decide)),
    (((image_text_marshal (fileAt "blob".toList "abc".toList) "blob".toList).2
      { isDir := false, isRegular := true } rfl rfl).2 "abc".toList rfl).trans
      (congrArg Except.ok (by decide))⟩

end Ollama
